import Mathlib

/-!
# Solution application for a constraint-based type checker — verification

This development embeds the solution-application stage of the constraint-based
type checker found in `lib/Sema/TypeCheckConstraintsApply.cpp`: the pass that
rewrites a solved expression tree, inserting explicit coercion nodes,
materializing literal conversions, tuple shuffles and caller-side default
arguments, and maintaining the partial-application bookkeeping.

Modelling conventions:

* Types are represented in canonical form: the C++ `Type::isEqual`
  (equality of canonical types) becomes plain equality `=` on `Ty`.
  Sugar-only distinctions (named tuple fields survive because they are
  part of the canonical tuple type; `SubstitutedType`/paren sugar does not).
* Machine integers never overflow in the embedded fragment; widths are `Nat`.
* Fallible C++ code (functions returning `nullptr`, `llvm_unreachable`,
  failing `assert`s, and out-of-bounds accesses) is embedded as `Option`,
  with `none` covering both "returned null" and "crashed"; where a claim
  needs to distinguish the two, the embedding returns `Option (Option _)`.
* External collaborators (TypeChecker lookups, the AST factory for member
  references, the constraint solver) are parameters of an `Env` record;
  the functions of this file are translated from the source and consult
  the environment exactly where the source calls out.
-/

/-- Default-argument kinds of a tuple field / function parameter
(`DefaultArgumentKind` in the source): `noDefault` is `None` (no default
argument exists), `normal` lets the callee supply the default, and
`file`/`line`/`column` are the caller-side magic-identifier defaults. -/
inductive DefaultArg : Type where
  | noDefault
  | normal
  | file
  | line
  | column
deriving DecidableEq, Repr

/-- Kinds of magic identifier literals (`MagicIdentifierLiteralExpr::KindTy`). -/
inductive MagicKind : Type where
  | file
  | line
  | column
deriving DecidableEq, Repr

/-- Checked-cast classification (`CheckedCastKind`). -/
inductive CastKind : Type where
  | unresolved
  | invalidCoercible
  | downcast
  | superToArchetype
  | archetypeToArchetype
  | archetypeToConcrete
  | existentialToArchetype
  | existentialToConcrete
deriving DecidableEq, Repr

/-- Conversion restrictions recorded by the solver
(`ConversionRestrictionKind`). -/
inductive RestrictionKind : Type where
  | tupleToTuple
  | scalarToTuple
  | superclass
  | existential
  | valueToOptional
  | user
deriving DecidableEq, Repr

/-- Constraint-locator path elements (`ConstraintLocator::PathElementKind`),
restricted to the elements the embedded fragment touches. -/
inductive PathElt : Type where
  | applyArgument
  | applyFunction
  | conversionMember
  | constructorMember
  | scalarToTuple
  | loadElt
  | tupleElement (idx : Nat)
deriving DecidableEq, Repr

/-- A constraint locator, embedded as its path (the anchor expression is
immaterial to the embedded fragment; `withPathElement` is list append). -/
abbrev Loc := List PathElt

mutual
/-- The polymorphic type IR, in canonical form.  `nullTy` stands for the
null `Type()` that unset C++ type fields hold.  Classes and archetypes carry
their superclass inline, which makes the external `getSuperClassOf` query a
projection. `optional`/`slice` are the distinguished bound-generic /
array-slice types, `protoComp` is an existential (a single protocol type
when the list is a singleton). -/
inductive Ty : Type where
  | nullTy
  | builtinInt (width : Nat)
  | builtinFloat (width : Nat)
  | tuple (fields : Flds)
  | fn (inp res : Ty) (autocl blok : Bool)
  | lvalue (obj : Ty) (implicitQ : Bool)
  | metaTy (inst : Ty)
  | nominal (id : Nat)
  | classTy (id : Nat) (superTy : OTy)
  | archetype (id : Nat) (superTy : OTy)
  | protoComp (protos : List Nat)
  | optional (t : Ty)
  | slice (t : Ty)
deriving Repr

/-- Tuple fields (`TupleTypeElt` sequences): each field carries an optional
name, its type (for a variadic field, the array-slice type), its
default-argument kind, and the variadic flag. -/
inductive Flds : Type where
  | nil
  | cons (name : Option Nat) (ty : Ty) (defArg : DefaultArg) (vararg : Bool)
      (rest : Flds)
deriving Repr

/-- An optional type (used for inline superclass entries). -/
inductive OTy : Type where
  | noneT
  | someT (t : Ty)
deriving Repr
end

mutual
/-- Boolean equality on canonical types; this is the embedding of the C++
`Type::isEqual` (equality of canonical types). -/
def Ty.beq : Ty → Ty → Bool
  | .nullTy, .nullTy => true
  | .builtinInt w, .builtinInt w' => w == w'
  | .builtinFloat w, .builtinFloat w' => w == w'
  | .tuple fs, .tuple fs' => Flds.beq fs fs'
  | .fn i r a b, .fn i' r' a' b' => Ty.beq i i' && Ty.beq r r' && a == a' && b == b'
  | .lvalue o q, .lvalue o' q' => Ty.beq o o' && q == q'
  | .metaTy t, .metaTy t' => Ty.beq t t'
  | .nominal n, .nominal n' => n == n'
  | .classTy n s, .classTy n' s' => n == n' && OTy.beq s s'
  | .archetype n s, .archetype n' s' => n == n' && OTy.beq s s'
  | .protoComp ps, .protoComp ps' => ps == ps'
  | .optional t, .optional t' => Ty.beq t t'
  | .slice t, .slice t' => Ty.beq t t'
  | _, _ => false

/-- Boolean equality on tuple-field lists. -/
def Flds.beq : Flds → Flds → Bool
  | .nil, .nil => true
  | .cons n t d v fs, .cons n' t' d' v' fs' =>
      n == n' && Ty.beq t t' && d == d' && v == v' && Flds.beq fs fs'
  | _, _ => false

/-- Boolean equality on optional types. -/
def OTy.beq : OTy → OTy → Bool
  | .noneT, .noneT => true
  | .someT t, .someT t' => Ty.beq t t'
  | _, _ => false
end

set_option maxHeartbeats 1600000 in
mutual
theorem Ty.beq_iff : ∀ t u : Ty, Ty.beq t u = true ↔ t = u
  | .nullTy, u => by cases u <;> simp [Ty.beq]
  | .builtinInt w, u => by cases u <;> simp [Ty.beq]
  | .builtinFloat w, u => by cases u <;> simp [Ty.beq]
  | .tuple fs, u => by
      cases u <;> simp [Ty.beq]
      exact Flds.beq_iff_flds fs _
  | .fn i r a b, u => by
      cases u <;> simp [Ty.beq, Ty.beq_iff i, Ty.beq_iff r] <;> tauto
  | .lvalue o q, u => by cases u <;> simp [Ty.beq, Ty.beq_iff o] <;> tauto
  | .metaTy t, u => by cases u <;> simp [Ty.beq, Ty.beq_iff t]
  | .nominal n, u => by cases u <;> simp [Ty.beq]
  | .classTy n s, u => by
      cases u <;> simp [Ty.beq]
      intro _; exact OTy.beq_iff_oty s _
  | .archetype n s, u => by
      cases u <;> simp [Ty.beq]
      intro _; exact OTy.beq_iff_oty s _
  | .protoComp ps, u => by cases u <;> simp [Ty.beq]
  | .optional t, u => by cases u <;> simp [Ty.beq, Ty.beq_iff t]
  | .slice t, u => by cases u <;> simp [Ty.beq, Ty.beq_iff t]

theorem Flds.beq_iff_flds : ∀ fs fs' : Flds, Flds.beq fs fs' = true ↔ fs = fs'
  | .nil, .nil => by simp [Flds.beq]
  | .nil, .cons _ _ _ _ _ => by simp [Flds.beq]
  | .cons _ _ _ _ _, .nil => by simp [Flds.beq]
  | .cons n t d v fs, .cons n' t' d' v' fs' => by
      simp [Flds.beq, Ty.beq_iff t, Flds.beq_iff_flds fs fs']
      tauto

theorem OTy.beq_iff_oty : ∀ s s' : OTy, OTy.beq s s' = true ↔ s = s'
  | .noneT, .noneT => by simp [OTy.beq]
  | .noneT, .someT _ => by simp [OTy.beq]
  | .someT _, .noneT => by simp [OTy.beq]
  | .someT t, .someT t' => by simp [OTy.beq, Ty.beq_iff t]
end

instance : DecidableEq Ty := fun t u =>
  decidable_of_iff (Ty.beq t u = true) (Ty.beq_iff t u)

instance : DecidableEq Flds := fun t u =>
  decidable_of_iff (Flds.beq t u = true) (Flds.beq_iff_flds t u)

instance : DecidableEq OTy := fun t u =>
  decidable_of_iff (OTy.beq t u = true) (OTy.beq_iff_oty t u)

/-- One tuple field, as a record (the working representation used by the
embedded functions; `Flds` is only the constructor-level representation). -/
structure Fld : Type where
  name : Option Nat
  ty : Ty
  defArg : DefaultArg
  vararg : Bool
deriving DecidableEq, Repr

/-- Convert constructor-level tuple fields to a list of records. -/
def Flds.toList : Flds → List Fld
  | .nil => []
  | .cons n t d v fs => ⟨n, t, d, v⟩ :: Flds.toList fs

/-- Convert a list of field records back to the constructor form. -/
def Flds.ofList : List Fld → Flds
  | [] => .nil
  | f :: fs => .cons f.name f.ty f.defArg f.vararg (Flds.ofList fs)

theorem Flds.toList_ofList (l : List Fld) : (Flds.ofList l).toList = l := by
  induction l with
  | nil => rfl
  | cons f fs ih => simp [Flds.ofList, Flds.toList, ih]

theorem Flds.ofList_inj {l l' : List Fld} (h : Flds.ofList l = Flds.ofList l') :
    l = l' := by
  have := congrArg Flds.toList h
  rwa [Flds.toList_ofList, Flds.toList_ofList] at this

/-- Build a tuple type from field records (`TupleType::get`). -/
def Ty.mkTuple (l : List Fld) : Ty := Ty.tuple (Flds.ofList l)

/-- `TupleFieldElt::hasInit()`: the field carries a default argument. -/
def Fld.hasInit (f : Fld) : Bool := f.defArg != DefaultArg.noDefault

/-- `TupleTypeElt::getVarargBaseTy()`: the element type of a variadic field,
whose stored type is the array-slice type. -/
def Fld.varargBaseTy (f : Fld) : Option Ty :=
  match f.ty with
  | Ty.slice t => some t
  | _ => none

/-- `Type::getRValueType()`: strip an outer lvalue. -/
def Ty.getRValueType : Ty → Ty
  | Ty.lvalue obj _ => obj
  | t => t

/-- `Type::isBuiltinIntegerType(w)`. -/
def Ty.isBuiltinIntegerType (t : Ty) (w : Nat) : Bool :=
  match t with
  | Ty.builtinInt w' => w' == w
  | _ => false

/-- `Type::is<BuiltinIntegerType>()`. -/
def Ty.isBuiltinInt : Ty → Bool
  | Ty.builtinInt _ => true
  | _ => false

/-- `Type::isExistentialType(protocols)`: an existential together with its
protocol list. -/
def Ty.existentialProtos : Ty → Option (List Nat)
  | Ty.protoComp ps => some ps
  | _ => none

/-- `Type::mayHaveSuperclass()`: class types, and archetypes that declare a
superclass. -/
def Ty.mayHaveSuperclass : Ty → Bool
  | Ty.classTy _ _ => true
  | Ty.archetype _ (OTy.someT _) => true
  | _ => false

/-- `Type::getClassOrBoundGenericClass() != nullptr`. -/
def Ty.isClassType : Ty → Bool
  | Ty.classTy _ _ => true
  | _ => false

/-- `TypeChecker::getSuperClassOf` — a projection here because classes and
archetypes carry their superclass inline. -/
def Ty.getSuperClassOf : Ty → Option Ty
  | Ty.classTy _ (OTy.someT s) => some s
  | Ty.archetype _ (OTy.someT s) => some s
  | _ => none

/-- Walk the superclass chain of `t` looking for `target` (the loop of the
subclass-to-superclass case of `coerceToType`). -/
def Ty.inSuperChain (t target : Ty) : Bool :=
  match t with
  | Ty.classTy _ (OTy.someT s) => s = target || Ty.inSuperChain s target
  | Ty.archetype _ (OTy.someT s) => s = target || Ty.inSuperChain s target
  | _ => false

/-- `Type::getNominalOrBoundGenericNominal() != nullptr`: nominal types,
classes, the distinguished bound generics (`optional`, `slice`), and single
protocol types (a `ProtocolDecl` is a nominal declaration). -/
def Ty.isNominalish : Ty → Bool
  | Ty.nominal _ => true
  | Ty.classTy _ _ => true
  | Ty.optional _ => true
  | Ty.slice _ => true
  | Ty.protoComp [_] => true
  | _ => false

/-- `Type::is<ArchetypeType>()`. -/
def Ty.isArchetype : Ty → Bool
  | Ty.archetype _ _ => true
  | _ => false

/-- Modelled from the spec: `TupleType::getFieldForScalarInit` (defined in
the AST library, outside this file) — the index of the unique field that a
scalar must initialize, i.e. the only field without a default argument;
`-1` (here `none`) when there is no such unique field.  The spec's §4.D.1
allows the scalar field to be the variadic field, whose element type is then
used. -/
def getFieldForScalarInit (fields : List Fld) : Option Nat :=
  match fields.filter (fun f => !f.hasInit) , fields.findIdx? (fun f => !f.hasInit) with
  | [_], some i => some i
  | _, _ => none

/-- Shuffle-mapping entries of a `TupleShuffleExpr`: a source-field index, or
one of the sentinels `DefaultInitialize`, `CallerDefaultInitialize`,
`FirstVariadic` (named constants in the source; the numeric values are
immaterial to this file). -/
inductive ShuffleEntry : Type where
  | src (idx : Nat)
  | defaultInitialize
  | callerDefaultInitialize
  | firstVariadic
deriving DecidableEq, Repr

/-- Overload choices recorded by the solver (`OverloadChoiceKind`). -/
inductive OverloadChoice : Type where
  | decl (id : Nat)
  | declViaDynamic (id : Nat)
  | tupleIndex (idx : Nat)
  | baseType
  | funcReturningBaseType
  | identityFunction
  | typeDecl
deriving DecidableEq, Repr

/-- The known protocols consulted by the protocol-call adapters
(`KnownProtocolKind`, restricted to the two used here). -/
inductive KnownProto : Type where
  | logicValue
  | arrayBound
deriving DecidableEq, Repr

/-- Per-element metadata of a tuple literal: the field name, default-argument
kind, and variadic flag of its recorded tuple type.  A tuple literal's type
is these metadata zipped with its elements' types — the invariant the
rewriter maintains (it restamps a literal's type whenever it replaces an
element) is thus definitional in the embedding. -/
structure FldMeta : Type where
  name : Option Nat
  defArg : DefaultArg
  vararg : Bool
deriving DecidableEq, Repr

mutual
/-- The expression tree, restricted to the node kinds the embedded fragment
reads or creates.  Every node stores its type, as the C++ AST does, except
parentheses and tuple literals, whose types are computed from their
children (see `FldMeta`); `otherE` stands for an arbitrary already-rewritten
subexpression (a declaration reference, a literal, ...) with an identity
tag.  Implicit flags and source locations are dropped: the embedded
fragment reads them only for diagnostics. -/
inductive Expr : Type where
  | otherE (tag : Nat) (ty : Ty)
  | superRef (ty : Ty)
  | declRef (declId : Nat) (ty : Ty)
  | metatypeLit (ty : Ty)
  | magicLit (kind : MagicKind) (ty : Ty)
  | discardAssign (ty : Ty)
  | assign (dest src : Expr) (ty : Ty)
  | paren (sub : Expr)
  | tupleLit (elts : Exprs) (meta : List FldMeta)
  | memberRef (base : Expr) (declId : Nat) (ty : Ty)
  | call (fn arg : Expr) (isSuper : Bool) (ty : Ty)
  | load (sub : Expr) (ty : Ty)
  | requalify (sub : Expr) (ty : Ty)
  | materialize (sub : Expr) (ty : Ty)
  | derivedToBase (sub : Expr) (ty : Ty)
  | archetypeToSuper (sub : Expr) (ty : Ty)
  | erasure (sub : Expr) (ty : Ty) (conformances : List (Option Nat))
  | injectIntoOptional (sub : Expr) (ty : Ty)
  | bridgeToBlock (sub : Expr) (ty : Ty)
  | functionConversion (sub : Expr) (ty : Ty)
  | metatypeConversion (sub : Expr) (ty : Ty)
  | autoClosure (sub : Expr) (ty : Ty)
  | scalarToTuple (sub : Expr) (ty : Ty) (defaults : STElts) (injection : OExpr)
  | tupleShuffle (sub : Expr) (ty : Ty) (mapping : List ShuffleEntry)
      (defaultArgsOwner : Option Nat) (callerDefaults : Exprs)
      (injection : OExpr)
  | condCheckedCast (sub : Expr) (castTy : Ty) (castKind : Option CastKind)
      (ty : Ty)

/-- A list of expressions (tuple-literal elements, caller default
arguments). -/
inductive Exprs : Type where
  | nil
  | cons (e : Expr) (rest : Exprs)

/-- An optional expression (varargs injection functions). -/
inductive OExpr : Type where
  | noneE
  | someE (e : Expr)

/-- Elements of a `ScalarToTupleExpr`: the scalar slot, a synthesized
caller-side default argument, or the declaration owning the callee-side
default. -/
inductive STElts : Type where
  | nil
  | scalarSlot (rest : STElts)
  | callerDefault (e : Expr) (rest : STElts)
  | ownerDefault (declId : Nat) (rest : STElts)
end

mutual
/-- `Expr::getType()`.  Parens have their subexpression's type, and a tuple
literal's type zips its field metadata with its elements' types. -/
def Expr.ty : Expr → Ty
  | .otherE _ t => t
  | .superRef t => t
  | .declRef _ t => t
  | .metatypeLit t => t
  | .magicLit _ t => t
  | .discardAssign t => t
  | .assign _ _ t => t
  | .paren sub => Expr.ty sub
  | .tupleLit es meta => Ty.tuple (Exprs.zipFlds meta es)
  | .memberRef _ _ t => t
  | .call _ _ _ t => t
  | .load _ t => t
  | .requalify _ t => t
  | .materialize _ t => t
  | .derivedToBase _ t => t
  | .archetypeToSuper _ t => t
  | .erasure _ t _ => t
  | .injectIntoOptional _ t => t
  | .bridgeToBlock _ t => t
  | .functionConversion _ t => t
  | .metatypeConversion _ t => t
  | .autoClosure _ t => t
  | .scalarToTuple _ t _ _ => t
  | .tupleShuffle _ t _ _ _ _ => t
  | .condCheckedCast _ _ _ t => t

/-- The recorded tuple type of a literal: metadata zipped with the
elements' types (truncating at the shorter list; the embedded fragment
always builds the two at equal length). -/
def Exprs.zipFlds : List FldMeta → Exprs → Flds
  | m :: ms, .cons e es =>
    Flds.cons m.name (Expr.ty e) m.defArg m.vararg (Exprs.zipFlds ms es)
  | _, _ => Flds.nil
end

/-- Convert a constructor-level expression list to a `List`. -/
def Exprs.toList : Exprs → List Expr
  | .nil => []
  | .cons e es => e :: Exprs.toList es

/-- Convert a `List` of expressions to the constructor form. -/
def Exprs.ofList : List Expr → Exprs
  | [] => .nil
  | e :: es => .cons e (Exprs.ofList es)

theorem Exprs.toList_ofList_e (l : List Expr) : (Exprs.ofList l).toList = l := by
  induction l with
  | nil => rfl
  | cons e es ih => simp [Exprs.ofList, Exprs.toList, ih]

/-- Modelled from the spec: `TypeChecker::coerceToRValue` (defined outside
this file; §6 of the spec lists it among the TypeChecker entry points used
here): loading turns an lvalue into its object type, and everything else is
returned unchanged. -/
def tcCoerceToRValue (e : Expr) : Expr :=
  match e.ty with
  | Ty.lvalue obj _ => Expr.load e obj
  | _ => e

mutual
/-- Erase every stored type annotation (used to state frame conditions:
"only type annotations were updated").  A tuple literal's field metadata
determines its computed type (it is what a `setType` on the literal
updates), so it is erased as well. -/
def Expr.eraseTy : Expr → Expr
  | .otherE g _ => .otherE g Ty.nullTy
  | .superRef _ => .superRef Ty.nullTy
  | .declRef d _ => .declRef d Ty.nullTy
  | .metatypeLit _ => .metatypeLit Ty.nullTy
  | .magicLit k _ => .magicLit k Ty.nullTy
  | .discardAssign _ => .discardAssign Ty.nullTy
  | .assign d s _ => .assign (Expr.eraseTy d) (Expr.eraseTy s) Ty.nullTy
  | .paren e => .paren (Expr.eraseTy e)
  | .tupleLit es _ => .tupleLit (Exprs.eraseTy es) []
  | .memberRef b d _ => .memberRef (Expr.eraseTy b) d Ty.nullTy
  | .call f a s _ => .call (Expr.eraseTy f) (Expr.eraseTy a) s Ty.nullTy
  | .load e _ => .load (Expr.eraseTy e) Ty.nullTy
  | .requalify e _ => .requalify (Expr.eraseTy e) Ty.nullTy
  | .materialize e _ => .materialize (Expr.eraseTy e) Ty.nullTy
  | .derivedToBase e _ => .derivedToBase (Expr.eraseTy e) Ty.nullTy
  | .archetypeToSuper e _ => .archetypeToSuper (Expr.eraseTy e) Ty.nullTy
  | .erasure e _ cs => .erasure (Expr.eraseTy e) Ty.nullTy cs
  | .injectIntoOptional e _ => .injectIntoOptional (Expr.eraseTy e) Ty.nullTy
  | .bridgeToBlock e _ => .bridgeToBlock (Expr.eraseTy e) Ty.nullTy
  | .functionConversion e _ => .functionConversion (Expr.eraseTy e) Ty.nullTy
  | .metatypeConversion e _ => .metatypeConversion (Expr.eraseTy e) Ty.nullTy
  | .autoClosure e _ => .autoClosure (Expr.eraseTy e) Ty.nullTy
  | .scalarToTuple e _ ds inj =>
      .scalarToTuple (Expr.eraseTy e) Ty.nullTy (STElts.eraseTy ds)
        (OExpr.eraseTy inj)
  | .tupleShuffle e _ m o cds inj =>
      .tupleShuffle (Expr.eraseTy e) Ty.nullTy m o (Exprs.eraseTy cds)
        (OExpr.eraseTy inj)
  | .condCheckedCast e ct k _ =>
      .condCheckedCast (Expr.eraseTy e) ct k Ty.nullTy

/-- `Expr.eraseTy` on expression lists. -/
def Exprs.eraseTy : Exprs → Exprs
  | .nil => .nil
  | .cons e es => .cons (Expr.eraseTy e) (Exprs.eraseTy es)

/-- `Expr.eraseTy` on optional expressions. -/
def OExpr.eraseTy : OExpr → OExpr
  | .noneE => .noneE
  | .someE e => .someE (Expr.eraseTy e)

/-- `Expr.eraseTy` on scalar-to-tuple element lists. -/
def STElts.eraseTy : STElts → STElts
  | .nil => .nil
  | .scalarSlot r => .scalarSlot (STElts.eraseTy r)
  | .callerDefault e r => .callerDefault (Expr.eraseTy e) (STElts.eraseTy r)
  | .ownerDefault d r => .ownerDefault d (STElts.eraseTy r)
end

/-- The environment: the read-only `Solution` maps and the external
collaborators (TypeChecker queries, the member-reference builder of
component E, the external `computeTupleShuffle`) that the embedded
functions call out to.  Each field stands for one entry point, with
`Option` results where the C++ returns null or a boolean failure flag. -/
structure Env : Type where
  /-- `solution.constraintRestrictions` lookup, keyed by the canonical
  (from, to) pair. -/
  restriction : Ty → Ty → Option RestrictionKind
  /-- `solution.overloadChoices` lookup: choice and opened type. -/
  overloadChoiceAt : Loc → Option (OverloadChoice × Ty)
  /-- External `computeTupleShuffle(fromTuple, toTuple, sources,
  variadicArgs, hasMandatoryTupleLabels)`; `none` when the shuffle cannot
  be computed (the C++ returns `true` for failure). -/
  computeTupleShuffle : Ty → Ty → Bool → Option (List ShuffleEntry × List Nat)
  /-- External `hasMandatoryTupleLabels(expr)`. -/
  hasMandatoryTupleLabels : Expr → Bool
  /-- Static `findDefaultArgsOwner(cs, solution, locator)`: resolution of a
  locator to the declaration owning the callee's default arguments
  (abstracted: the embedded claims do not inspect locator simplification). -/
  findDefaultArgsOwner : Loc → Option Nat
  /-- `AbstractFunctionDecl::getDefaultArg(index)`: kind and expected type. -/
  getOwnerDefaultArg : Nat → Nat → DefaultArg × Ty
  /-- `TypeChecker::typeCheckExpression(init, dc, convertType, false)`
  applied to a freshly created expression; `some` is the converted
  expression, `none` the `true` (failed) result. -/
  typeCheckExpr : Expr → Ty → Option Expr
  /-- `TypeChecker::buildArrayInjectionFnRef(dc, sliceType, boundType, loc)`. -/
  buildArrayInjectionFnRef : Ty → Ty → Option Expr
  /-- `TypeChecker::conformsToProtocol(type, proto, dc, &conformance)`:
  `none` when the type does not conform; otherwise the conformance pointer
  (which is itself null for archetypes). -/
  conformsToProtocol : Ty → Nat → Option (Option Nat)
  /-- `TypeChecker::getWitnessType(type, protocol, conformance, name, diag)`. -/
  getWitnessType : Ty → Nat → Option Nat → Nat → Option Ty
  /-- Requirement lookup inside `findNamedWitness`: the first valid
  `FuncDecl` member of the protocol with the given name. -/
  protoRequirement : Nat → Nat → Option Nat
  /-- `ProtocolConformance::getWitness(requirement)`, as a declaration id. -/
  confWitness : Nat → Nat → Option Nat
  /-- `TypeChecker::lookupMember(type, name, dc)`, as declaration ids. -/
  lookupMember : Ty → Nat → List Nat
  /-- `isa<FuncDecl>(decl)`. -/
  declIsFunc : Nat → Bool
  /-- `ValueDecl::isInstanceMember()`. -/
  declIsInstanceMember : Nat → Bool
  /-- `FuncDecl::getNaturalArgumentCount()`. -/
  declNaturalArgCount : Nat → Nat
  /-- `ValueDecl::getType()`. -/
  declTy : Nat → Ty
  /-- `ExprRewriter::buildMemberRef(base, dotLoc, decl, nameLoc, openedType,
  locator, implicit)` — component E (the member-reference builder),
  abstracted as an environment entry point. -/
  buildMemberRef : Expr → Nat → Ty → Option Expr
  /-- `TypeChecker::callWitness`'s fresh constraint system and
  `getTypeOfMemberReference` produce the opened type of the witness
  reference; abstracted as a query on base type and witness. -/
  typeOfMemberRef : Ty → Nat → Ty
  /-- `TypeChecker::getProtocol(loc, KnownProtocolKind)` for the protocols
  the embedded fragment names. -/
  getProtocol : KnownProto → Nat
  /-- `TypeChecker::typeCheckCheckedCast(fromType, toType, ...)`. -/
  typeCheckCheckedCast : Ty → Ty → CastKind

/-- `Expr::setType`: replace the stored type of the node itself. -/
def Expr.setType (e : Expr) (t : Ty) : Expr :=
  match e with
  | .otherE g _ => .otherE g t
  | .superRef _ => .superRef t
  | .declRef d _ => .declRef d t
  | .metatypeLit _ => .metatypeLit t
  | .magicLit k _ => .magicLit k t
  | .discardAssign _ => .discardAssign t
  | .assign d s _ => .assign d s t
  | .paren e => .paren e
  | .tupleLit es meta => .tupleLit es meta
  | .memberRef b d _ => .memberRef b d t
  | .call f a s _ => .call f a s t
  | .load e _ => .load e t
  | .requalify e _ => .requalify e t
  | .materialize e _ => .materialize e t
  | .derivedToBase e _ => .derivedToBase e t
  | .archetypeToSuper e _ => .archetypeToSuper e t
  | .erasure e _ cs => .erasure e t cs
  | .injectIntoOptional e _ => .injectIntoOptional e t
  | .bridgeToBlock e _ => .bridgeToBlock e t
  | .functionConversion e _ => .functionConversion e t
  | .metatypeConversion e _ => .metatypeConversion e t
  | .autoClosure e _ => .autoClosure e t
  | .scalarToTuple e _ ds inj => .scalarToTuple e t ds inj
  | .tupleShuffle e _ m o cds inj => .tupleShuffle e t m o cds inj
  | .condCheckedCast e ct k _ => .condCheckedCast e ct k t

/-- Strip parentheses (the `while (auto paren = dyn_cast<ParenExpr>(...))`
loop at the head of `coerceTupleToTuple`). -/
def Expr.stripParens : Expr → Expr
  | .paren sub => Expr.stripParens sub
  | e => e

/-- Replace the paren-stripped core of `e` by `core` (the source mutates the
literal in place and then restamps every `ParenExpr` layer with the same
type; paren types are computed here, so only the core changes). -/
def Expr.replaceCore (e : Expr) (core : Expr) : Expr :=
  match e with
  | .paren sub => .paren (Expr.replaceCore sub core)
  | _ => core

/-- The field metadata of a tuple type's fields (what a `setType` with that
tuple type leaves on a literal, its element types being computed). -/
def Fld.metaOf (l : List Fld) : List FldMeta :=
  l.map (fun f => ⟨f.name, f.defArg, f.vararg⟩)

/-- The implicit empty tuple argument `TupleExpr(loc, { }, ...)` with type
`TupleType::getEmpty`. -/
def emptyTupleExpr : Expr := Expr.tupleLit Exprs.nil []

/-- `isa<SuperRefExpr>(...)` on the apply argument. -/
def Expr.isSuperRef : Expr → Bool
  | .superRef _ => true
  | _ => false

/-- `OverloadChoice::getDecl()`, which asserts a declaration-carrying
choice. -/
def OverloadChoice.declId? : OverloadChoice → Option Nat
  | .decl d => some d
  | .declViaDynamic d => some d
  | _ => none

/-- `AnyFunctionType::getResult()` after a `castTo<AnyFunctionType>`. -/
def Ty.fnResult? : Ty → Option Ty
  | Ty.fn _ r _ _ => some r
  | _ => none

/-- The `TypeOrName` argument of `convertLiteral`: either a direct type or
the name of an associated-type witness. -/
inductive TyOrName : Type where
  | ty (t : Ty)
  | name (n : Nat)

/-- The identifier `"getLogicValue"`. -/
def nameGetLogicValue : Nat := 1
/-- The identifier `"_getBuiltinLogicValue"`. -/
def nameGetBuiltinLogicValue : Nat := 2
/-- The identifier `"getArrayBoundValue"`. -/
def nameGetArrayBoundValue : Nat := 3
/-- The identifier `"_getBuiltinArrayBoundValue"`. -/
def nameGetBuiltinArrayBoundValue : Nat := 4

/-- The magic-identifier literal kind of a caller-side default-argument
kind (the `switch` of `getCallerDefaultArg`); `none` for the two
non-magic kinds. -/
def DefaultArg.magicKind : DefaultArg → Option MagicKind
  | .file => some MagicKind.file
  | .line => some MagicKind.line
  | .column => some MagicKind.column
  | _ => none

/-- `getCallerDefaultArg(tc, dc, loc, owner, index)` (source lines
2065–2100): synthesize the caller-side default argument for field `index`
of `owner`.  `some none` is the null result (`Normal`: the callee supplies
the default); the outer `none` is a crash — the `llvm_unreachable` for kind
`None`, or the `assert(!invalid && "conversion cannot fail")` after
type-checking the magic literal. -/
def getCallerDefaultArg (env : Env) (owner : Nat) (index : Nat) :
    Option (Option Expr) :=
  let defArg := env.getOwnerDefaultArg owner index
  match defArg.1.magicKind with
  | none =>
    match defArg.1 with
    | DefaultArg.normal => some none
    | _ => none
  | some magicKind =>
    let init := Expr.magicLit magicKind Ty.nullTy
    match env.typeCheckExpr init defArg.2 with
    | some converted => some (some converted)
    | none => none

/-- `findNamedWitness(tc, dc, type, proto, name, diag)` (source lines
133–170): resolve the named protocol requirement to the concrete witness of
`type`'s conformance, or the requirement itself for an archetype. -/
def findNamedWitness (env : Env) (type : Ty) (proto : Nat) (name : Nat) :
    Option Nat :=
  match env.protoRequirement proto name with
  | none => none
  | some requirement =>
    match env.conformsToProtocol type proto with
    | none => none
    | some conformance =>
      if type.isArchetype then some requirement
      else
        match conformance with
        | none => none
        | some c => env.confWitness c requirement

/-- `ExprRewriter::coerceExistential` (source lines 2440–2463): gather one
conformance per protocol of the target existential. -/
def gatherConformances (env : Env) (fromType : Ty) :
    List Nat → Option (List (Option Nat))
  | [] => some []
  | p :: ps =>
    match env.conformsToProtocol fromType p with
    | none => none
    | some c =>
      match gatherConformances env fromType ps with
      | none => none
      | some cs => some (c :: cs)

/-- `ExprRewriter::coerceExistential` (source lines 2440–2463). -/
def coerceExistential (env : Env) (expr : Expr) (toType : Ty) : Option Expr :=
  match toType.existentialProtos with
  | none => none
  | some protos =>
    match gatherConformances env expr.ty protos with
    | none => none
    | some conformances => some (Expr.erasure expr toType conformances)

/-- The shared subclass-to-superclass emission of `coerceToType` (both the
`Superclass` restriction case, lines 2578–2595, and the superclass-chain
case, lines 2687–2705): an archetype is first sent to its declared
superclass, and a `DerivedToBaseExpr` is added unless the archetype's
superclass is already the target. -/
def superclassCoerce (expr : Expr) (toType : Ty) : Option Expr :=
  match expr.ty with
  | Ty.archetype _ sup =>
    match sup with
    | OTy.noneT => none
    | OTy.someT s =>
      let e := Expr.archetypeToSuper expr s
      if s = toType then some e
      else some (Expr.derivedToBase e toType)
  | _ => some (Expr.derivedToBase expr toType)

/-- State of the destination-field loop of `coerceTupleToTuple` (the local
variables declared before the loop at source lines 2116–2123, plus the
in-place mutated `sources` array and tuple-literal element list). -/
structure TupleLoopSt : Type where
  hasVarArg : Bool
  anythingShuffled : Bool
  hasInits : Bool
  toSugarFields : List Fld
  fromExprFields : List (Option Fld)
  callerDefaultArgs : List Expr
  defaultArgsOwner : Option Nat
  sources : List ShuffleEntry
  elts : Option (List Expr)

/-- The default-constructed `TupleTypeElt` (a null type) that unassigned
entries of `fromTupleExprFields` hold. -/
def Fld.nullFld : Fld := ⟨none, Ty.nullTy, DefaultArg.noDefault, false⟩

/-- Sugar-field computation of `coerceScalarToTuple` (source lines
2351–2385): walk the destination fields, stopping (`break`) at the first
field with a default; at the scalar position the coerced expression's type
is asserted against the field and recorded.  Returns the collected sugar
fields and the `hasInit` flag. -/
def scalarSugarFields (exprTy : Ty) :
    List Fld → Nat → Nat → List Fld → Option (List Fld × Bool)
  | [], _, _, acc => some (acc, false)
  | field :: rest, i, toScalarIdx, acc =>
    if field.hasInit then some (acc, true)
    else if i = toScalarIdx then
      if field.vararg then
        match field.varargBaseTy with
        | some base =>
          if exprTy = base then
            scalarSugarFields exprTy rest (i+1) toScalarIdx
              (acc ++ [⟨field.name, field.ty, field.defArg, true⟩])
          else none
        | none => none
      else
        if exprTy = field.ty then
          scalarSugarFields exprTy rest (i+1) toScalarIdx
            (acc ++ [⟨field.name, exprTy, DefaultArg.noDefault, false⟩])
        else none
    else
      scalarSugarFields exprTy rest (i+1) toScalarIdx (acc ++ [field])

/-- Element computation of `coerceScalarToTuple` (source lines 2387–2430):
a null entry for the scalar position, nothing for the variadic field, and a
caller-side default argument (or the owner of the callee-side default) for
every other field, which the source asserts to have a default. -/
def scalarElements (env : Env) (locator : Loc) :
    List Fld → Nat → Nat → Option Nat → Option STElts
  | [], _, _, _ => some STElts.nil
  | field :: rest, i, toScalarIdx, owner? =>
    if i = toScalarIdx then
      match scalarElements env locator rest (i+1) toScalarIdx owner? with
      | none => none
      | some es => some (STElts.scalarSlot es)
    else if field.vararg then
      scalarElements env locator rest (i+1) toScalarIdx owner?
    else if !field.hasInit then none
    else
      let ownerRes : Option Nat :=
        match owner? with
        | some o => some o
        | none => env.findDefaultArgsOwner locator
      match ownerRes with
      | none => none
      | some owner =>
        match getCallerDefaultArg env owner i with
        | none => none
        | some (some defArg) =>
          match scalarElements env locator rest (i+1) toScalarIdx (some owner) with
          | none => none
          | some es => some (STElts.callerDefault defArg es)
        | some none =>
          match scalarElements env locator rest (i+1) toScalarIdx (some owner) with
          | none => none
          | some es => some (STElts.ownerDefault owner es)

mutual
/-- `ExprRewriter::coerceToType(expr, toType, locator)` (source lines
2552–2785).  The `Nat` argument is recursion fuel: the C++ recursion is not
structurally bounded, and `none` at fuel zero covers the (absent) divergent
runs.  `none` otherwise is a null return or a crash, per the file-level
conventions. -/
def coerceToType (env : Env) : Nat → Expr → Ty → Loc → Option Expr
  | 0, _, _, _ => none
  | Nat.succ fuel, expr, toType, locator =>
    let fromType := expr.ty
    -- If the types are already equivalent, we don't have to do anything.
    if fromType = toType then some expr
    else
      -- If the solver recorded what we should do here, just do it immediately.
      match env.restriction fromType toType with
      | some RestrictionKind.tupleToTuple => none
      | some RestrictionKind.scalarToTuple =>
        (match toType with
         | Ty.tuple fs =>
           (match getFieldForScalarInit fs.toList with
            | some idx => coerceScalarToTuple env fuel expr fs.toList idx locator
            | none => none)
         | _ => none)
      | some RestrictionKind.superclass => superclassCoerce expr toType
      | some RestrictionKind.existential => coerceExistential env expr toType
      | some RestrictionKind.valueToOptional =>
        (match toType with
         | Ty.optional valueType =>
           (match coerceToType env fuel expr valueType locator with
            | none => none
            | some e => some (Expr.injectIntoOptional e toType))
         | _ => none)
      | some RestrictionKind.user =>
        coerceViaUserConversion env fuel expr toType locator
      | none => coerceTupleStep env fuel expr toType locator

/-- Continuation of `coerceToType`: coercions to tuple type (source lines
2617–2635). -/
def coerceTupleStep (env : Env) : Nat → Expr → Ty → Loc → Option Expr
  | 0, _, _, _ => none
  | Nat.succ fuel, expr, toType, locator =>
    match toType, expr.ty with
    | Ty.tuple toFs, Ty.tuple fromFs =>
      (match env.computeTupleShuffle expr.ty toType
               (env.hasMandatoryTupleLabels expr) with
       | some (sources, variadicArgs) =>
         coerceTupleToTuple env fuel expr fromFs.toList toFs.toList locator
           sources variadicArgs
       | none => coerceScalarCheckStep env fuel expr toType locator)
    | Ty.tuple _, _ => coerceScalarCheckStep env fuel expr toType locator
    | _, _ => coerceLValueStep env fuel expr toType locator

/-- Continuation of `coerceToType`: coerce scalar to tuple (source lines
2630–2635). -/
def coerceScalarCheckStep (env : Env) : Nat → Expr → Ty → Loc → Option Expr
  | 0, _, _, _ => none
  | Nat.succ fuel, expr, toType, locator =>
    match toType with
    | Ty.tuple toFs =>
      (match getFieldForScalarInit toFs.toList with
       | some idx => coerceScalarToTuple env fuel expr toFs.toList idx locator
       | none => coerceLValueStep env fuel expr toType locator)
    | _ => coerceLValueStep env fuel expr toType locator

/-- Continuation of `coerceToType`: coercions from an lvalue (requalify or
load, with the `SuperRefExpr` refinement) and to an lvalue (materialize)
(source lines 2637–2679). -/
def coerceLValueStep (env : Env) : Nat → Expr → Ty → Loc → Option Expr
  | 0, _, _, _ => none
  | Nat.succ fuel, expr, toType, locator =>
    match expr.ty with
    | Ty.lvalue obj q =>
      -- Coercion of a SuperRefExpr: refine the type of the 'super'
      -- reference so no DerivedToBase conversion is inserted later.
      let refined : Expr × Ty :=
        match expr with
        | Expr.superRef _ =>
          (Expr.superRef (Ty.lvalue toType.getRValueType q), toType.getRValueType)
        | _ => (expr, obj)
      (match toType with
       | Ty.lvalue _ toQ =>
         coerceToType env fuel
           (Expr.requalify refined.1 (Ty.lvalue refined.2 toQ)) toType locator
       | _ =>
         coerceToType env fuel (Expr.load refined.1 refined.2) toType locator)
    | _ =>
      match toType with
      | Ty.lvalue toObj _ =>
        (match coerceToType env fuel expr toObj locator with
         | none => none
         | some e => some (Expr.materialize e toType))
      | _ => coerceSuperStep env fuel expr toType locator

/-- Continuation of `coerceToType`: coercion from a subclass to a
superclass along the superclass chain (source lines 2681–2707). -/
def coerceSuperStep (env : Env) : Nat → Expr → Ty → Loc → Option Expr
  | 0, _, _, _ => none
  | Nat.succ fuel, expr, toType, locator =>
    if expr.ty.mayHaveSuperclass && toType.isClassType
        && Ty.inSuperChain expr.ty toType then
      superclassCoerce expr toType
    else coerceFuncStep env fuel expr toType locator

/-- Continuation of `coerceToType`: coercions to function type —
autoclosure, block bridging, function conversion (source lines 2709–2748).
The source builds the `AutoClosureExpr`/`BridgeToBlockExpr` without
null-checking the recursive coercion; a null subexpression crashes
downstream (`computeCaptures`), embedded as `none`. -/
def coerceFuncStep (env : Env) : Nat → Expr → Ty → Loc → Option Expr
  | 0, _, _, _ => none
  | Nat.succ fuel, expr, toType, locator =>
    match toType with
    | Ty.fn inp res autoc blok =>
      if autoc then
        match coerceToType env fuel expr res (locator ++ [PathElt.loadElt]) with
        | none => none
        | some e => some (Expr.autoClosure e toType)
      else
        let fromFuncBlock : Option Bool :=
          match expr.ty with
          | Ty.fn _ _ _ b => some b
          | _ => none
        if blok && !(fromFuncBlock == some true) then
          -- `FunctionType::get(input, result)` drops both flags
          match coerceToType env fuel expr (Ty.fn inp res false false) locator with
          | none => none
          | some e => some (Expr.bridgeToBlock e toType)
        else
          match fromFuncBlock with
          | some _ => some (Expr.functionConversion expr toType)
          | none => coerceExistentialStep env fuel expr toType locator
    | _ => coerceExistentialStep env fuel expr toType locator

/-- Tail of `coerceToType`: existential erasure, injection into `Optional`,
the user-conversion fallback, and metatype conversion (source lines
2751–2784); anything else is `llvm_unreachable("Unhandled coercion")`. -/
def coerceExistentialStep (env : Env) : Nat → Expr → Ty → Loc → Option Expr
  | 0, _, _, _ => none
  | Nat.succ fuel, expr, toType, locator =>
    if toType.existentialProtos.isSome then coerceExistential env expr toType
    else
      match toType with
      | Ty.optional valueType =>
        (match coerceToType env fuel expr valueType locator with
         | none => none
         | some e => some (Expr.injectIntoOptional e toType))
      | _ =>
        if expr.ty.isNominalish || expr.ty.isArchetype
            || toType.isNominalish || toType.isArchetype then
          coerceViaUserConversion env fuel expr toType locator
        else
          match expr.ty, toType with
          | Ty.metaTy _, Ty.metaTy i => some (Expr.metatypeConversion expr (Ty.metaTy i))
          | _, _ => none

/-- `ExprRewriter::coerceTupleToTuple(expr, fromTuple, toTuple, locator,
sources, variadicArgs)` (source lines 2102–2311). -/
def coerceTupleToTuple (env : Env) :
    Nat → Expr → List Fld → List Fld → Loc → List ShuffleEntry → List Nat →
    Option Expr
  | 0, _, _, _, _, _, _ => none
  | Nat.succ fuel, expr, fromFields, toFields, locator, sources, variadicArgs =>
    -- Capture the tuple expression, if there is one.
    let fromTupleElts : Option (List Expr) :=
      match expr.stripParens with
      | Expr.tupleLit es _meta => some es.toList
      | _ => none
    let st0 : TupleLoopSt :=
      ⟨false, false, false, [], List.replicate fromFields.length none, [],
       none, sources, fromTupleElts⟩
    match tupleDestLoop env fuel locator fromFields toFields.length 0 toFields st0 with
    | none => none
    | some st1 =>
      -- Convert all of the variadic arguments to the destination type, and
      -- find the appropriate injection function.
      let varRes : Option (TupleLoopSt × OExpr) :=
        if st1.hasVarArg then
          match toFields.getLast? with
          | none => none
          | some lastField =>
            match lastField.varargBaseTy with
            | none => none
            | some toEltType =>
              match tupleVariadicLoop env fuel locator fromFields toEltType
                      variadicArgs st1 with
              | none => none
              | some st2 =>
                match lastField.ty with
                | Ty.slice _ =>
                  (match env.buildArrayInjectionFnRef lastField.ty
                           (Ty.builtinInt 64) with
                   | none => none
                   | some injFn => some (st2, OExpr.someE injFn))
                | _ => none
        else some (st1, OExpr.noneE)
      match varRes with
      | none => none
      | some (st2, injection) =>
        -- Compute the updated 'from' tuple type (conversions were done in
        -- place), and retype the literal and its enclosing parens.
        let fromTupleType :=
          Ty.mkTuple (st2.fromExprFields.map (fun f => f.getD Fld.nullFld))
        let expr1 :=
          match st2.elts with
          | some es =>
            expr.replaceCore
              (Expr.tupleLit (Exprs.ofList es)
                (Fld.metaOf (st2.fromExprFields.map (fun f => f.getD Fld.nullFld))))
          | none => expr
        -- Compute the re-sugared tuple type.
        let toSugarType :=
          if st2.hasInits then Ty.mkTuple toFields
          else Ty.mkTuple st2.toSugarFields
        -- If we don't have to shuffle anything, we're done.
        match st2.elts, st2.anythingShuffled with
        | some es, false =>
          some (expr.replaceCore
                  (Expr.tupleLit (Exprs.ofList es)
                    (Fld.metaOf (if st2.hasInits then toFields
                                 else st2.toSugarFields))))
        | _, _ =>
          -- Create the tuple shuffle.
          some (Expr.tupleShuffle expr1 toSugarType st2.sources
                  st2.defaultArgsOwner (Exprs.ofList st2.callerDefaultArgs)
                  injection)

/-- The destination-field loop of `coerceTupleToTuple` (source lines
2124–2217): dispatch on the shuffle entry of each destination field.  A
`CallerDefaultInitialize` entry cannot come from the solver; the C++ would
treat its numeric value as a gigantic source index and crash, embedded as
`none`. -/
def tupleDestLoop (env : Env) :
    Nat → Loc → List Fld → Nat → Nat → List Fld → TupleLoopSt →
    Option TupleLoopSt
  | 0, _, _, _, _, _, _ => none
  | Nat.succ fuel, locator, fromFields, n, i, rest, st =>
    match rest with
    | [] => some st
    | toElt :: rest' =>
      match st.sources[i]? with
      | none => none
      | some ShuffleEntry.defaultInitialize =>
        -- Dig out the owner of the default arguments.
        let ownerRes : Option Nat :=
          match st.defaultArgsOwner with
          | some o => some o
          | none => env.findDefaultArgsOwner locator
        (match ownerRes with
         | none => none
         | some owner =>
           -- Create a caller-side default argument, if we need one.
           match getCallerDefaultArg env owner i with
           | none => none
           | some (some defArg) =>
             tupleDestLoop env fuel locator fromFields n (i+1) rest'
               ⟨st.hasVarArg, true, true, st.toSugarFields ++ [toElt],
                st.fromExprFields, st.callerDefaultArgs ++ [defArg],
                some owner,
                st.sources.set i ShuffleEntry.callerDefaultInitialize, st.elts⟩
           | some none =>
             tupleDestLoop env fuel locator fromFields n (i+1) rest'
               ⟨st.hasVarArg, true, true, st.toSugarFields ++ [toElt],
                st.fromExprFields, st.callerDefaultArgs, some owner,
                st.sources, st.elts⟩)
      | some ShuffleEntry.firstVariadic =>
        -- assert(i == n-1 && "Vararg not at the end?")
        if i = n - 1 then
          tupleDestLoop env fuel locator fromFields n (i+1) rest'
            ⟨true, true, st.hasInits, st.toSugarFields ++ [toElt],
             st.fromExprFields, st.callerDefaultArgs, st.defaultArgsOwner,
             st.sources, st.elts⟩
        else none
      | some ShuffleEntry.callerDefaultInitialize => none
      | some (ShuffleEntry.src idx) =>
        let shuffled := st.anythingShuffled || (idx != i)
        match fromFields[idx]? with
        | none => none
        | some fromElt =>
          if fromElt.ty = toElt.ty then
            -- Matching elements: get the sugared type from the tuple
            -- literal, if there is one.
            let sugarRes : Option Ty :=
              match st.elts with
              | some es =>
                (match es[idx]? with
                 | some el => some el.ty
                 | none => none)
              | none => some fromElt.ty
            match sugarRes with
            | none => none
            | some sugarTy =>
              tupleDestLoop env fuel locator fromFields n (i+1) rest'
                ⟨st.hasVarArg, shuffled, st.hasInits || toElt.hasInit,
                 st.toSugarFields ++
                   [⟨toElt.name, sugarTy, toElt.defArg, toElt.vararg⟩],
                 st.fromExprFields.set idx (some fromElt),
                 st.callerDefaultArgs, st.defaultArgsOwner, st.sources, st.elts⟩
          else
            -- Actually convert the source element, in place.
            match st.elts with
            | none => none  -- diag::tuple_conversion_not_expressible
            | some es =>
              match es[idx]? with
              | none => none
              | some el =>
                match coerceToType env fuel el toElt.ty
                        (locator ++ [PathElt.tupleElement idx]) with
                | none => none
                | some convertedElt =>
                  tupleDestLoop env fuel locator fromFields n (i+1) rest'
                    ⟨st.hasVarArg, shuffled, st.hasInits || toElt.hasInit,
                     st.toSugarFields ++
                       [⟨toElt.name, convertedElt.ty, toElt.defArg,
                         toElt.vararg⟩],
                     st.fromExprFields.set idx
                       (some ⟨fromElt.name, convertedElt.ty, fromElt.defArg,
                              fromElt.vararg⟩),
                     st.callerDefaultArgs, st.defaultArgsOwner, st.sources,
                     some (es.set idx convertedElt)⟩

/-- The variadic-argument loop of `coerceTupleToTuple` (source lines
2219–2260): coerce each variadic source element to the destination's
vararg base type and append its index to the recorded sources. -/
def tupleVariadicLoop (env : Env) :
    Nat → Loc → List Fld → Ty → List Nat → TupleLoopSt → Option TupleLoopSt
  | 0, _, _, _, _, _ => none
  | Nat.succ fuel, locator, fromFields, toEltType, args, st =>
    match args with
    | [] => some st
    | idx :: args' =>
      match fromFields[idx]? with
      | none => none
      | some fromElt =>
        if toEltType = fromElt.ty then
          tupleVariadicLoop env fuel locator fromFields toEltType args'
            ⟨st.hasVarArg, st.anythingShuffled, st.hasInits, st.toSugarFields,
             st.fromExprFields.set idx (some fromElt), st.callerDefaultArgs,
             st.defaultArgsOwner, st.sources ++ [ShuffleEntry.src idx],
             st.elts⟩
        else
          match st.elts with
          | none => none  -- diag::tuple_conversion_not_expressible
          | some es =>
            match es[idx]? with
            | none => none
            | some el =>
              match coerceToType env fuel el toEltType
                      (locator ++ [PathElt.tupleElement idx]) with
              | none => none
              | some convertedElt =>
                tupleVariadicLoop env fuel locator fromFields toEltType args'
                  ⟨st.hasVarArg, st.anythingShuffled, st.hasInits,
                   st.toSugarFields,
                   st.fromExprFields.set idx
                     (some ⟨fromElt.name, convertedElt.ty, fromElt.defArg,
                            fromElt.vararg⟩),
                   st.callerDefaultArgs, st.defaultArgsOwner,
                   st.sources ++ [ShuffleEntry.src idx],
                   some (es.set idx convertedElt)⟩

/-- `ExprRewriter::coerceScalarToTuple(expr, toTuple, toScalarIdx, locator)`
(source lines 2315–2438). -/
def coerceScalarToTuple (env : Env) :
    Nat → Expr → List Fld → Nat → Loc → Option Expr
  | 0, _, _, _, _ => none
  | Nat.succ fuel, expr, toFields, toScalarIdx, locator =>
    match toFields.getLast? with
    | none => none  -- `.back()` of an empty field list
    | some lastField =>
      -- If the destination type is variadic, compute the injection function.
      let injRes : Option OExpr :=
        if lastField.vararg then
          match lastField.ty with
          | Ty.slice _ =>
            (match env.buildArrayInjectionFnRef lastField.ty
                     (Ty.builtinInt 64) with
             | none => none
             | some f => some (OExpr.someE f))
          | _ => none  -- cast<ArraySliceType> fails
        else some OExpr.noneE
      match injRes with
      | none => none
      | some injection =>
        match toFields[toScalarIdx]? with
        | none => none
        | some field =>
          -- If we're initializing the varargs list, use its base type.
          let toScalarType? : Option Ty :=
            if field.vararg then field.varargBaseTy else some field.ty
          match toScalarType? with
          | none => none
          | some toScalarType =>
            match coerceToType env fuel expr toScalarType
                    (locator ++ [PathElt.scalarToTuple]) with
            | none => none
            | some expr' =>
              match scalarSugarFields expr'.ty toFields 0 toScalarIdx [] with
              | none => none
              | some (sugarFields, hasInit) =>
                match scalarElements env locator toFields 0 toScalarIdx none with
                | none => none
                | some elements =>
                  let destSugarTy :=
                    if hasInit then Ty.mkTuple toFields
                    else Ty.mkTuple sugarFields
                  some (Expr.scalarToTuple expr' destSugarTy elements injection)

/-- `ExprRewriter::coerceViaUserConversion(expr, toType, locator)` (source
lines 2465–2549): a recorded `ConversionMember` overload is called on the
expression with an empty tuple; otherwise the recorded `ConstructorMember`
is either the identity (plain coercion through the `ApplyArgument` path) or
a constructor called on a metatype base.  Either way the finished apply is
recursively coerced to the destination. -/
def coerceViaUserConversion (env : Env) : Nat → Expr → Ty → Loc → Option Expr
  | 0, _, _, _ => none
  | Nat.succ fuel, expr, toType, locator =>
    match env.overloadChoiceAt (locator ++ [PathElt.conversionMember]) with
    | some (choice, openedTy) =>
      (match choice.declId? with
       | none => none
       | some d =>
         match env.buildMemberRef expr d openedTy with
         | none => none
         | some memberRef =>
           match openedTy.fnResult? with
           | none => none  -- castTo<FunctionType> fails
           | some openedType =>
             match finishApply env fuel memberRef emptyTupleExpr openedType [] with
             | none => none
             | some expr2 => coerceToType env fuel expr2 toType locator)
    | none =>
      match env.overloadChoiceAt (locator ++ [PathElt.constructorMember]) with
      | none => none  -- assert(knownOverload != end())
      | some (choice, openedTy) =>
        if choice = OverloadChoice.identityFunction then
          coerceToType env fuel expr toType (locator ++ [PathElt.applyArgument])
        else
          match choice.declId? with
          | none => none
          | some d =>
            let typeBase := Expr.metatypeLit (Ty.metaTy toType)
            match env.buildMemberRef typeBase d openedTy with
            | none => none
            | some declRef =>
              match finishApply env fuel declRef expr toType locator with
              | none => none
              | some expr2 => coerceToType env fuel expr2 toType locator

/-- `ExprRewriter::finishApply(apply, openedType, locator)` (source lines
2923–3013), for the `CallExpr` applies the embedded fragment builds (a
`CallExpr` is not a `SelfApplyExpr`, so the argument is coerced as an
ordinary argument).  The polymorphic-result specialization branch is dead
here — the embedded `Ty` has no polymorphic function types — and
`substituteInputSugarTypeForResult` is the identity on canonical types. -/
def finishApply (env : Env) : Nat → Expr → Expr → Ty → Loc → Option Expr
  | 0, _, _, _, _ => none
  | Nat.succ fuel, fnIn, arg, openedType, locator =>
    -- The function is always an rvalue.
    let fn := tcCoerceToRValue fnIn
    let isSuper := arg.isSuperRef
    match fn.ty with
    | Ty.fn inp res _ _ =>
      -- Convert the argument to the input type of the function.
      (match coerceToType env fuel arg inp (locator ++ [PathElt.applyArgument]) with
       | none => none  -- diag::while_converting_function_argument
       | some arg' => some (Expr.call fn arg' isSuper res))
    | Ty.metaTy ty0 =>
      -- We have a type constructor.
      (match ty0 with
       | Ty.tuple fs =>
         -- "Constructing" a tuple type is simply a conversion.
         coerceToType env fuel arg (Ty.tuple fs) locator
       | _ =>
         if ty0.isNominalish then
           match env.overloadChoiceAt (locator ++ [PathElt.constructorMember]) with
           | none => coerceToType env fuel arg ty0 locator
           | some (OverloadChoice.identityFunction, _) =>
             coerceToType env fuel arg ty0 locator
           | some (choice, openedTy2) =>
             match choice.declId? with
             | none => none
             | some d =>
               match env.buildMemberRef fn d openedTy2 with
               | none => none
               | some declRef =>
                 -- Tail-recurse to actually call the constructor.
                 finishApply env fuel declRef arg openedType locator
         else none)  -- assert(ty->getNominalOrBoundGenericNominal())
    | _ => none  -- castTo<MetaTypeType> fails
end

/-- `TypeChecker::callWitness(base, dc, protocol, conformance, name,
arguments, brokenDiag)` (source lines 3232–3300): re-resolve the named
witness, form a reference to it (the fresh constraint system and its solve
are folded into the `buildMemberRef`/`typeOfMemberRef` environment entry
points), and finish the application.  The passed-in conformance is unused
by the source as well. -/
def tcCallWitness (env : Env) (fuel : Nat) (base : Expr) (proto : Nat)
    (name : Nat) (arguments : List Expr) : Option Expr :=
  let type :=
    match base.ty with
    | Ty.metaTy inst => inst
    | t => t
  match findNamedWitness env type.getRValueType proto name with
  | none => none
  | some witness =>
    let openedType := env.typeOfMemberRef base.ty witness
    -- Form the call argument (a single argument is passed as-is).
    let arg : Expr :=
      match arguments with
      | [a] => a
      | args =>
        Expr.tupleLit (Exprs.ofList args)
          (args.map (fun _ => ⟨none, DefaultArg.noDefault, false⟩))
    match env.buildMemberRef base witness openedType with
    | none => none
    | some memberRef => finishApply env fuel memberRef arg openedType []

/-- The argument-type resolution of `convertLiteral`: a direct type, or the
associated-type witness of the protocol requirement. -/
def resolveLiteralArgType (env : Env) (type : Ty) (proto : Nat)
    (conf : Option Nat) : TyOrName → Option Ty
  | TyOrName.ty t => some t
  | TyOrName.name n => env.getWitnessType type proto conf n

/-- The builtin-argument-type validation of `convertLiteral`: `true` when a
predicate is supplied and rejects the type. -/
def builtinArgTypeRejected (pred : Option (Ty → Bool)) (argType : Ty) : Bool :=
  match pred with
  | some p => !(p argType)
  | none => false

/-- `ExprRewriter::convertLiteral(literal, type, openedType, protocol,
literalType, literalFuncName, builtinProtocol, builtinLiteralType,
builtinLiteralFuncName, isBuiltinArgType, brokenProtocolDiag,
brokenBuiltinProtocolDiag)` (source lines 2830–2921). -/
def convertLiteral (env : Env) (fuelIn : Nat) (literal : Expr)
    (type openedType : Ty) (protocol : Option Nat) (literalType : TyOrName)
    (literalFuncName builtinProtocol : Nat) (builtinLiteralType : TyOrName)
    (builtinLiteralFuncName : Nat) (isBuiltinArgType : Option (Ty → Bool)) :
    Option Expr :=
  match fuelIn with
  | 0 => none
  | Nat.succ fuel =>
    -- Check whether this literal type conforms to the builtin protocol.
    match env.conformsToProtocol type builtinProtocol with
    | some builtinConformance =>
      -- Find the builtin argument type we'll use.
      (match resolveLiteralArgType env type builtinProtocol
               builtinConformance builtinLiteralType with
       | none => none
       | some argType =>
         -- Make sure it's of an appropriate builtin type.
         if builtinArgTypeRejected isBuiltinArgType argType then none
         else
           -- The literal expression has this type, and the builtin
           -- conversion operation is called on it.
           match tcCallWitness env fuel (Expr.metatypeLit (Ty.metaTy type))
                   builtinProtocol builtinLiteralFuncName
                   [literal.setType argType] with
           | none => none
           | some result => some (result.setType type))
    | none =>
      -- This literal type must conform to the (non-builtin) protocol.
      match protocol with
      | none => none  -- assert(protocol && "requirements should have stopped recursion")
      | some proto =>
        match env.conformsToProtocol type proto with
        | none => none  -- assert(conforms && "must conform to literal protocol")
        | some conformance =>
          -- Figure out the (non-builtin) argument type.
          match resolveLiteralArgType env type proto conformance
                  literalType with
          | none => none
          | some argType =>
            -- Convert the literal to the non-builtin argument type via the
            -- builtin protocol, first.
            match convertLiteral env fuel literal argType argType none
                    (TyOrName.name 0) 0 builtinProtocol builtinLiteralType
                    builtinLiteralFuncName isBuiltinArgType with
            | none => none
            | some literal2 =>
              -- Convert the resulting expression to the final literal type.
              match tcCallWitness env fuel (Expr.metatypeLit (Ty.metaTy type))
                      proto literalFuncName [literal2] with
              | none => none
              | some result => some (result.setType type)

/-- `convertViaBuiltinProtocol(solution, expr, locator, protocol,
generalName, builtinName, brokenProtocolDiag, brokenBuiltinDiag)` (source
lines 3320–3403): if the type has no member named `builtinName`, first call
the general protocol witness, then call the (unique) builtin method on the
result.  The null `witness` returned by a failed `findNamedWitness` is
dereferenced by the source, embedded as `none`. -/
def convertViaBuiltinProtocol (env : Env) (fuel : Nat) (expr : Expr)
    (locator : Loc) (proto : Nat) (generalName builtinName : Nat) :
    Option Expr :=
  let type := expr.ty
  -- Look for the builtin name; if absent, call the general name via the
  -- witness table.
  let step1 : Option (Expr × List Nat) :=
    match env.lookupMember type.getRValueType builtinName with
    | [] =>
      (match findNamedWitness env type.getRValueType proto generalName with
       | none => none
       | some witness =>
         match (env.declTy witness).fnResult? with
         | none => none  -- castTo<AnyFunctionType> fails
         | some openedType =>
           match env.buildMemberRef expr witness openedType with
           | none => none
           | some memberRef =>
             match finishApply env fuel memberRef emptyTupleExpr openedType
                     locator with
             | none => none
             | some expr2 =>
               -- At this point, we must have a type with the builtin member.
               match env.lookupMember expr2.ty.getRValueType builtinName with
               | [] => none  -- diagnose(brokenProtocolDiag)
               | ws => some (expr2, ws))
    | ws => some (expr, ws)
  match step1 with
  | none => none
  | some (expr', witnesses) =>
    -- Find the builtin method.
    match witnesses with
    | [m] =>
      if !env.declIsFunc m then none  -- diagnose(brokenBuiltinDiag)
      else
        (match (env.declTy m).fnResult? with
         | none => none
         | some openedType =>
           match env.buildMemberRef expr' m openedType with
           | none => none
           | some memberRef =>
             finishApply env fuel memberRef emptyTupleExpr openedType locator)
    | _ => none  -- witnesses.size() != 1: diagnose(brokenBuiltinDiag)

/-- `Solution::convertToLogicValue(expr, locator)` (source lines
3405–3429). -/
def convertToLogicValue (env : Env) (fuel : Nat) (expr : Expr)
    (locator : Loc) : Option Expr :=
  -- Special case: already a builtin logic value.
  if expr.ty.getRValueType.isBuiltinIntegerType 1 then
    some (tcCoerceToRValue expr)
  else
    match convertViaBuiltinProtocol env fuel expr locator
            (env.getProtocol KnownProto.logicValue) nameGetLogicValue
            nameGetBuiltinLogicValue with
    | none => none
    | some result =>
      if !result.ty.isBuiltinIntegerType 1 then none  -- diag::broken_bool
      else some result

/-- `Solution::convertToArrayBound(expr, locator)` (source lines
3431–3449).  Note: unlike `convertToLogicValue`, there is no special case
for an expression that is already a builtin integer. -/
def convertToArrayBound (env : Env) (fuel : Nat) (expr : Expr)
    (locator : Loc) : Option Expr :=
  match convertViaBuiltinProtocol env fuel expr locator
          (env.getProtocol KnownProto.arrayBound) nameGetArrayBoundValue
          nameGetBuiltinArrayBoundValue with
  | none => none
  | some result =>
    if !result.ty.isBuiltinInt then none  -- diag::broken_builtin_array_bound
    else some result

/-- `ExprRewriter::checkCheckedCastExpr(expr)` (source lines 1737–1763):
type-check the subexpression in isolation, coerce it to an rvalue, and
classify the cast; `none` is the `Unresolved` result. -/
def checkCheckedCastExpr (env : Env) (sub : Expr) (castTy : Ty) :
    Option (CastKind × Expr) :=
  match env.typeCheckExpr sub Ty.nullTy with
  | none => none  -- CheckedCastKind::Unresolved
  | some sub1 =>
    let sub2 := tcCoerceToRValue sub1
    some (env.typeCheckCheckedCast sub2.ty castTy, sub2)

/-- `ExprRewriter::checkAsCastExpr(expr)` (source lines 1798–1846),
operating on a conditional checked cast node.  For a trivially-true cast
(`InvalidCoercible`) the node's recorded type is compared with the
subexpression's type: on equality the subexpression itself is returned;
otherwise the subexpression is coerced to the cast's target type and
wrapped in `InjectIntoOptionalExpr` of the optional target type. -/
def checkAsCastExpr (env : Env) (fuel : Nat) (cast : Expr) : Option Expr :=
  match cast with
  | Expr.condCheckedCast sub castTy _ exprTy =>
    let toType := castTy
    (match checkCheckedCastExpr env sub castTy with
     | none => none  -- Unresolved: invalid cast
     | some (kind, sub') =>
       match kind with
       | CastKind.unresolved => none
       | CastKind.invalidCoercible =>
         -- (diag::downcast_to_supertype with fix-it, unless implicit)
         -- If the types are equivalent, we don't need the 'as' at all.
         if exprTy = sub'.ty then some sub'
         else
           -- Perform the coercion directly, wrapping in an optional to
           -- preserve the expected type of 'as'.
           (match coerceToType env fuel sub' toType [] with
            | none => none
            | some coerced =>
              some (Expr.injectIntoOptional coerced (Ty.optional toType)))
       | k => some (Expr.condCheckedCast sub' castTy (some k) exprTy))
  | _ => none

/-- `ExprRewriter::visitConditionalCheckedCastExpr(expr)` (source lines
1848–1855): set the node's type to `Optional` of the cast target type, then
run `checkAsCastExpr`. -/
def visitConditionalCheckedCastExpr (env : Env) (fuel : Nat) (cast : Expr) :
    Option Expr :=
  match cast with
  | Expr.condCheckedCast sub castTy k _ =>
    checkAsCastExpr env fuel (Expr.condCheckedCast sub castTy k
      (Ty.optional castTy))
  | _ => none

mutual
/-- The discard-outside-assignment diagnostics emitted by the traversal
driver (`ExprWalker::walkToExprPre`, source lines 3093–3201), counted
during a walk with left-side-of-assignment depth `d`: an `AssignExpr` walks
its destination at depth `d+1` and its source back at depth `d` (the
`++LeftSideOfAssignment` / `--LeftSideOfAssignment` pair), a
`DiscardAssignmentExpr` is diagnosed exactly when the depth is zero, a
checked cast's subexpression is not walked (it was type-checked
separately), and every other node's children are walked at the same
depth. -/
def walkDiags : Nat → Expr → Nat
  | _, .otherE _ _ => 0
  | _, .superRef _ => 0
  | _, .declRef _ _ => 0
  | _, .metatypeLit _ => 0
  | _, .magicLit _ _ => 0
  | d, .discardAssign _ => if d = 0 then 1 else 0
  | d, .assign dest src _ => walkDiags (d+1) dest + walkDiags d src
  | d, .paren sub => walkDiags d sub
  | d, .tupleLit es _ => walkDiagsList d es
  | d, .memberRef b _ _ => walkDiags d b
  | d, .call f a _ _ => walkDiags d f + walkDiags d a
  | d, .load e _ => walkDiags d e
  | d, .requalify e _ => walkDiags d e
  | d, .materialize e _ => walkDiags d e
  | d, .derivedToBase e _ => walkDiags d e
  | d, .archetypeToSuper e _ => walkDiags d e
  | d, .erasure e _ _ => walkDiags d e
  | d, .injectIntoOptional e _ => walkDiags d e
  | d, .bridgeToBlock e _ => walkDiags d e
  | d, .functionConversion e _ => walkDiags d e
  | d, .metatypeConversion e _ => walkDiags d e
  | d, .autoClosure e _ => walkDiags d e
  | d, .scalarToTuple e _ ds inj =>
    walkDiags d e + walkDiagsST d ds + walkDiagsO d inj
  | d, .tupleShuffle e _ _ _ cds inj =>
    walkDiags d e + walkDiagsList d cds + walkDiagsO d inj
  | _, .condCheckedCast _ _ _ _ => 0

/-- `walkDiags` over expression lists. -/
def walkDiagsList : Nat → Exprs → Nat
  | _, .nil => 0
  | d, .cons e es => walkDiags d e + walkDiagsList d es

/-- `walkDiags` over optional expressions. -/
def walkDiagsO : Nat → OExpr → Nat
  | _, .noneE => 0
  | d, .someE e => walkDiags d e

/-- `walkDiags` over scalar-to-tuple element lists. -/
def walkDiagsST : Nat → STElts → Nat
  | _, .nil => 0
  | d, .scalarSlot r => walkDiagsST d r
  | d, .callerDefault e r => walkDiags d e + walkDiagsST d r
  | d, .ownerDefault _ r => walkDiagsST d r
end

mutual
/-- The property of spec invariant P6, stated independently of the walker:
every discard expression lies in a position that some enclosing
assignment's destination dominates.  The parameter says whether the
current position is already inside such a destination (an assignment's
source resets nothing: the flag passes through, exactly as the depth
counter stays positive there). -/
def discardsCovered : Bool → Expr → Bool
  | _, .otherE _ _ => true
  | _, .superRef _ => true
  | _, .declRef _ _ => true
  | _, .metatypeLit _ => true
  | _, .magicLit _ _ => true
  | inDest, .discardAssign _ => inDest
  | inDest, .assign dest src _ =>
    discardsCovered true dest && discardsCovered inDest src
  | inDest, .paren sub => discardsCovered inDest sub
  | inDest, .tupleLit es _ => discardsCoveredList inDest es
  | inDest, .memberRef b _ _ => discardsCovered inDest b
  | inDest, .call f a _ _ => discardsCovered inDest f && discardsCovered inDest a
  | inDest, .load e _ => discardsCovered inDest e
  | inDest, .requalify e _ => discardsCovered inDest e
  | inDest, .materialize e _ => discardsCovered inDest e
  | inDest, .derivedToBase e _ => discardsCovered inDest e
  | inDest, .archetypeToSuper e _ => discardsCovered inDest e
  | inDest, .erasure e _ _ => discardsCovered inDest e
  | inDest, .injectIntoOptional e _ => discardsCovered inDest e
  | inDest, .bridgeToBlock e _ => discardsCovered inDest e
  | inDest, .functionConversion e _ => discardsCovered inDest e
  | inDest, .metatypeConversion e _ => discardsCovered inDest e
  | inDest, .autoClosure e _ => discardsCovered inDest e
  | inDest, .scalarToTuple e _ ds inj =>
    discardsCovered inDest e && discardsCoveredST inDest ds
      && discardsCoveredO inDest inj
  | inDest, .tupleShuffle e _ _ _ cds inj =>
    discardsCovered inDest e && discardsCoveredList inDest cds
      && discardsCoveredO inDest inj
  | _, .condCheckedCast _ _ _ _ => true

/-- `discardsCovered` over expression lists. -/
def discardsCoveredList : Bool → Exprs → Bool
  | _, .nil => true
  | b, .cons e es => discardsCovered b e && discardsCoveredList b es

/-- `discardsCovered` over optional expressions. -/
def discardsCoveredO : Bool → OExpr → Bool
  | _, .noneE => true
  | b, .someE e => discardsCovered b e

/-- `discardsCovered` over scalar-to-tuple element lists. -/
def discardsCoveredST : Bool → STElts → Bool
  | _, .nil => true
  | b, .scalarSlot r => discardsCoveredST b r
  | b, .callerDefault e r => discardsCovered b e && discardsCoveredST b r
  | b, .ownerDefault _ r => discardsCoveredST b r
end

/-- The partial-application tracker
(`llvm::DenseMap<Expr*, unsigned> ValueTypeMemberApplications`, source line
1333), with node identity abstracted to `Nat` tags. -/
def Tracker : Type := List (Nat × Nat)

/-- `DenseMap::find`. -/
def Tracker.find? : Tracker → Nat → Option Nat
  | [], _ => none
  | (k', c) :: r, k => if k' = k then some c else Tracker.find? r k

/-- `DenseMap::count != 0`. -/
def Tracker.containsKey (t : Tracker) (k : Nat) : Bool :=
  (t.find? k).isSome

/-- `DenseMap::insert`, which leaves an existing entry for the key
unchanged. -/
def Tracker.insert (t : Tracker) (k c : Nat) : Tracker :=
  if t.containsKey k then t else (k, c) :: t

/-- `DenseMap::erase` (by key). -/
def Tracker.erase : Tracker → Nat → Tracker
  | [], _ => []
  | (k', c) :: r, k =>
    if k' = k then Tracker.erase r k else (k', c) :: Tracker.erase r k

/-- The tracking step of `visitUnresolvedDotExpr`'s `Decl` case (source
lines 1350–1368): after building the member reference, if it is an apply
binding an lvalue `self` whose function is a declaration reference to an
instance `FuncDecl`, record it with the method's natural argument count
minus one (the non-`self` argument clauses still to be applied). -/
def trackValueTypeMemberApp (env : Env) (t : Tracker) (memberKey : Nat)
    (member : Expr) : Tracker :=
  match member with
  | Expr.call fn arg _ _ =>
    (match fn with
     | Expr.declRef f _ =>
       if (match arg.ty with | Ty.lvalue _ _ => true | _ => false)
           && env.declIsFunc f && env.declIsInstanceMember f then
         t.insert memberKey (env.declNaturalArgCount f - 1)
       else t
     | _ => t)
  | _ => t

/-- The tracker update of `visitApplyExpr` (source lines 1696–1705): if the
rewritten call's function is a tracked node, remove its entry (the
`assert(count > 0)` is a crash on a zero count, hence the `Option`), and
re-track the resulting node with the decremented count when more argument
clauses remain. -/
def applyTrackStep (t : Tracker) (fnKey resultKey : Nat) : Option Tracker :=
  match t.find? fnKey with
  | none => some t
  | some count =>
    if count = 0 then none
    else
      let t' := t.erase fnKey
      some (if 1 < count then t'.insert resultKey (count - 1) else t')

/-- `ExprRewriter::finalize()` (source lines 1994–2000): one "partial
application of value-type method" diagnostic per entry left in the
tracker. -/
def finalizeDiags (t : Tracker) : List Nat := t.map (fun p => p.1)

/-- An inert environment: no restrictions, no overloads, no members, no
conformances; used to instantiate theorems on concrete inputs.  Field
order: restriction, overloadChoiceAt, computeTupleShuffle,
hasMandatoryTupleLabels, findDefaultArgsOwner, getOwnerDefaultArg,
typeCheckExpr, buildArrayInjectionFnRef, conformsToProtocol,
getWitnessType, protoRequirement, confWitness, lookupMember, declIsFunc,
declIsInstanceMember, declNaturalArgCount, declTy, buildMemberRef,
typeOfMemberRef, getProtocol, typeCheckCheckedCast. -/
def trivialEnv : Env :=
  ⟨fun _ _ => none,
   fun _ => none,
   fun _ _ _ => none,
   fun _ => false,
   fun _ => none,
   fun _ _ => (DefaultArg.noDefault, Ty.nullTy),
   fun _ _ => none,
   fun _ _ => none,
   fun _ _ => none,
   fun _ _ _ _ => none,
   fun _ _ => none,
   fun _ _ => none,
   fun _ _ => [],
   fun _ => false,
   fun _ => false,
   fun _ => 0,
   fun _ => Ty.nullTy,
   fun _ _ _ => none,
   fun _ _ => Ty.nullTy,
   fun _ => 0,
   fun _ _ => CastKind.unresolved⟩

theorem Expr.setType_ty (e : Expr) (t : Ty) :
    (match e with
     | Expr.paren _ => True
     | Expr.tupleLit _ _ => True
     | _ => (e.setType t).ty = t) := by
  cases e <;> simp [Expr.setType, Expr.ty]

/-- C8: coercing an expression to its own type returns the expression
itself, unchanged, before any restriction dispatch — no conversion node is
allocated, whatever the solver recorded for the pair. -/
theorem coerceToType_identity (env : Env) (fuel : Nat) (expr : Expr)
    (toType : Ty) (locator : Loc) (h : expr.ty = toType) :
    coerceToType env (fuel + 1) expr toType locator = some expr := by
  unfold coerceToType
  simp [h]

/-- Witness for C8 at a concrete input. -/
theorem coerceToType_identity_witness :
    coerceToType trivialEnv 1 (Expr.otherE 0 (Ty.builtinInt 1))
      (Ty.builtinInt 1) [] = some (Expr.otherE 0 (Ty.builtinInt 1)) :=
  coerceToType_identity trivialEnv 0 (Expr.otherE 0 (Ty.builtinInt 1))
    (Ty.builtinInt 1) [] rfl

/-- C6: caller-side default-argument synthesis.  The result is null
(`some none`: the callee supplies the default) exactly when the field's
default-argument kind is `Normal`, given that a default argument exists
(kind `None` is the unreachable arm, embedded as the crash `none`); for the
magic-identifier kinds `File`/`Line`/`Column`, a fresh magic-identifier
literal of the corresponding kind is created and type-checked against the
field's expected type, the failure of that type-check being the asserted
crash (`assert(!invalid && "conversion cannot fail")`). -/
theorem getCallerDefaultArg_spec (env : Env) (owner index : Nat) :
    ((env.getOwnerDefaultArg owner index).1 = DefaultArg.noDefault →
      getCallerDefaultArg env owner index = none) ∧
    ((env.getOwnerDefaultArg owner index).1 ≠ DefaultArg.noDefault →
      (getCallerDefaultArg env owner index = some none ↔
        (env.getOwnerDefaultArg owner index).1 = DefaultArg.normal)) ∧
    (∀ mk, (env.getOwnerDefaultArg owner index).1.magicKind = some mk →
      getCallerDefaultArg env owner index =
        (match env.typeCheckExpr (Expr.magicLit mk Ty.nullTy)
                 (env.getOwnerDefaultArg owner index).2 with
         | some converted => some (some converted)
         | none => none)) := by
  refine ⟨?_, ?_, ?_⟩
  · intro h
    unfold getCallerDefaultArg
    rcases henv : env.getOwnerDefaultArg owner index with ⟨k, t⟩
    rw [henv] at h
    simp at h
    simp [h, DefaultArg.magicKind]
  · intro h
    unfold getCallerDefaultArg
    rcases henv : env.getOwnerDefaultArg owner index with ⟨k, t⟩
    rw [henv] at h
    simp at h ⊢
    cases k <;> simp_all [DefaultArg.magicKind] <;>
      cases env.typeCheckExpr (Expr.magicLit _ Ty.nullTy) t <;> simp
  · intro mk h
    unfold getCallerDefaultArg
    rcases henv : env.getOwnerDefaultArg owner index with ⟨k, t⟩
    rw [henv] at h
    simp at h ⊢
    rw [h]

/-- An environment whose declaration `0` has a `Line` default of type
`nominal 5` at every index, and whose expression type-checker retypes the
expression to the requested type (field order as in `trivialEnv`). -/
def envC6 : Env :=
  ⟨fun _ _ => none,
   fun _ => none,
   fun _ _ _ => none,
   fun _ => false,
   fun _ => none,
   fun _ _ => (DefaultArg.line, Ty.nominal 5),
   fun e t => some (e.setType t),
   fun _ _ => none,
   fun _ _ => none,
   fun _ _ _ _ => none,
   fun _ _ => none,
   fun _ _ => none,
   fun _ _ => [],
   fun _ => false,
   fun _ => false,
   fun _ => 0,
   fun _ => Ty.nullTy,
   fun _ _ _ => none,
   fun _ _ => Ty.nullTy,
   fun _ => 0,
   fun _ _ => CastKind.unresolved⟩

/-- Witness for C6: a `Line` default synthesizes the magic literal. -/
theorem getCallerDefaultArg_spec_witness :
    getCallerDefaultArg envC6 0 0 =
      some (some (Expr.magicLit MagicKind.line (Ty.nominal 5))) := by
  have h := (getCallerDefaultArg_spec envC6 0 0).2.2 MagicKind.line rfl
  simpa [envC6, Expr.setType] using h

theorem Tracker.find?_insert_fresh (t : Tracker) (k c : Nat)
    (h : t.containsKey k = false) : (t.insert k c).find? k = some c := by
  simp [Tracker.insert, h, Tracker.find?]

theorem Tracker.find?_erase_self (t : Tracker) (k : Nat) :
    (t.erase k).find? k = none := by
  induction t with
  | nil => rfl
  | cons p r ih =>
    rcases p with ⟨k', c⟩
    by_cases hk : k' = k <;> simp [Tracker.erase, hk, Tracker.find?, ih]

theorem Tracker.find?_erase_ne (t : Tracker) (k k' : Nat) (h : k' ≠ k) :
    (t.erase k).find? k' = t.find? k' := by
  induction t with
  | nil => rfl
  | cons p r ih =>
    rcases p with ⟨k'', c⟩
    by_cases hk : k'' = k
    · subst hk
      simp [Tracker.erase, Tracker.find?, Ne.symm h, ih]
    · by_cases hk' : k'' = k' <;>
        simp [Tracker.erase, hk, Tracker.find?, hk', h, ih]

/-- C5: the partial-application tracker.  (i) `visitUnresolvedDotExpr`
tracks a freshly built member reference that applies an instance method to
an lvalue `self` with the method's natural argument count minus one, and
leaves the tracker alone when `self` is not an lvalue; (ii) when
`visitApplyExpr` consumes a tracked node, the entry is removed, and the
resulting node is re-tracked with the decremented count exactly when the
count was greater than one (a zero count is a failed assertion); a call
whose function is untracked leaves the tracker alone; (iii) finalization
emits exactly one "partial application of value-type method" diagnostic per
remaining entry, so the diagnostics are empty precisely when the tracker
is empty — in a program that type-checks without error the tracker is
empty after finalization. -/
theorem valueTypeTracker_spec :
    (∀ (env : Env) (t : Tracker) (k f : Nat) (fty : Ty) (arg : Expr)
       (sup : Bool) (cty : Ty) (obj : Ty) (q : Bool),
       arg.ty = Ty.lvalue obj q → env.declIsFunc f = true →
       env.declIsInstanceMember f = true → t.containsKey k = false →
       (trackValueTypeMemberApp env t k
         (Expr.call (Expr.declRef f fty) arg sup cty)).find? k =
           some (env.declNaturalArgCount f - 1)) ∧
    (∀ (env : Env) (t : Tracker) (k f : Nat) (fty : Ty) (arg : Expr)
       (sup : Bool) (cty : Ty),
       (∀ obj q, arg.ty ≠ Ty.lvalue obj q) →
       trackValueTypeMemberApp env t k
         (Expr.call (Expr.declRef f fty) arg sup cty) = t) ∧
    (∀ (t : Tracker) (fnKey resultKey c : Nat),
       t.find? fnKey = some c → 0 < c → fnKey ≠ resultKey →
       t.containsKey resultKey = false →
       ∃ t', applyTrackStep t fnKey resultKey = some t' ∧
         t'.find? fnKey = none ∧
         t'.find? resultKey = (if 1 < c then some (c - 1) else none)) ∧
    (∀ (t : Tracker) (fnKey resultKey : Nat),
       t.find? fnKey = none → applyTrackStep t fnKey resultKey = some t) ∧
    (∀ t : Tracker, (finalizeDiags t).length = t.length ∧
       (finalizeDiags t = [] ↔ t = [])) := by
  refine ⟨?_, ?_, ?_, ?_, ?_⟩
  · intro env t k f fty arg sup cty obj q harg hf hinst hfresh
    simp [trackValueTypeMemberApp, harg, hf, hinst,
      Tracker.find?_insert_fresh t k _ hfresh]
  · intro env t k f fty arg sup cty harg
    cases h : arg.ty <;>
      simp [trackValueTypeMemberApp, h] <;> exact absurd h (harg _ _)
  · intro t fnKey resultKey c hfind hpos hne hfresh
    have hfind_r : t.find? resultKey = none := by
      rcases h : t.find? resultKey with _ | v
      · rfl
      · rw [Tracker.containsKey, h] at hfresh; simp at hfresh
    have herase_r : (t.erase fnKey).find? resultKey = none := by
      rw [Tracker.find?_erase_ne t fnKey resultKey (Ne.symm hne)]
      exact hfind_r
    have herase_contains : (t.erase fnKey).containsKey resultKey = false := by
      simp [Tracker.containsKey, herase_r]
    refine ⟨(if 1 < c then (t.erase fnKey).insert resultKey (c - 1)
             else t.erase fnKey), ?_, ?_, ?_⟩
    · simp [applyTrackStep, hfind, Nat.pos_iff_ne_zero.mp hpos]
    · by_cases h1 : 1 < c
      · simp [h1, Tracker.insert, herase_contains, Tracker.find?,
          Ne.symm hne, Tracker.find?_erase_self]
      · simp [h1, Tracker.find?_erase_self]
    · by_cases h1 : 1 < c
      · simp [h1, Tracker.find?_insert_fresh _ _ _ herase_contains]
      · simp [h1, herase_r]
  · intro t fnKey resultKey h
    simp [applyTrackStep, h]
  · intro t
    constructor
    · simp [finalizeDiags]
    · simp [finalizeDiags]

/-- An environment whose declaration `7` is an instance method with natural
argument count 2 (field order as in `trivialEnv`). -/
def envC5 : Env :=
  ⟨fun _ _ => none,
   fun _ => none,
   fun _ _ _ => none,
   fun _ => false,
   fun _ => none,
   fun _ _ => (DefaultArg.noDefault, Ty.nullTy),
   fun _ _ => none,
   fun _ _ => none,
   fun _ _ => none,
   fun _ _ _ _ => none,
   fun _ _ => none,
   fun _ _ => none,
   fun _ _ => [],
   fun _ => true,
   fun _ => true,
   fun _ => 2,
   fun _ => Ty.nullTy,
   fun _ _ _ => none,
   fun _ _ => Ty.nullTy,
   fun _ => 0,
   fun _ _ => CastKind.unresolved⟩

/-- Witness for C5 at concrete inputs: tracking a member reference with an
lvalue `self`, consuming it with an apply, and finalizing a non-empty
tracker. -/
theorem valueTypeTracker_spec_witness :
    (trackValueTypeMemberApp envC5 [] 3
        (Expr.call (Expr.declRef 7 Ty.nullTy)
          (Expr.otherE 1 (Ty.lvalue (Ty.nominal 0) false)) false
          (Ty.nominal 9))).find? 3 = some 1 ∧
    (∃ t', applyTrackStep [(3, 1)] 3 4 = some t' ∧
       t'.find? 3 = none ∧ t'.find? 4 = (if 1 < 1 then some 0 else none)) ∧
    (finalizeDiags [(3, 1)]).length = 1 ∧
    (finalizeDiags [(3, 1)] = [] ↔ ([(3, 1)] : Tracker) = []) := by
  refine ⟨?_, ?_, ?_, ?_⟩
  · exact valueTypeTracker_spec.1 envC5 [] 3 7 Ty.nullTy
      (Expr.otherE 1 (Ty.lvalue (Ty.nominal 0) false)) false (Ty.nominal 9)
      (Ty.nominal 0) false rfl rfl rfl rfl
  · exact valueTypeTracker_spec.2.2.1 [(3, 1)] 3 4 1 rfl (by decide)
      (by decide) rfl
  · exact (valueTypeTracker_spec.2.2.2.2 [(3, 1)]).1
  · exact (valueTypeTracker_spec.2.2.2.2 [(3, 1)]).2

mutual
theorem walkDiags_covered : ∀ (e : Expr) (d : Nat),
    walkDiags d e = 0 ↔ discardsCovered (decide (0 < d)) e = true
  | .otherE _ _, d => by simp [walkDiags, discardsCovered]
  | .superRef _, d => by simp [walkDiags, discardsCovered]
  | .declRef _ _, d => by simp [walkDiags, discardsCovered]
  | .metatypeLit _, d => by simp [walkDiags, discardsCovered]
  | .magicLit _ _, d => by simp [walkDiags, discardsCovered]
  | .discardAssign _, d => by
      rcases d with _ | d <;> simp [walkDiags, discardsCovered]
  | .assign dest src _, d => by
      have hd := walkDiags_covered dest (d+1)
      have hs := walkDiags_covered src d
      simp [walkDiags, discardsCovered, Nat.add_eq_zero] at hd hs ⊢
      rw [hd, hs]
  | .paren sub, d => by
      simpa [walkDiags, discardsCovered] using walkDiags_covered sub d
  | .tupleLit es _, d => by
      simpa [walkDiags, discardsCovered] using walkDiagsList_covered es d
  | .memberRef b _ _, d => by
      simpa [walkDiags, discardsCovered] using walkDiags_covered b d
  | .call f a _ _, d => by
      have h1 := walkDiags_covered f d
      have h2 := walkDiags_covered a d
      simp [walkDiags, discardsCovered, Nat.add_eq_zero] at h1 h2 ⊢
      rw [h1, h2]
  | .load e _, d => by
      simpa [walkDiags, discardsCovered] using walkDiags_covered e d
  | .requalify e _, d => by
      simpa [walkDiags, discardsCovered] using walkDiags_covered e d
  | .materialize e _, d => by
      simpa [walkDiags, discardsCovered] using walkDiags_covered e d
  | .derivedToBase e _, d => by
      simpa [walkDiags, discardsCovered] using walkDiags_covered e d
  | .archetypeToSuper e _, d => by
      simpa [walkDiags, discardsCovered] using walkDiags_covered e d
  | .erasure e _ _, d => by
      simpa [walkDiags, discardsCovered] using walkDiags_covered e d
  | .injectIntoOptional e _, d => by
      simpa [walkDiags, discardsCovered] using walkDiags_covered e d
  | .bridgeToBlock e _, d => by
      simpa [walkDiags, discardsCovered] using walkDiags_covered e d
  | .functionConversion e _, d => by
      simpa [walkDiags, discardsCovered] using walkDiags_covered e d
  | .metatypeConversion e _, d => by
      simpa [walkDiags, discardsCovered] using walkDiags_covered e d
  | .autoClosure e _, d => by
      simpa [walkDiags, discardsCovered] using walkDiags_covered e d
  | .scalarToTuple e _ ds inj, d => by
      have h1 := walkDiags_covered e d
      have h2 := walkDiagsST_covered ds d
      have h3 := walkDiagsO_covered inj d
      simp [walkDiags, discardsCovered, Nat.add_eq_zero] at h1 h2 h3 ⊢
      rw [h1, h2, h3]
  | .tupleShuffle e _ _ _ cds inj, d => by
      have h1 := walkDiags_covered e d
      have h2 := walkDiagsList_covered cds d
      have h3 := walkDiagsO_covered inj d
      simp [walkDiags, discardsCovered, Nat.add_eq_zero] at h1 h2 h3 ⊢
      rw [h1, h2, h3]
  | .condCheckedCast _ _ _ _, d => by simp [walkDiags, discardsCovered]

theorem walkDiagsList_covered : ∀ (es : Exprs) (d : Nat),
    walkDiagsList d es = 0 ↔ discardsCoveredList (decide (0 < d)) es = true
  | .nil, d => by simp [walkDiagsList, discardsCoveredList]
  | .cons e es, d => by
      have h1 := walkDiags_covered e d
      have h2 := walkDiagsList_covered es d
      simp [walkDiagsList, discardsCoveredList, Nat.add_eq_zero] at h1 h2 ⊢
      rw [h1, h2]

theorem walkDiagsO_covered : ∀ (oe : OExpr) (d : Nat),
    walkDiagsO d oe = 0 ↔ discardsCoveredO (decide (0 < d)) oe = true
  | .noneE, d => by simp [walkDiagsO, discardsCoveredO]
  | .someE e, d => by
      simpa [walkDiagsO, discardsCoveredO] using walkDiags_covered e d

theorem walkDiagsST_covered : ∀ (ds : STElts) (d : Nat),
    walkDiagsST d ds = 0 ↔ discardsCoveredST (decide (0 < d)) ds = true
  | .nil, d => by simp [walkDiagsST, discardsCoveredST]
  | .scalarSlot r, d => by
      simpa [walkDiagsST, discardsCoveredST] using walkDiagsST_covered r d
  | .callerDefault e r, d => by
      have h1 := walkDiags_covered e d
      have h2 := walkDiagsST_covered r d
      simp [walkDiagsST, discardsCoveredST, Nat.add_eq_zero] at h1 h2 ⊢
      rw [h1, h2]
  | .ownerDefault _ r, d => by
      simpa [walkDiagsST, discardsCoveredST] using walkDiagsST_covered r d
end

/-- C7: during the traversal drive, a `DiscardAssignmentExpr` visited while
the left-side-of-assignment depth counter is zero triggers the
discard-outside-assignment diagnostic, one visited with a nonzero counter
(inside an assignment's destination) triggers none, and an assignment walks
its destination with the counter incremented and its source with the
counter restored; consequently a walk from depth zero is diagnostic-free
exactly when every discard lies under some assignment's destination
(invariant P6). -/
theorem discardAssignment_walk_spec :
    (∀ ty, walkDiags 0 (Expr.discardAssign ty) = 1) ∧
    (∀ d ty, 0 < d → walkDiags d (Expr.discardAssign ty) = 0) ∧
    (∀ d dest src ty,
       walkDiags d (Expr.assign dest src ty) =
         walkDiags (d + 1) dest + walkDiags d src) ∧
    (∀ e, walkDiags 0 e = 0 ↔ discardsCovered false e = true) := by
  refine ⟨?_, ?_, ?_, ?_⟩
  · intro ty; rfl
  · intro d ty hd
    rcases d with _ | d
    · exact absurd hd (by simp)
    · rfl
  · intro d dest src ty; rfl
  · intro e
    simpa using walkDiags_covered e 0

/-- Witness for C7: a discard as the destination of an assignment is not
diagnosed; a bare discard is. -/
theorem discardAssignment_walk_spec_witness :
    walkDiags 0 (Expr.discardAssign Ty.nullTy) = 1 ∧
    walkDiags 1 (Expr.discardAssign Ty.nullTy) = 0 ∧
    walkDiags 0 (Expr.assign (Expr.discardAssign Ty.nullTy)
      (Expr.otherE 0 Ty.nullTy) Ty.nullTy) =
      walkDiags 1 (Expr.discardAssign Ty.nullTy) +
        walkDiags 0 (Expr.otherE 0 Ty.nullTy) ∧
    (walkDiags 0 (Expr.assign (Expr.discardAssign Ty.nullTy)
       (Expr.otherE 0 Ty.nullTy) Ty.nullTy) = 0 ↔
     discardsCovered false (Expr.assign (Expr.discardAssign Ty.nullTy)
       (Expr.otherE 0 Ty.nullTy) Ty.nullTy) = true) :=
  ⟨discardAssignment_walk_spec.1 Ty.nullTy,
   discardAssignment_walk_spec.2.1 1 Ty.nullTy (by decide),
   discardAssignment_walk_spec.2.2.1 0 (Expr.discardAssign Ty.nullTy)
     (Expr.otherE 0 Ty.nullTy) Ty.nullTy,
   discardAssignment_walk_spec.2.2.2 _⟩

/-- Counterexample for C3 as stated: `convertToArrayBound` on an expression
whose rvalue type is already a builtin integer does **not** return just the
rvalue-coerced expression — it unconditionally enters the ArrayBound
protocol machinery (here: no member, no requirement, so a broken-protocol
failure), unlike `convertToLogicValue`. -/
theorem convertToArrayBound_no_shortcut :
    convertToArrayBound trivialEnv 5 (Expr.otherE 0 (Ty.builtinInt 64)) [] ≠
      some (tcCoerceToRValue (Expr.otherE 0 (Ty.builtinInt 64))) := by
  have h : convertToArrayBound trivialEnv 5 (Expr.otherE 0 (Ty.builtinInt 64)) []
      = none := rfl
  simp [h]

/-- C3 amended: `convertToLogicValue` short-circuits — an expression whose
rvalue type is a 1-bit builtin integer is just coerced to an rvalue, no
witness call is built; `convertToArrayBound` has no such shortcut: it
always consults the ArrayBound protocol machinery, and when neither a
builtin member nor a protocol requirement is available it fails even on an
expression that is already of builtin-integer type. -/
theorem convertToLogicValue_shortcut_only :
    (∀ (env : Env) (fuel : Nat) (expr : Expr) (locator : Loc),
       expr.ty.getRValueType.isBuiltinIntegerType 1 = true →
       convertToLogicValue env fuel expr locator =
         some (tcCoerceToRValue expr)) ∧
    (∀ (env : Env) (fuel : Nat) (expr : Expr) (locator : Loc),
       env.lookupMember expr.ty.getRValueType nameGetBuiltinArrayBoundValue
           = [] →
       env.protoRequirement (env.getProtocol KnownProto.arrayBound)
           nameGetArrayBoundValue = none →
       convertToArrayBound env fuel expr locator = none) := by
  constructor
  · intro env fuel expr locator h
    unfold convertToLogicValue
    simp [h]
  · intro env fuel expr locator h1 h2
    unfold convertToArrayBound convertViaBuiltinProtocol findNamedWitness
    simp [h1, h2]

/-- Witness for the amended C3. -/
theorem convertToLogicValue_shortcut_only_witness :
    convertToLogicValue trivialEnv 5 (Expr.otherE 0 (Ty.builtinInt 1)) [] =
      some (tcCoerceToRValue (Expr.otherE 0 (Ty.builtinInt 1))) ∧
    convertToArrayBound trivialEnv 5 (Expr.otherE 0 (Ty.builtinInt 64)) [] =
      none :=
  ⟨convertToLogicValue_shortcut_only.1 trivialEnv 5
     (Expr.otherE 0 (Ty.builtinInt 1)) [] rfl,
   convertToLogicValue_shortcut_only.2 trivialEnv 5
     (Expr.otherE 0 (Ty.builtinInt 64)) [] rfl rfl⟩

/-- An environment whose isolated type-check is the identity and which
classifies every checked cast as a trivially-true coercion
(`InvalidCoercible`); field order as in `trivialEnv`. -/
def envC9 : Env :=
  ⟨fun _ _ => none,
   fun _ => none,
   fun _ _ _ => none,
   fun _ => false,
   fun _ => none,
   fun _ _ => (DefaultArg.noDefault, Ty.nullTy),
   fun e _ => some e,
   fun _ _ => none,
   fun _ _ => none,
   fun _ _ _ _ => none,
   fun _ _ => none,
   fun _ _ => none,
   fun _ _ => [],
   fun _ => false,
   fun _ => false,
   fun _ => 0,
   fun _ => Ty.nullTy,
   fun _ _ _ => none,
   fun _ _ => Ty.nullTy,
   fun _ => 0,
   fun _ _ => CastKind.invalidCoercible⟩

/-- Counterexample for C9 as stated: in the trivially-true `as?` case where
the cast node's recorded type equals the subexpression's type, the returned
subexpression **is** of optional type — the recorded type compared against
is `Optional` of the target (set by `visitConditionalCheckedCastExpr`), so
the equality can only hold when the subexpression itself already has that
optional type. -/
theorem checkAsCast_returns_optional_typed_sub :
    visitConditionalCheckedCastExpr envC9 3
        (Expr.condCheckedCast (Expr.otherE 1 (Ty.optional (Ty.nominal 2)))
          (Ty.nominal 2) none Ty.nullTy) =
      some (Expr.otherE 1 (Ty.optional (Ty.nominal 2))) ∧
    (Expr.otherE 1 (Ty.optional (Ty.nominal 2))).ty =
      Ty.optional (Ty.nominal 2) := by
  constructor
  · rfl
  · rfl

/-- C9 amended: for an `as?` cast classified as a trivially-true coercion,
`checkAsCastExpr` compares the cast node's recorded type — which
`visitConditionalCheckedCastExpr` has just set to `Optional` of the target
type — against the subexpression's type: on equality it returns the
subexpression itself, not wrapped in `InjectIntoOptionalExpr` (its type
being that same optional type, not the bare target type); only when the
types differ is the coerced subexpression wrapped in
`InjectIntoOptionalExpr` of the optional target type. -/
theorem checkAsCastExpr_invalidCoercible_spec (env : Env) (fuel : Nat)
    (sub : Expr) (castTy : Ty) (k : Option CastKind) (ty0 : Ty) (sub1 : Expr)
    (htc : env.typeCheckExpr sub Ty.nullTy = some sub1)
    (hkind : env.typeCheckCheckedCast (tcCoerceToRValue sub1).ty castTy =
      CastKind.invalidCoercible) :
    (Ty.optional castTy = (tcCoerceToRValue sub1).ty →
      visitConditionalCheckedCastExpr env fuel
          (Expr.condCheckedCast sub castTy k ty0) =
        some (tcCoerceToRValue sub1)) ∧
    (Ty.optional castTy ≠ (tcCoerceToRValue sub1).ty →
      ∀ coerced, coerceToType env fuel (tcCoerceToRValue sub1) castTy []
          = some coerced →
      visitConditionalCheckedCastExpr env fuel
          (Expr.condCheckedCast sub castTy k ty0) =
        some (Expr.injectIntoOptional coerced (Ty.optional castTy))) := by
  constructor
  · intro heq
    unfold visitConditionalCheckedCastExpr checkAsCastExpr checkCheckedCastExpr
    simp [htc, hkind, heq]
  · intro hne coerced hcoe
    unfold visitConditionalCheckedCastExpr checkAsCastExpr checkCheckedCastExpr
    simp [htc, hkind, hne, hcoe]

/-- Witness for the amended C9, exercising both branches. -/
theorem checkAsCastExpr_invalidCoercible_spec_witness :
    visitConditionalCheckedCastExpr envC9 3
        (Expr.condCheckedCast (Expr.otherE 1 (Ty.optional (Ty.nominal 2)))
          (Ty.nominal 2) none Ty.nullTy) =
      some (tcCoerceToRValue (Expr.otherE 1 (Ty.optional (Ty.nominal 2)))) ∧
    visitConditionalCheckedCastExpr envC9 3
        (Expr.condCheckedCast (Expr.otherE 1 (Ty.nominal 2))
          (Ty.nominal 2) none Ty.nullTy) =
      some (Expr.injectIntoOptional (Expr.otherE 1 (Ty.nominal 2))
        (Ty.optional (Ty.nominal 2))) :=
  ⟨(checkAsCastExpr_invalidCoercible_spec envC9 3
      (Expr.otherE 1 (Ty.optional (Ty.nominal 2))) (Ty.nominal 2) none
      Ty.nullTy (Expr.otherE 1 (Ty.optional (Ty.nominal 2))) rfl rfl).1 rfl,
   (checkAsCastExpr_invalidCoercible_spec envC9 3
      (Expr.otherE 1 (Ty.nominal 2)) (Ty.nominal 2) none Ty.nullTy
      (Expr.otherE 1 (Ty.nominal 2)) rfl rfl).2 (by decide)
     (Expr.otherE 1 (Ty.nominal 2)) (by rfl)⟩

/-- Manual unfolding lemma for `convertLiteral` at positive fuel (the
automatic equation generation does not handle this body shape). -/
theorem convertLiteral_succ (env : Env) (fuel : Nat) (literal : Expr)
    (type openedType : Ty) (protocol : Option Nat) (literalType : TyOrName)
    (literalFuncName builtinProtocol : Nat) (builtinLiteralType : TyOrName)
    (builtinLiteralFuncName : Nat) (isBuiltinArgType : Option (Ty → Bool)) :
    convertLiteral env (Nat.succ fuel) literal type openedType protocol
        literalType literalFuncName builtinProtocol builtinLiteralType
        builtinLiteralFuncName isBuiltinArgType =
      (match env.conformsToProtocol type builtinProtocol with
       | some builtinConformance =>
         (match resolveLiteralArgType env type builtinProtocol
                  builtinConformance builtinLiteralType with
          | none => none
          | some argType =>
            if builtinArgTypeRejected isBuiltinArgType argType then none
            else
              match tcCallWitness env fuel (Expr.metatypeLit (Ty.metaTy type))
                      builtinProtocol builtinLiteralFuncName
                      [literal.setType argType] with
              | none => none
              | some result => some (result.setType type))
       | none =>
         match protocol with
         | none => none
         | some proto =>
           match env.conformsToProtocol type proto with
           | none => none
           | some conformance =>
             match resolveLiteralArgType env type proto conformance
                     literalType with
             | none => none
             | some argType =>
               match convertLiteral env fuel literal argType argType none
                       (TyOrName.name 0) 0 builtinProtocol builtinLiteralType
                       builtinLiteralFuncName isBuiltinArgType with
               | none => none
               | some literal2 =>
                 match tcCallWitness env fuel
                         (Expr.metatypeLit (Ty.metaTy type)) proto
                         literalFuncName [literal2] with
                 | none => none
                 | some result => some (result.setType type)) := rfl

/-- Helper for the literal-conversion claim: the builtin path of
`convertLiteral`, fully unfolded.  When the destination type conforms to
the builtin protocol, the result is one call to the builtin witness
reference whose sole argument is the literal retyped to the builtin
argument type, and the call's type is set to the destination. -/
theorem convertLiteral_builtin_case (env : Env) (g : Nat) (literal : Expr)
    (type opened : Ty) (protocol : Option Nat) (literalType : TyOrName)
    (lfn bProto : Nat) (bLitType : TyOrName) (bfn : Nat)
    (pred : Option (Ty → Bool)) (bConf : Option Nat) (argType : Ty)
    (w : Nat) (mref : Expr) (res : Ty) (ac bl : Bool)
    (hconf : env.conformsToProtocol type bProto = some bConf)
    (hargty : resolveLiteralArgType env type bProto bConf bLitType
      = some argType)
    (hpred : builtinArgTypeRejected pred argType = false)
    (hw : findNamedWitness env type.getRValueType bProto bfn = some w)
    (hmref : env.buildMemberRef (Expr.metatypeLit (Ty.metaTy type)) w
      (env.typeOfMemberRef (Ty.metaTy type) w) = some mref)
    (hmrefTy : mref.ty = Ty.fn argType res ac bl)
    (hsetty : (literal.setType argType).ty = argType) :
    convertLiteral env (g + 3) literal type opened protocol literalType lfn
        bProto bLitType bfn pred =
      some (Expr.call mref (literal.setType argType)
        (literal.setType argType).isSuperRef type) := by
  have hfn : tcCoerceToRValue mref = mref := by
    unfold tcCoerceToRValue
    rw [hmrefTy]
  have hcoe : coerceToType env (g + 1) (literal.setType argType) argType
      ([] ++ [PathElt.applyArgument]) = some (literal.setType argType) := by
    unfold coerceToType
    simp [hsetty]
  have hg : g + 3 = Nat.succ (g + 2) := rfl
  rw [hg, convertLiteral_succ]
  rw [hconf]
  simp only [hargty, hpred]
  unfold tcCallWitness
  simp only [Expr.ty]
  simp only [hw, hmref]
  unfold finishApply
  simp only [hfn, hmrefTy]
  simp only [hcoe]
  cases mref <;> simp [Expr.setType]

/-- C2: literal conversion through the two-level protocol scheme.  If the
destination type `T` conforms to the builtin protocol, the result is a
single call to the builtin witness reference whose sole argument is the
literal retyped to the builtin argument type, with the result's type set to
`T`.  Otherwise `T` conforms to the general protocol: the literal is first
converted through the builtin protocol to the general protocol's argument
type (one builtin-witness call), and that converted literal is passed as
the sole argument of exactly one call to the general witness reference,
with the result's type set to `T`. -/
theorem convertLiteral_spec :
    (∀ (env : Env) (g : Nat) (literal : Expr) (type opened : Ty)
       (protocol : Option Nat) (literalType : TyOrName) (lfn bProto : Nat)
       (bLitType : TyOrName) (bfn : Nat) (pred : Option (Ty → Bool))
       (bConf : Option Nat) (argType : Ty) (w : Nat) (mref : Expr) (res : Ty)
       (ac bl : Bool),
       env.conformsToProtocol type bProto = some bConf →
       resolveLiteralArgType env type bProto bConf bLitType = some argType →
       builtinArgTypeRejected pred argType = false →
       findNamedWitness env type.getRValueType bProto bfn = some w →
       env.buildMemberRef (Expr.metatypeLit (Ty.metaTy type)) w
         (env.typeOfMemberRef (Ty.metaTy type) w) = some mref →
       mref.ty = Ty.fn argType res ac bl →
       (literal.setType argType).ty = argType →
       convertLiteral env (g + 3) literal type opened protocol literalType
           lfn bProto bLitType bfn pred =
         some (Expr.call mref (literal.setType argType)
           (literal.setType argType).isSuperRef type)) ∧
    (∀ (env : Env) (g : Nat) (literal : Expr) (type opened : Ty)
       (literalType : TyOrName) (lfn bProto : Nat) (bLitType : TyOrName)
       (bfn : Nat) (pred : Option (Ty → Bool)) (p : Nat) (conf : Option Nat)
       (argT : Ty) (bConf2 : Option Nat) (bArgT : Ty) (w2 : Nat)
       (mref2 : Expr) (res2 : Ty) (ac2 bl2 : Bool) (wG : Nat) (mrefG : Expr)
       (resG : Ty) (acG blG : Bool),
       env.conformsToProtocol type bProto = none →
       env.conformsToProtocol type p = some conf →
       resolveLiteralArgType env type p conf literalType = some argT →
       env.conformsToProtocol argT bProto = some bConf2 →
       resolveLiteralArgType env argT bProto bConf2 bLitType = some bArgT →
       builtinArgTypeRejected pred bArgT = false →
       findNamedWitness env argT.getRValueType bProto bfn = some w2 →
       env.buildMemberRef (Expr.metatypeLit (Ty.metaTy argT)) w2
         (env.typeOfMemberRef (Ty.metaTy argT) w2) = some mref2 →
       mref2.ty = Ty.fn bArgT res2 ac2 bl2 →
       (literal.setType bArgT).ty = bArgT →
       findNamedWitness env type.getRValueType p lfn = some wG →
       env.buildMemberRef (Expr.metatypeLit (Ty.metaTy type)) wG
         (env.typeOfMemberRef (Ty.metaTy type) wG) = some mrefG →
       mrefG.ty = Ty.fn argT resG acG blG →
       convertLiteral env (g + 4) literal type opened (some p) literalType
           lfn bProto bLitType bfn pred =
         some (Expr.call mrefG
           (Expr.call mref2 (literal.setType bArgT)
             (literal.setType bArgT).isSuperRef argT)
           false type)) := by
  constructor
  · intro env g literal type opened protocol literalType lfn bProto bLitType
      bfn pred bConf argType w mref res ac bl hconf hargty hpred hw hmref
      hmrefTy hsetty
    exact convertLiteral_builtin_case env g literal type opened protocol
      literalType lfn bProto bLitType bfn pred bConf argType w mref res ac bl
      hconf hargty hpred hw hmref hmrefTy hsetty
  · intro env g literal type opened literalType lfn bProto bLitType bfn pred
      p conf argT bConf2 bArgT w2 mref2 res2 ac2 bl2 wG mrefG resG acG blG
      hnoconf hconfp hargtyG hconf2 hargty2 hpred2 hw2 hmref2 hmref2Ty
      hsetty2 hwG hmrefG hmrefGTy
    have hinner := convertLiteral_builtin_case env g literal argT argT none
      (TyOrName.name 0) 0 bProto bLitType bfn pred bConf2 bArgT w2 mref2
      res2 ac2 bl2 hconf2 hargty2 hpred2 hw2 hmref2 hmref2Ty hsetty2
    have hfnG : tcCoerceToRValue mrefG = mrefG := by
      unfold tcCoerceToRValue
      rw [hmrefGTy]
    have hcoeG : coerceToType env (g + 2)
        (Expr.call mref2 (literal.setType bArgT)
          (literal.setType bArgT).isSuperRef argT) argT
        ([] ++ [PathElt.applyArgument]) =
        some (Expr.call mref2 (literal.setType bArgT)
          (literal.setType bArgT).isSuperRef argT) := by
      have hg2 : g + 2 = Nat.succ (g + 1) := rfl
      rw [hg2]
      unfold coerceToType
      simp [Expr.ty]
    have hg : g + 4 = Nat.succ (g + 3) := rfl
    rw [hg, convertLiteral_succ, hnoconf]
    simp only [hconfp, hargtyG]
    rw [hinner]
    unfold tcCallWitness
    simp only [Expr.ty]
    simp only [hwG, hmrefG]
    unfold finishApply
    simp only [hfnG, hmrefGTy]
    simp only [hcoeG]
    cases mrefG <;> simp [Expr.setType, Expr.isSuperRef]

/-- An environment for the literal-conversion witness: `nominal 10` (the
destination) conforms to the general protocol `101` whose witness is
declaration `301`; the general argument type `nominal 11` conforms to the
builtin protocol `100` whose witness is declaration `300` (field order as
in `trivialEnv`). -/
def envC2 : Env :=
  ⟨fun _ _ => none,
   fun _ => none,
   fun _ _ _ => none,
   fun _ => false,
   fun _ => none,
   fun _ _ => (DefaultArg.noDefault, Ty.nullTy),
   fun _ _ => none,
   fun _ _ => none,
   fun t pr =>
     if t = Ty.nominal 10 ∧ pr = 101 then some (some 0)
     else if t = Ty.nominal 11 ∧ pr = 100 then some (some 1)
     else none,
   fun _ _ _ _ => none,
   fun pr n =>
     if pr = 101 ∧ n = 7 then some 201
     else if pr = 100 ∧ n = 8 then some 200
     else none,
   fun c r =>
     if c = 0 ∧ r = 201 then some 301
     else if c = 1 ∧ r = 200 then some 300
     else none,
   fun _ _ => [],
   fun _ => false,
   fun _ => false,
   fun _ => 0,
   fun _ => Ty.nullTy,
   fun base d _ =>
     some (Expr.memberRef base d
       (if d = 300 then Ty.fn (Ty.builtinInt 2048) (Ty.nominal 11) false false
        else Ty.fn (Ty.nominal 11) (Ty.nominal 10) false false)),
   fun _ _ => Ty.nullTy,
   fun _ => 0,
   fun _ _ => CastKind.unresolved⟩

/-- Witness for C2: a literal with destination `nominal 10` goes through
the builtin witness (decl 300) at the general argument type `nominal 11`
and then through the general witness (decl 301). -/
theorem convertLiteral_spec_witness :
    convertLiteral envC2 4 (Expr.otherE 42 Ty.nullTy) (Ty.nominal 10)
        (Ty.nominal 10) (some 101) (TyOrName.ty (Ty.nominal 11)) 7 100
        (TyOrName.ty (Ty.builtinInt 2048)) 8 none =
      some (Expr.call
        (Expr.memberRef (Expr.metatypeLit (Ty.metaTy (Ty.nominal 10))) 301
          (Ty.fn (Ty.nominal 11) (Ty.nominal 10) false false))
        (Expr.call
          (Expr.memberRef (Expr.metatypeLit (Ty.metaTy (Ty.nominal 11))) 300
            (Ty.fn (Ty.builtinInt 2048) (Ty.nominal 11) false false))
          (Expr.otherE 42 (Ty.builtinInt 2048)) false (Ty.nominal 11))
        false (Ty.nominal 10)) := by
  have h := convertLiteral_spec.2 envC2 0 (Expr.otherE 42 Ty.nullTy)
    (Ty.nominal 10) (Ty.nominal 10) (TyOrName.ty (Ty.nominal 11)) 7 100
    (TyOrName.ty (Ty.builtinInt 2048)) 8 none 101 (some 0) (Ty.nominal 11)
    (some 1) (Ty.builtinInt 2048) 300
    (Expr.memberRef (Expr.metatypeLit (Ty.metaTy (Ty.nominal 11))) 300
      (Ty.fn (Ty.builtinInt 2048) (Ty.nominal 11) false false))
    (Ty.nominal 11) false false 301
    (Expr.memberRef (Expr.metatypeLit (Ty.metaTy (Ty.nominal 10))) 301
      (Ty.fn (Ty.nominal 11) (Ty.nominal 10) false false))
    (Ty.nominal 10) false false
    (by decide) (by decide) rfl (by decide) rfl rfl
    (by decide) rfl rfl rfl (by decide) rfl rfl
  simpa [Expr.setType, Expr.isSuperRef] using h

theorem Flds.ofList_toList : ∀ fs : Flds, Flds.ofList (Flds.toList fs) = fs
  | .nil => rfl
  | .cons n t d v fs => by
      simp [Flds.toList, Flds.ofList, Flds.ofList_toList fs]

theorem Exprs.ofList_toList_e : ∀ es : Exprs, Exprs.ofList (Exprs.toList es) = es
  | .nil => rfl
  | .cons e es => by
      simp [Exprs.toList, Exprs.ofList, Exprs.ofList_toList_e es]

theorem Ty.mkTuple_toList (fs : Flds) : Ty.mkTuple fs.toList = Ty.tuple fs := by
  simp [Ty.mkTuple, Flds.ofList_toList]

/-- A tuple literal's recorded field types are its elements' types. -/
theorem Exprs.zipFlds_align : ∀ (meta : List FldMeta) (es : Exprs) (k : Nat)
    (f : Fld), (Flds.toList (Exprs.zipFlds meta es))[k]? = some f →
    ((Exprs.toList es)[k]?).map Expr.ty = some f.ty
  | [], es, k, f => by simp [Exprs.zipFlds, Flds.toList]
  | _ :: _, .nil, k, f => by simp [Exprs.zipFlds, Flds.toList]
  | m :: ms, .cons e es, 0, f => by
      simp [Exprs.zipFlds, Flds.toList, Exprs.toList]
      rintro rfl
      simp
  | m :: ms, .cons e es, Nat.succ k, f => by
      simp only [Exprs.zipFlds, Flds.toList, Exprs.toList,
        List.getElem?_cons_succ]
      exact Exprs.zipFlds_align ms es k f

/-- Zipping the metadata of a field list with elements of matching types
recovers the field list. -/
theorem Exprs.zipFlds_metaOf : ∀ (l : List Fld) (es : List Expr),
    (∀ (j : Nat) (f : Fld), l[j]? = some f → (es[j]?).map Expr.ty = some f.ty) →
    Exprs.zipFlds (Fld.metaOf l) (Exprs.ofList es) = Flds.ofList l
  | [], es, _ => by cases es <;> simp [Fld.metaOf, Exprs.ofList, Exprs.zipFlds, Flds.ofList]
  | f :: l, es, h => by
      have h0 := h 0 f (by simp)
      cases es with
      | nil => simp at h0
      | cons e es =>
        simp at h0
        simp [Fld.metaOf, Exprs.ofList, Exprs.zipFlds, Flds.ofList, h0]
        have := Exprs.zipFlds_metaOf l es (fun j g hg => by
          have := h (j+1) g (by simpa using hg)
          simpa using this)
        simpa [Fld.metaOf] using this

theorem Expr.stripParens_ty : ∀ e : Expr, e.stripParens.ty = e.ty
  | .paren sub => by
      simp [Expr.stripParens, Expr.ty, Expr.stripParens_ty sub]
  | .otherE _ _ => rfl
  | .superRef _ => rfl
  | .declRef _ _ => rfl
  | .metatypeLit _ => rfl
  | .magicLit _ _ => rfl
  | .discardAssign _ => rfl
  | .assign _ _ _ => rfl
  | .tupleLit _ _ => rfl
  | .memberRef _ _ _ => rfl
  | .call _ _ _ _ => rfl
  | .load _ _ => rfl
  | .requalify _ _ => rfl
  | .materialize _ _ => rfl
  | .derivedToBase _ _ => rfl
  | .archetypeToSuper _ _ => rfl
  | .erasure _ _ _ => rfl
  | .injectIntoOptional _ _ => rfl
  | .bridgeToBlock _ _ => rfl
  | .functionConversion _ _ => rfl
  | .metatypeConversion _ _ => rfl
  | .autoClosure _ _ => rfl
  | .scalarToTuple _ _ _ _ => rfl
  | .tupleShuffle _ _ _ _ _ _ => rfl
  | .condCheckedCast _ _ _ _ => rfl

theorem Expr.replaceCore_ty : ∀ (e core : Expr),
    (Expr.replaceCore e core).ty = core.ty
  | .paren sub, core => by
      simp [Expr.replaceCore, Expr.ty, Expr.replaceCore_ty sub core]
  | .otherE _ _, _ => rfl
  | .superRef _, _ => rfl
  | .declRef _ _, _ => rfl
  | .metatypeLit _, _ => rfl
  | .magicLit _ _, _ => rfl
  | .discardAssign _, _ => rfl
  | .assign _ _ _, _ => rfl
  | .tupleLit _ _, _ => rfl
  | .memberRef _ _ _, _ => rfl
  | .call _ _ _ _, _ => rfl
  | .load _ _, _ => rfl
  | .requalify _ _, _ => rfl
  | .materialize _ _, _ => rfl
  | .derivedToBase _ _, _ => rfl
  | .archetypeToSuper _ _, _ => rfl
  | .erasure _ _ _, _ => rfl
  | .injectIntoOptional _ _, _ => rfl
  | .bridgeToBlock _ _, _ => rfl
  | .functionConversion _ _, _ => rfl
  | .metatypeConversion _ _, _ => rfl
  | .autoClosure _ _, _ => rfl
  | .scalarToTuple _ _ _ _, _ => rfl
  | .tupleShuffle _ _ _ _ _ _, _ => rfl
  | .condCheckedCast _ _ _ _, _ => rfl

theorem Expr.replaceCore_eraseTy : ∀ (e core : Expr),
    Expr.eraseTy core = Expr.eraseTy e.stripParens →
    Expr.eraseTy (Expr.replaceCore e core) = Expr.eraseTy e
  | .paren sub, core => by
      intro h
      simp [Expr.replaceCore, Expr.eraseTy]
      exact Expr.replaceCore_eraseTy sub core (by simpa [Expr.stripParens] using h)
  | .otherE _ _, _ => fun h => by simpa [Expr.replaceCore, Expr.stripParens] using h
  | .superRef _, _ => fun h => by simpa [Expr.replaceCore, Expr.stripParens] using h
  | .declRef _ _, _ => fun h => by simpa [Expr.replaceCore, Expr.stripParens] using h
  | .metatypeLit _, _ => fun h => by simpa [Expr.replaceCore, Expr.stripParens] using h
  | .magicLit _ _, _ => fun h => by simpa [Expr.replaceCore, Expr.stripParens] using h
  | .discardAssign _, _ => fun h => by simpa [Expr.replaceCore, Expr.stripParens] using h
  | .assign _ _ _, _ => fun h => by simpa [Expr.replaceCore, Expr.stripParens] using h
  | .tupleLit _ _, _ => fun h => by simpa [Expr.replaceCore, Expr.stripParens] using h
  | .memberRef _ _ _, _ => fun h => by simpa [Expr.replaceCore, Expr.stripParens] using h
  | .call _ _ _ _, _ => fun h => by simpa [Expr.replaceCore, Expr.stripParens] using h
  | .load _ _, _ => fun h => by simpa [Expr.replaceCore, Expr.stripParens] using h
  | .requalify _ _, _ => fun h => by simpa [Expr.replaceCore, Expr.stripParens] using h
  | .materialize _ _, _ => fun h => by simpa [Expr.replaceCore, Expr.stripParens] using h
  | .derivedToBase _ _, _ => fun h => by simpa [Expr.replaceCore, Expr.stripParens] using h
  | .archetypeToSuper _ _, _ => fun h => by simpa [Expr.replaceCore, Expr.stripParens] using h
  | .erasure _ _ _, _ => fun h => by simpa [Expr.replaceCore, Expr.stripParens] using h
  | .injectIntoOptional _ _, _ => fun h => by simpa [Expr.replaceCore, Expr.stripParens] using h
  | .bridgeToBlock _ _, _ => fun h => by simpa [Expr.replaceCore, Expr.stripParens] using h
  | .functionConversion _ _, _ => fun h => by simpa [Expr.replaceCore, Expr.stripParens] using h
  | .metatypeConversion _ _, _ => fun h => by simpa [Expr.replaceCore, Expr.stripParens] using h
  | .autoClosure _ _, _ => fun h => by simpa [Expr.replaceCore, Expr.stripParens] using h
  | .scalarToTuple _ _ _ _, _ => fun h => by simpa [Expr.replaceCore, Expr.stripParens] using h
  | .tupleShuffle _ _ _ _ _ _, _ => fun h => by simpa [Expr.replaceCore, Expr.stripParens] using h
  | .condCheckedCast _ _ _ _, _ => fun h => by simpa [Expr.replaceCore, Expr.stripParens] using h

theorem superclassCoerce_ty (expr : Expr) (toType : Ty) (e' : Expr)
    (h : superclassCoerce expr toType = some e') : e'.ty = toType := by
  unfold superclassCoerce at h
  split at h
  next id sup heq =>
    clear heq
    cases sup with
    | noneT => simp at h
    | someT s =>
      by_cases hs : s = toType
      · simp only [hs, if_pos rfl] at h
        cases h
        rfl
      · simp only [if_neg hs] at h
        cases h
        rfl
  next hne =>
    cases h
    rfl
/-- `coerceExistential` stamps the target existential type on the
`ErasureExpr` it creates. -/
theorem coerceExistential_ty (env : Env) (expr : Expr) (toType : Ty)
    (e' : Expr) (h : coerceExistential env expr toType = some e') :
    e'.ty = toType := by
  unfold coerceExistential at h
  split at h
  · exact Option.noConfusion h
  · split at h
    · exact Option.noConfusion h
    · cases h; rfl

/-- When `scalarSugarFields` finishes the walk without stopping at a
defaulted field, it collects exactly the accumulator followed by the
destination fields it walked, unchanged. -/
theorem scalarSugarFields_no_init : ∀ (exprTy : Ty) (fields : List Fld)
    (i toScalarIdx : Nat) (acc sf : List Fld),
    scalarSugarFields exprTy fields i toScalarIdx acc = some (sf, false) →
    sf = acc ++ fields
  | exprTy, [], i, toScalarIdx, acc, sf => by
      intro h
      unfold scalarSugarFields at h
      cases h
      simp
  | exprTy, ⟨fn, ft, fd, fv⟩ :: rest, i, toScalarIdx, acc, sf => by
      intro h
      unfold scalarSugarFields at h
      split at h
      · simp at h
      next hinit =>
        have hfd : fd = DefaultArg.noDefault := by
          simpa [Fld.hasInit] using hinit
        split at h
        · split at h
          next hv =>
            split at h
            next base hbase =>
              split at h
              next hexpr =>
                have := scalarSugarFields_no_init exprTy rest (i+1) toScalarIdx
                  (acc ++ [⟨fn, ft, fd, true⟩]) sf h
                subst hv
                simpa using this
              · exact Option.noConfusion h
            · exact Option.noConfusion h
          next hv =>
            split at h
            next hexpr =>
              have := scalarSugarFields_no_init exprTy rest (i+1) toScalarIdx
                (acc ++ [⟨fn, exprTy, DefaultArg.noDefault, false⟩]) sf h
              subst hfd
              simp only [Bool.not_eq_true] at hv
              subst hv
              rw [hexpr] at this
              simpa using this
            · exact Option.noConfusion h
        · have := scalarSugarFields_no_init exprTy rest (i+1) toScalarIdx
            (acc ++ [⟨fn, ft, fd, fv⟩]) sf h
          simpa using this

/-- `coerceScalarToTuple` stamps the destination tuple type (the re-sugared
type is canonically the destination type) on the `ScalarToTupleExpr` it
creates. -/
theorem coerceScalarToTuple_ty (env : Env) (fuel : Nat) (expr : Expr)
    (toFields : List Fld) (toScalarIdx : Nat) (locator : Loc) (e' : Expr)
    (h : coerceScalarToTuple env fuel expr toFields toScalarIdx locator
           = some e') :
    e'.ty = Ty.mkTuple toFields := by
  match fuel with
  | 0 => exact Option.noConfusion h
  | Nat.succ fuel =>
    unfold coerceScalarToTuple at h
    rcases hL : toFields.getLast? with _ | lastField
    · simp [hL] at h
    simp only [hL] at h
    rcases hv : lastField.vararg with _ | _ <;> simp [hv] at h
    case false =>
      rcases hF : toFields[toScalarIdx]? with _ | field
      · simp [hF] at h
      simp only [hF] at h
      rcases hfv : field.vararg with _ | _ <;> simp [hfv] at h
      case false =>
        rcases hco : coerceToType env fuel expr field.ty
            (locator ++ [PathElt.scalarToTuple]) with _ | expr2 <;>
          simp [hco] at h
        rcases hsu : scalarSugarFields expr2.ty toFields 0 toScalarIdx []
            with _ | ⟨sf, hi⟩ <;> simp [hsu] at h
        rcases hse : scalarElements env locator toFields 0 toScalarIdx none
            with _ | els <;> simp [hse] at h
        subst h
        cases hi
        · simp [Expr.ty, scalarSugarFields_no_init _ _ _ _ _ _ hsu]
        · simp [Expr.ty]
      case true =>
        rcases hvb : field.varargBaseTy with _ | ts <;> simp [hvb] at h
        rcases hco : coerceToType env fuel expr ts
            (locator ++ [PathElt.scalarToTuple]) with _ | expr2 <;>
          simp [hco] at h
        rcases hsu : scalarSugarFields expr2.ty toFields 0 toScalarIdx []
            with _ | ⟨sf, hi⟩ <;> simp [hsu] at h
        rcases hse : scalarElements env locator toFields 0 toScalarIdx none
            with _ | els <;> simp [hse] at h
        subst h
        cases hi
        · simp [Expr.ty, scalarSugarFields_no_init _ _ _ _ _ _ hsu]
        · simp [Expr.ty]
    case true =>
      cases hty : lastField.ty <;> simp [hty] at h
      next t =>
      rcases hb : env.buildArrayInjectionFnRef (Ty.slice t) (Ty.builtinInt 64)
          with _ | f <;> simp [hb] at h
      rcases hF : toFields[toScalarIdx]? with _ | field
      · simp [hF] at h
      simp only [hF] at h
      rcases hfv : field.vararg with _ | _ <;> simp [hfv] at h
      case false =>
        rcases hco : coerceToType env fuel expr field.ty
            (locator ++ [PathElt.scalarToTuple]) with _ | expr2 <;>
          simp [hco] at h
        rcases hsu : scalarSugarFields expr2.ty toFields 0 toScalarIdx []
            with _ | ⟨sf, hi⟩ <;> simp [hsu] at h
        rcases hse : scalarElements env locator toFields 0 toScalarIdx none
            with _ | els <;> simp [hse] at h
        subst h
        cases hi
        · simp [Expr.ty, scalarSugarFields_no_init _ _ _ _ _ _ hsu]
        · simp [Expr.ty]
      case true =>
        rcases hvb : field.varargBaseTy with _ | ts <;> simp [hvb] at h
        rcases hco : coerceToType env fuel expr ts
            (locator ++ [PathElt.scalarToTuple]) with _ | expr2 <;>
          simp [hco] at h
        rcases hsu : scalarSugarFields expr2.ty toFields 0 toScalarIdx []
            with _ | ⟨sf, hi⟩ <;> simp [hsu] at h
        rcases hse : scalarElements env locator toFields 0 toScalarIdx none
            with _ | els <;> simp [hse] at h
        subst h
        cases hi
        · simp [Expr.ty, scalarSugarFields_no_init _ _ _ _ _ _ hsu]
        · simp [Expr.ty]
/-- `replaceCore` with a tuple-literal core never yields a shuffle node. -/
theorem Expr.replaceCore_ne_shuffle : ∀ (e : Expr) (es : Exprs)
    (meta : List FldMeta) (s : Expr) (t : Ty) (m : List ShuffleEntry)
    (o : Option Nat) (d : Exprs) (inj : OExpr),
    Expr.replaceCore e (Expr.tupleLit es meta) ≠ Expr.tupleShuffle s t m o d inj := by
  intro e
  cases e <;> intro es meta s t m o d inj <;> simp [Expr.replaceCore]

/-- The destination loop of `coerceTupleToTuple` under an identity shuffle
with pointwise-equal field types: every step takes the matching-element
branch, so the literal's elements and the shuffle flags are untouched. -/
theorem tupleDestLoop_identity (env : Env) : ∀ (fuel : Nat) (locator : Loc)
    (fromFields : List Fld) (n i : Nat) (rest : List Fld)
    (st st' : TupleLoopSt),
    st.sources = (List.range n).map ShuffleEntry.src →
    (∀ (d : Nat) (ff tf : Fld), fromFields[i+d]? = some ff →
       rest[d]? = some tf → ff.ty = tf.ty) →
    tupleDestLoop env fuel locator fromFields n i rest st = some st' →
    st'.elts = st.elts ∧ st'.anythingShuffled = st.anythingShuffled ∧
    st'.hasVarArg = st.hasVarArg
  | 0, _, _, _, _, _, _, _ => by
      intro _ _ h
      exact Option.noConfusion h
  | Nat.succ fuel, locator, fromFields, n, i, rest, st, st' => by
    intro hsrc hty h
    unfold tupleDestLoop at h
    cases rest with
    | nil =>
      cases h
      exact ⟨rfl, rfl, rfl⟩
    | cons toElt rest' =>
      by_cases hin : i < n
      · have hsi : st.sources[i]? = some (ShuffleEntry.src i) := by
          rw [hsrc]
          simp [List.getElem?_map, List.getElem?_range hin]
        simp only [hsi] at h
        rcases hff : fromFields[i]? with _ | fromElt
        · simp [hff] at h
        simp only [hff] at h
        have hteq : fromElt.ty = toElt.ty :=
          hty 0 fromElt toElt (by simpa using hff) (by simp)
        simp only [hteq, if_pos rfl, bne_self_eq_false, Bool.or_false] at h
        have htyShift : ∀ (d : Nat) (ff tf : Fld),
            fromFields[(i+1)+d]? = some ff → rest'[d]? = some tf →
            ff.ty = tf.ty := by
          intro d ff tf h1 h2
          have he : i + 1 + d = i + (d + 1) := by omega
          rw [he] at h1
          exact hty (d+1) ff tf h1 (by simpa using h2)
        rcases hel : st.elts with _ | es
        · simp only [hel] at h
          have := tupleDestLoop_identity env fuel locator fromFields n (i+1)
            rest' _ st' (by simpa using hsrc) htyShift h
          simpa [hel] using this
        · simp only [hel] at h
          rcases hesi : es[i]? with _ | el
          · simp [hesi] at h
          simp only [hesi] at h
          have := tupleDestLoop_identity env fuel locator fromFields n (i+1)
            rest' _ st' (by simpa using hsrc) htyShift h
          simpa [hel] using this
      · have hsi : st.sources[i]? = none := by
          rw [hsrc]
          simp [List.getElem?_eq_none_iff, Nat.le_of_not_lt hin]
        simp [hsi] at h
/-- C10 (amended): in a tuple-to-tuple coercion whose recorded shuffle is the
identity and whose source and destination field types agree pointwise, when
the source contains a tuple literal, `coerceTupleToTuple` rewrites no
element: the result is the original expression with only the type
annotations of the literal (its field metadata) and of the enclosing
parentheses updated, and no `TupleShuffleExpr` is allocated.  (Without the
pointwise type agreement the no-shuffle path still converts elements in
place, so the result differs from the original by more than annotations —
see the counterexample.) -/
theorem coerceTupleToTuple_no_shuffle_frame (env : Env) (fuel : Nat)
    (expr : Expr) (fromFields toFields : List Fld) (locator : Loc)
    (es0 : Exprs) (meta0 : List FldMeta) (r : Expr)
    (hlit : expr.stripParens = Expr.tupleLit es0 meta0)
    (hty : ∀ p ∈ fromFields.zip toFields, (Prod.fst p).ty = (Prod.snd p).ty)
    (h : coerceTupleToTuple env fuel expr fromFields toFields locator
           ((List.range toFields.length).map ShuffleEntry.src) [] = some r) :
    Expr.eraseTy r = Expr.eraseTy expr ∧
    ∀ s t m o d inj, r ≠ Expr.tupleShuffle s t m o d inj := by
  match fuel with
  | 0 => exact Option.noConfusion h
  | Nat.succ fuel =>
    unfold coerceTupleToTuple at h
    simp only [hlit] at h
    rcases hd : tupleDestLoop env fuel locator fromFields toFields.length 0
        toFields ⟨false, false, false, [],
          List.replicate fromFields.length none, [], none,
          (List.range toFields.length).map ShuffleEntry.src,
          some (Exprs.toList es0)⟩ with _ | st1
    · simp [hd] at h
    simp only [hd] at h
    have hidx : ∀ (d : Nat) (ff tf : Fld), fromFields[0+d]? = some ff →
        toFields[d]? = some tf → ff.ty = tf.ty := by
      intro d ff tf h1 h2
      have hz : (fromFields.zip toFields)[d]? = some (ff, tf) := by
        rw [List.getElem?_zip_eq_some]
        exact ⟨by simpa using h1, h2⟩
      exact hty (ff, tf) (List.getElem?_mem hz)
    obtain ⟨helts, hshuf, hvar⟩ := tupleDestLoop_identity env fuel locator
      fromFields toFields.length 0 toFields _ st1 rfl hidx hd
    simp [helts, hshuf, hvar] at h
    subst h
    constructor
    · refine Expr.replaceCore_eraseTy expr _ ?_
      rw [hlit]
      simp [Expr.eraseTy, Exprs.ofList_toList_e]
    · intro s t m o d inj
      exact Expr.replaceCore_ne_shuffle expr _ _ s t m o d inj
/-- Witness for the amended C10 statement at a concrete input: a one-element
literal coerced under the identity shuffle with equal field types. -/
theorem coerceTupleToTuple_no_shuffle_frame_witness :
    Expr.eraseTy (Expr.tupleLit (Exprs.cons (Expr.otherE 7 (Ty.nominal 3))
        Exprs.nil) [⟨none, DefaultArg.noDefault, false⟩])
      = Expr.eraseTy (Expr.tupleLit (Exprs.cons (Expr.otherE 7 (Ty.nominal 3))
        Exprs.nil) [⟨none, DefaultArg.noDefault, false⟩]) ∧
    ∀ s t m o d inj,
      Expr.tupleLit (Exprs.cons (Expr.otherE 7 (Ty.nominal 3)) Exprs.nil)
        [⟨none, DefaultArg.noDefault, false⟩]
      ≠ Expr.tupleShuffle s t m o d inj :=
  coerceTupleToTuple_no_shuffle_frame trivialEnv 9
    (Expr.tupleLit (Exprs.cons (Expr.otherE 7 (Ty.nominal 3)) Exprs.nil)
      [⟨none, DefaultArg.noDefault, false⟩])
    [⟨none, Ty.nominal 3, DefaultArg.noDefault, false⟩]
    [⟨none, Ty.nominal 3, DefaultArg.noDefault, false⟩] []
    (Exprs.cons (Expr.otherE 7 (Ty.nominal 3)) Exprs.nil)
    [⟨none, DefaultArg.noDefault, false⟩]
    (Expr.tupleLit (Exprs.cons (Expr.otherE 7 (Ty.nominal 3)) Exprs.nil)
      [⟨none, DefaultArg.noDefault, false⟩])
    rfl (by decide) rfl

/-- C10 (counterexample): the claim says the no-shuffle path changes only
type annotations.  But "nothing shuffled" only tracks reordering, default
initialization and variadics: an element whose source and destination field
types differ is converted in place on that very path.  Coercing the literal
`(x)` of type `(@lvalue T)` to `(T)` under the identity shuffle succeeds
without allocating a shuffle, yet the returned literal's element is a new
`LoadExpr` wrapping the original element — a structural change the claim
says does not happen. -/
theorem coerceTupleToTuple_no_shuffle_converts_element :
    coerceTupleToTuple trivialEnv 9
        (Expr.tupleLit (Exprs.cons
            (Expr.otherE 5 (Ty.lvalue (Ty.nominal 3) false)) Exprs.nil)
          [⟨none, DefaultArg.noDefault, false⟩])
        [⟨none, Ty.lvalue (Ty.nominal 3) false, DefaultArg.noDefault, false⟩]
        [⟨none, Ty.nominal 3, DefaultArg.noDefault, false⟩]
        [] [ShuffleEntry.src 0] []
      = some (Expr.tupleLit (Exprs.cons
            (Expr.load (Expr.otherE 5 (Ty.lvalue (Ty.nominal 3) false))
              (Ty.nominal 3)) Exprs.nil)
          [⟨none, DefaultArg.noDefault, false⟩])
    ∧ Expr.eraseTy (Expr.tupleLit (Exprs.cons
            (Expr.load (Expr.otherE 5 (Ty.lvalue (Ty.nominal 3) false))
              (Ty.nominal 3)) Exprs.nil)
          [⟨none, DefaultArg.noDefault, false⟩])
       ≠ Expr.eraseTy (Expr.tupleLit (Exprs.cons
            (Expr.otherE 5 (Ty.lvalue (Ty.nominal 3) false)) Exprs.nil)
          [⟨none, DefaultArg.noDefault, false⟩]) := by
  constructor
  · rfl
  · intro h
    simp [Expr.eraseTy, Exprs.eraseTy] at h
/-- The destination loop of `coerceTupleToTuple` keeps the length of the
recorded sources, never introduces a `FirstVariadic` or source-index entry
(it only rewrites `DefaultInitialize` entries to `CallerDefaultInitialize`
in place), and validates every entry it processes: a `FirstVariadic` only at
the last destination position, and a source index only when it indexes the
source tuple's fields. -/
theorem tupleDestLoop_sources (env : Env) : ∀ (fuel : Nat) (locator : Loc)
    (fromFields : List Fld) (n i : Nat) (rest : List Fld)
    (st st' : TupleLoopSt),
    tupleDestLoop env fuel locator fromFields n i rest st = some st' →
    st'.sources.length = st.sources.length ∧
    (∀ j : Nat, st'.sources[j]? = some ShuffleEntry.firstVariadic →
       st.sources[j]? = some ShuffleEntry.firstVariadic) ∧
    (∀ (j k : Nat), st'.sources[j]? = some (ShuffleEntry.src k) →
       st.sources[j]? = some (ShuffleEntry.src k)) ∧
    (∀ d : Nat, d < rest.length →
       (st.sources[i+d]? = some ShuffleEntry.firstVariadic → i + d = n - 1) ∧
       (∀ k : Nat, st.sources[i+d]? = some (ShuffleEntry.src k) →
          k < fromFields.length))
  | 0, _, _, _, _, _, _, _ => fun h => Option.noConfusion h
  | Nat.succ fuel, locator, fromFields, n, i, rest, st, st' => by
    intro h
    unfold tupleDestLoop at h
    cases rest with
    | nil =>
      cases h
      exact ⟨rfl, fun j he => he, fun j k he => he,
        fun d hd => absurd hd (by simp)⟩
    | cons toElt rest' =>
      rcases hsi : st.sources[i]? with _ | entry
      · simp [hsi] at h
      have hilen : i < st.sources.length :=
        (List.getElem?_eq_some.mp hsi).1
      have hsame : ∀ stNext : TupleLoopSt,
          tupleDestLoop env fuel locator fromFields n (i+1) rest' stNext
            = some st' →
          stNext.sources = st.sources →
          st'.sources.length = st.sources.length ∧
          (∀ j : Nat, st'.sources[j]? = some ShuffleEntry.firstVariadic →
             st.sources[j]? = some ShuffleEntry.firstVariadic) ∧
          (∀ (j k : Nat), st'.sources[j]? = some (ShuffleEntry.src k) →
             st.sources[j]? = some (ShuffleEntry.src k)) ∧
          (∀ d : Nat, d < rest'.length →
             (st.sources[(i+1)+d]? = some ShuffleEntry.firstVariadic →
                (i+1) + d = n - 1) ∧
             (∀ k : Nat, st.sources[(i+1)+d]? = some (ShuffleEntry.src k) →
                k < fromFields.length)) := by
        intro stNext hrec hs
        obtain ⟨l, b1, b2, c⟩ := tupleDestLoop_sources env fuel locator
          fromFields n (i+1) rest' stNext st' hrec
        rw [hs] at l b1 b2 c
        exact ⟨l, b1, b2, c⟩
      cases entry with
      | callerDefaultInitialize =>
        simp only [hsi] at h
        exact Option.noConfusion h
      | firstVariadic =>
        simp only [hsi] at h
        have hd0 : (st.sources[i+0]? = some ShuffleEntry.firstVariadic →
              i + 0 = n - 1) ∧
            (∀ k : Nat, st.sources[i+0]? = some (ShuffleEntry.src k) →
              k < fromFields.length) := by
          rw [Nat.add_zero, hsi]
          constructor
          · intro _
            by_cases hieq : i = n - 1
            · exact hieq
            · rw [if_neg hieq] at h
              exact Option.noConfusion h
          · intro k hk
            exact absurd hk (by simp)
        split at h
        next hieq =>
          obtain ⟨l, b1, b2, c⟩ := hsame _ h rfl
          refine ⟨l, b1, b2, fun d hd => ?_⟩
          cases d with
          | zero => exact hd0
          | succ d' =>
            have heq2 : i + (d' + 1) = (i + 1) + d' := by omega
            rw [heq2]
            exact c d' (by simpa using hd)
        next => exact Option.noConfusion h
      | defaultInitialize =>
        simp only [hsi] at h
        have hd0 : (st.sources[i+0]? = some ShuffleEntry.firstVariadic →
              i + 0 = n - 1) ∧
            (∀ k : Nat, st.sources[i+0]? = some (ShuffleEntry.src k) →
              k < fromFields.length) := by
          rw [Nat.add_zero, hsi]
          exact ⟨fun hk => absurd hk (by simp),
            fun k hk => absurd hk (by simp)⟩
        rcases hdo : st.defaultArgsOwner with _ | o <;> simp only [hdo] at h
        case none =>
          rcases hfo : env.findDefaultArgsOwner locator with _ | o2 <;>
            simp only [hfo] at h
          · exact Option.noConfusion h
          rcases hca : getCallerDefaultArg env o2 i with _ | od
          · simp [hca] at h
          cases od with
          | none =>
            simp only [hca] at h
            obtain ⟨l, b1, b2, c⟩ := hsame _ h rfl
            refine ⟨l, b1, b2, fun d hd => ?_⟩
            cases d with
            | zero => exact hd0
            | succ d' =>
              have heq2 : i + (d' + 1) = (i + 1) + d' := by omega
              rw [heq2]
              exact c d' (by simpa using hd)
          | some defArg =>
            simp only [hca] at h
            obtain ⟨l, b1, b2, c⟩ := tupleDestLoop_sources env fuel locator
              fromFields n (i+1) rest' _ st' h
            have hset : ∀ j : Nat, j ≠ i →
                (st.sources.set i ShuffleEntry.callerDefaultInitialize)[j]?
                  = st.sources[j]? :=
              fun j hj => List.getElem?_set_ne (Ne.symm hj)
            have hseti :
                (st.sources.set i ShuffleEntry.callerDefaultInitialize)[i]?
                  = some ShuffleEntry.callerDefaultInitialize :=
              List.getElem?_set_eq (by simpa using hilen)
            refine ⟨by simpa using l, ?_, ?_, fun d hd => ?_⟩
            · intro j hj
              have := b1 j hj
              by_cases hji : j = i
              · rw [hji, hseti] at this
                exact absurd this (by simp)
              · rwa [hset j hji] at this
            · intro j k hj
              have := b2 j k hj
              by_cases hji : j = i
              · rw [hji, hseti] at this
                exact absurd this (by simp)
              · rwa [hset j hji] at this
            · cases d with
              | zero => exact hd0
              | succ d' =>
                have heq2 : i + (d' + 1) = (i + 1) + d' := by omega
                rw [heq2]
                have := c d' (by simpa using hd)
                rwa [hset ((i+1)+d') (by omega)] at this
        case some =>
          rcases hca : getCallerDefaultArg env o i with _ | od
          · simp [hca] at h
          cases od with
          | none =>
            simp only [hca] at h
            obtain ⟨l, b1, b2, c⟩ := hsame _ h rfl
            refine ⟨l, b1, b2, fun d hd => ?_⟩
            cases d with
            | zero => exact hd0
            | succ d' =>
              have heq2 : i + (d' + 1) = (i + 1) + d' := by omega
              rw [heq2]
              exact c d' (by simpa using hd)
          | some defArg =>
            simp only [hca] at h
            obtain ⟨l, b1, b2, c⟩ := tupleDestLoop_sources env fuel locator
              fromFields n (i+1) rest' _ st' h
            have hset : ∀ j : Nat, j ≠ i →
                (st.sources.set i ShuffleEntry.callerDefaultInitialize)[j]?
                  = st.sources[j]? :=
              fun j hj => List.getElem?_set_ne (Ne.symm hj)
            have hseti :
                (st.sources.set i ShuffleEntry.callerDefaultInitialize)[i]?
                  = some ShuffleEntry.callerDefaultInitialize :=
              List.getElem?_set_eq (by simpa using hilen)
            refine ⟨by simpa using l, ?_, ?_, fun d hd => ?_⟩
            · intro j hj
              have := b1 j hj
              by_cases hji : j = i
              · rw [hji, hseti] at this
                exact absurd this (by simp)
              · rwa [hset j hji] at this
            · intro j k hj
              have := b2 j k hj
              by_cases hji : j = i
              · rw [hji, hseti] at this
                exact absurd this (by simp)
              · rwa [hset j hji] at this
            · cases d with
              | zero => exact hd0
              | succ d' =>
                have heq2 : i + (d' + 1) = (i + 1) + d' := by omega
                rw [heq2]
                have := c d' (by simpa using hd)
                rwa [hset ((i+1)+d') (by omega)] at this
      | src idx =>
        simp only [hsi] at h
        rcases hff : fromFields[idx]? with _ | fromElt
        · simp [hff] at h
        simp only [hff] at h
        have hidxlt : idx < fromFields.length :=
          (List.getElem?_eq_some.mp hff).1
        have hd0 : (st.sources[i+0]? = some ShuffleEntry.firstVariadic →
              i + 0 = n - 1) ∧
            (∀ k : Nat, st.sources[i+0]? = some (ShuffleEntry.src k) →
              k < fromFields.length) := by
          rw [Nat.add_zero, hsi]
          constructor
          · intro hk
            exact absurd hk (by simp)
          · intro k hk
            have hik : idx = k := by simpa using hk
            rw [← hik]
            exact hidxlt
        by_cases hteq : fromElt.ty = toElt.ty
        case neg =>
          rw [if_neg hteq] at h
          rcases hel : st.elts with _ | es <;> simp only [hel] at h
          · exact Option.noConfusion h
          rcases hesi : es[idx]? with _ | el <;> simp only [hesi] at h
          · exact Option.noConfusion h
          rcases hco : coerceToType env fuel el toElt.ty
              (locator ++ [PathElt.tupleElement idx]) with _ | conv <;>
            simp only [hco] at h
          · exact Option.noConfusion h
          obtain ⟨l, b1, b2, c⟩ := hsame _ h rfl
          refine ⟨l, b1, b2, fun d hd => ?_⟩
          cases d with
          | zero => exact hd0
          | succ d' =>
            have heq2 : i + (d' + 1) = (i + 1) + d' := by omega
            rw [heq2]
            exact c d' (by simpa using hd)
        case pos =>
          rw [if_pos hteq] at h
          rcases hel : st.elts with _ | es <;> simp only [hel] at h
          case none =>
            obtain ⟨l, b1, b2, c⟩ := hsame _ h rfl
            refine ⟨l, b1, b2, fun d hd => ?_⟩
            cases d with
            | zero => exact hd0
            | succ d' =>
              have heq2 : i + (d' + 1) = (i + 1) + d' := by omega
              rw [heq2]
              exact c d' (by simpa using hd)
          case some =>
            rcases hesi : es[idx]? with _ | el <;> simp only [hesi] at h
            · exact Option.noConfusion h
            obtain ⟨l, b1, b2, c⟩ := hsame _ h rfl
            refine ⟨l, b1, b2, fun d hd => ?_⟩
            cases d with
            | zero => exact hd0
            | succ d' =>
              have heq2 : i + (d' + 1) = (i + 1) + d' := by omega
              rw [heq2]
              exact c d' (by simpa using hd)
/-- The variadic loop of `coerceTupleToTuple` appends one source-index entry
per variadic argument to the recorded sources, each index validated against
the source tuple's fields. -/
theorem tupleVariadicLoop_sources (env : Env) : ∀ (fuel : Nat) (locator : Loc)
    (fromFields : List Fld) (toEltType : Ty) (args : List Nat)
    (st st' : TupleLoopSt),
    tupleVariadicLoop env fuel locator fromFields toEltType args st
      = some st' →
    st'.sources = st.sources ++ args.map ShuffleEntry.src ∧
    ∀ a ∈ args, a < fromFields.length
  | 0, _, _, _, _, _, _ => fun h => Option.noConfusion h
  | Nat.succ fuel, locator, fromFields, toEltType, args, st, st' => by
    intro h
    unfold tupleVariadicLoop at h
    cases args with
    | nil =>
      cases h
      exact ⟨by simp, by simp⟩
    | cons idx args' =>
      rcases hff : fromFields[idx]? with _ | fromElt
      · simp [hff] at h
      simp only [hff] at h
      have hidxlt : idx < fromFields.length :=
        (List.getElem?_eq_some.mp hff).1
      by_cases hteq : toEltType = fromElt.ty
      case pos =>
        rw [if_pos hteq] at h
        obtain ⟨hs, hv⟩ := tupleVariadicLoop_sources env fuel locator
          fromFields toEltType args' _ st' h
        refine ⟨?_, ?_⟩
        · rw [hs]; simp
        · intro a ha
          rcases List.mem_cons.mp ha with rfl | ha'
          · exact hidxlt
          · exact hv a ha'
      case neg =>
        rw [if_neg hteq] at h
        rcases hel : st.elts with _ | es <;> simp only [hel] at h
        · exact Option.noConfusion h
        rcases hesi : es[idx]? with _ | el <;> simp only [hesi] at h
        · exact Option.noConfusion h
        rcases hco : coerceToType env fuel el toEltType
            (locator ++ [PathElt.tupleElement idx]) with _ | conv <;>
          simp only [hco] at h
        · exact Option.noConfusion h
        obtain ⟨hs, hv⟩ := tupleVariadicLoop_sources env fuel locator
          fromFields toEltType args' _ st' h
        refine ⟨?_, ?_⟩
        · rw [hs]; simp
        · intro a ha
          rcases List.mem_cons.mp ha with rfl | ha'
          · exact hidxlt
          · exact hv a ha'
set_option maxHeartbeats 3200000 in
/-- C4 (amended): when the solver-recorded shuffle has one entry per
destination field, the mapping recorded on a produced `TupleShuffleExpr`
consists of those entries (`DefaultInitialize` rewritten in place to
`CallerDefaultInitialize`) followed by one appended source-index entry per
variadic argument: its length lies between the destination field count and
that count plus the number of variadic arguments (the claim's "equals the
number of destination fields" holds only when there are no variadic
arguments), `FirstVariadic` appears only at the last destination position
(not at the last mapping position), and every source-index entry — the
appended variadic ones included — indexes the source tuple's fields. -/
theorem coerceTupleToTuple_mapping_spec (env : Env) (fuel : Nat) (expr : Expr)
    (fromFields toFields : List Fld) (locator : Loc)
    (sources : List ShuffleEntry) (variadicArgs : List Nat)
    (sub : Expr) (sugarTy : Ty) (mapping : List ShuffleEntry)
    (owner : Option Nat) (defs : Exprs) (inj : OExpr)
    (hlen : sources.length = toFields.length)
    (h : coerceTupleToTuple env fuel expr fromFields toFields locator sources
           variadicArgs
         = some (Expr.tupleShuffle sub sugarTy mapping owner defs inj)) :
    toFields.length ≤ mapping.length ∧
    mapping.length ≤ toFields.length + variadicArgs.length ∧
    (∀ j : Nat, mapping[j]? = some ShuffleEntry.firstVariadic →
       j = toFields.length - 1) ∧
    (∀ (j k : Nat), mapping[j]? = some (ShuffleEntry.src k) →
       k < fromFields.length) := by
  match fuel with
  | 0 => exact Option.noConfusion h
  | Nat.succ fuel =>
    unfold coerceTupleToTuple at h
    cases e : expr.stripParens <;> simp only [e] at h <;>
      first
      | (generalize hg : (none : Option (List Expr)) = elts0 at h
         rcases hd : tupleDestLoop env fuel locator fromFields
             toFields.length 0 toFields ⟨false, false, false, [],
               List.replicate fromFields.length none, [], none, sources,
               elts0⟩
           with _ | st1 <;> simp only [hd] at h <;>
           try exact Option.noConfusion h)
      | (rename_i es0 meta0
         generalize hg : some (Exprs.toList es0) = elts0 at h
         rcases hd : tupleDestLoop env fuel locator fromFields
             toFields.length 0 toFields ⟨false, false, false, [],
               List.replicate fromFields.length none, [], none, sources,
               elts0⟩
           with _ | st1 <;> simp only [hd] at h <;>
           try exact Option.noConfusion h)
    all_goals
      (obtain ⟨l1, b1, b2, c⟩ := tupleDestLoop_sources env fuel locator
         fromFields toFields.length 0 toFields _ st1 hd
       have hlen1 : st1.sources.length = toFields.length := by
         have hx : st1.sources.length = sources.length := l1
         omega
       have hfv1 : ∀ j : Nat,
           st1.sources[j]? = some ShuffleEntry.firstVariadic →
           j = toFields.length - 1 := by
         intro j hj
         have h0 : sources[j]? = some ShuffleEntry.firstVariadic := b1 j hj
         have hjl : j < sources.length := (List.getElem?_eq_some.mp h0).1
         have hc := (c j (by omega)).1
         rw [Nat.zero_add] at hc
         exact hc h0
       have hsrc1 : ∀ (j k : Nat),
           st1.sources[j]? = some (ShuffleEntry.src k) →
           k < fromFields.length := by
         intro j k hj
         have h0 : sources[j]? = some (ShuffleEntry.src k) := b2 j k hj
         have hjl : j < sources.length := (List.getElem?_eq_some.mp h0).1
         have hc := (c j (by omega)).2 k
         rw [Nat.zero_add] at hc
         exact hc h0
       rcases hv : st1.hasVarArg with _ | _ <;> simp [hv] at h
       case false =>
         rcases hel : st1.elts with _ | es <;>
           rcases hsh : st1.anythingShuffled with _ | _ <;>
           simp [hel, hsh] at h <;>
           first
           | exact absurd h (Expr.replaceCore_ne_shuffle expr _ _ sub sugarTy
               mapping owner defs inj)
           | (have hmap : st1.sources = mapping := h.2.2.1
              have hml : mapping.length = toFields.length := by
                rw [← hmap]
                exact hlen1
              exact ⟨by omega, by omega,
                fun j hj => hfv1 j (by rw [hmap]; exact hj),
                fun j k hj => hsrc1 j k (by rw [hmap]; exact hj)⟩)
       case true =>
         rcases hgl : toFields.getLast? with _ | lastField <;> simp [hgl] at h
         rcases hvb : lastField.varargBaseTy with _ | tET <;> simp [hvb] at h
         rcases hvl : tupleVariadicLoop env fuel locator fromFields tET
             variadicArgs st1 with _ | st2 <;> simp [hvl] at h
         obtain ⟨hs2, hval⟩ := tupleVariadicLoop_sources env fuel locator
           fromFields tET variadicArgs st1 st2 hvl
         cases hlt : lastField.ty <;> simp [hlt] at h
         rename_i t
         rcases hbi : env.buildArrayInjectionFnRef (Ty.slice t)
             (Ty.builtinInt 64) with _ | injFn <;> simp [hbi] at h
         rcases hel : st2.elts with _ | es <;>
           rcases hsh : st2.anythingShuffled with _ | _ <;>
           simp [hel, hsh] at h <;>
           first
           | exact absurd h (Expr.replaceCore_ne_shuffle expr _ _ sub sugarTy
               mapping owner defs inj)
           | (have hmap : st2.sources = mapping := h.2.2.1
              have hml : mapping.length
                  = toFields.length + variadicArgs.length := by
                rw [← hmap, hs2]
                simp [hlen1]
              refine ⟨by omega, by omega, ?fv, ?src⟩
              case fv =>
                intro j hj
                have hj2 : (st1.sources
                    ++ variadicArgs.map ShuffleEntry.src)[j]?
                    = some ShuffleEntry.firstVariadic := by
                  rw [← hs2, hmap]
                  exact hj
                by_cases hjl : j < st1.sources.length
                case pos =>
                  rw [List.getElem?_append_left hjl] at hj2
                  exact hfv1 j hj2
                case neg =>
                  rw [List.getElem?_append_right (Nat.le_of_not_lt hjl)] at hj2
                  rw [List.getElem?_map] at hj2
                  rcases hva : variadicArgs[j - st1.sources.length]?
                      with _ | a <;> rw [hva] at hj2 <;>
                    exact absurd hj2 (by simp)
              case src =>
                intro j k hj
                have hj2 : (st1.sources
                    ++ variadicArgs.map ShuffleEntry.src)[j]?
                    = some (ShuffleEntry.src k) := by
                  rw [← hs2, hmap]
                  exact hj
                by_cases hjl : j < st1.sources.length
                case pos =>
                  rw [List.getElem?_append_left hjl] at hj2
                  exact hsrc1 j k hj2
                case neg =>
                  rw [List.getElem?_append_right (Nat.le_of_not_lt hjl)] at hj2
                  rw [List.getElem?_map] at hj2
                  rcases hva : variadicArgs[j - st1.sources.length]?
                      with _ | a <;> rw [hva] at hj2
                  case none => exact absurd hj2 (by simp)
                  case some =>
                    have hak : a = k := by simpa using hj2
                    have hmem : a ∈ variadicArgs := List.getElem?_mem hva
                    rw [← hak]
                    exact hval a hmem))
/-- Witness for the amended C4 statement at a concrete input: an identity
shuffle on a one-field tuple with no literal, which allocates a
`TupleShuffleExpr`. -/
theorem coerceTupleToTuple_mapping_spec_witness :
    [(⟨none, Ty.nominal 5, DefaultArg.noDefault, false⟩ : Fld)].length
        ≤ [ShuffleEntry.src 0].length ∧
    [ShuffleEntry.src 0].length
        ≤ [(⟨none, Ty.nominal 5, DefaultArg.noDefault, false⟩ : Fld)].length
          + ([] : List Nat).length ∧
    (∀ j : Nat, [ShuffleEntry.src 0][j]? = some ShuffleEntry.firstVariadic →
       j = [(⟨none, Ty.nominal 5, DefaultArg.noDefault, false⟩ : Fld)].length
             - 1) ∧
    (∀ (j k : Nat), [ShuffleEntry.src 0][j]? = some (ShuffleEntry.src k) →
       k < [(⟨none, Ty.nominal 5, DefaultArg.noDefault, false⟩ :
              Fld)].length) :=
  coerceTupleToTuple_mapping_spec trivialEnv 9
    (Expr.otherE 9
      (Ty.mkTuple [⟨none, Ty.nominal 5, DefaultArg.noDefault, false⟩]))
    [⟨none, Ty.nominal 5, DefaultArg.noDefault, false⟩]
    [⟨none, Ty.nominal 5, DefaultArg.noDefault, false⟩] []
    [ShuffleEntry.src 0] []
    (Expr.otherE 9
      (Ty.mkTuple [⟨none, Ty.nominal 5, DefaultArg.noDefault, false⟩]))
    (Ty.mkTuple [⟨none, Ty.nominal 5, DefaultArg.noDefault, false⟩])
    [ShuffleEntry.src 0] none Exprs.nil OExpr.noneE rfl rfl

/-- Environment for the variadic counterexample: like `trivialEnv`, but the
array-injection-function builder (an external collaborator) succeeds, as it
does whenever the standard library's `Slice` machinery is available.  Field
order as in `trivialEnv`. -/
def envC4 : Env :=
  ⟨fun _ _ => none,
   fun _ => none,
   fun _ _ _ => none,
   fun _ => false,
   fun _ => none,
   fun _ _ => (DefaultArg.noDefault, Ty.nullTy),
   fun _ _ => none,
   fun _ _ => some (Expr.otherE 99 Ty.nullTy),
   fun _ _ => none,
   fun _ _ _ _ => none,
   fun _ _ => none,
   fun _ _ => none,
   fun _ _ => [],
   fun _ => false,
   fun _ => false,
   fun _ => 0,
   fun _ => Ty.nullTy,
   fun _ _ _ => none,
   fun _ _ => Ty.nullTy,
   fun _ => 0,
   fun _ _ => CastKind.unresolved⟩

/-- C4 (counterexample): coercing `(x)` of type `(T)` to the variadic tuple
`(T...)` under the solver shuffle `[FirstVariadic]` with variadic argument
list `[0]`: the variadic loop appends the source index `0` to the recorded
sources, so the produced `TupleShuffleExpr`'s mapping is
`[FirstVariadic, 0]` — length 2 for 1 destination field, with the
`FirstVariadic` sentinel not the last mapping entry — refuting the claim's
"length equals the number of destination fields". -/
theorem coerceTupleToTuple_variadic_extends_sources :
    coerceTupleToTuple envC4 9
        (Expr.otherE 9
          (Ty.mkTuple [⟨none, Ty.nominal 7, DefaultArg.noDefault, false⟩]))
        [⟨none, Ty.nominal 7, DefaultArg.noDefault, false⟩]
        [⟨none, Ty.slice (Ty.nominal 7), DefaultArg.noDefault, true⟩]
        [] [ShuffleEntry.firstVariadic] [0]
      = some (Expr.tupleShuffle
          (Expr.otherE 9
            (Ty.mkTuple [⟨none, Ty.nominal 7, DefaultArg.noDefault, false⟩]))
          (Ty.mkTuple
            [⟨none, Ty.slice (Ty.nominal 7), DefaultArg.noDefault, true⟩])
          [ShuffleEntry.firstVariadic, ShuffleEntry.src 0]
          none Exprs.nil (OExpr.someE (Expr.otherE 99 Ty.nullTy)))
    ∧ [ShuffleEntry.firstVariadic, ShuffleEntry.src 0].length
        ≠ [(⟨none, Ty.slice (Ty.nominal 7), DefaultArg.noDefault, true⟩ :
             Fld)].length
    ∧ [ShuffleEntry.firstVariadic, ShuffleEntry.src 0].getLast?
        ≠ some ShuffleEntry.firstVariadic := by
  refine ⟨rfl, by decide, by decide⟩
/-- "`f` stamps the requested type on every expression it returns" — the
soundness property of one coercion entry point at one recursion depth. -/
def CoerceTy (f : Nat → Expr → Ty → Loc → Option Expr) (fuel : Nat) : Prop :=
  ∀ (expr : Expr) (toType : Ty) (locator : Loc) (e' : Expr),
    f fuel expr toType locator = some e' → e'.ty = toType

/-- A solver shuffle is well-formed when no source index is consumed twice
(each source element feeds at most one destination). -/
def SrcNodup (sources : List ShuffleEntry) : Prop :=
  ∀ (j j' k : Nat), j ≠ j' → sources[j]? = some (ShuffleEntry.src k) →
    sources[j']? = some (ShuffleEntry.src k) → False

/-- An environment whose external `computeTupleShuffle` only produces
well-formed shuffles, as the constraint solver's does. -/
def ShuffleSound (env : Env) : Prop :=
  ∀ (a b : Ty) (c : Bool) (p : List ShuffleEntry × List Nat),
    env.computeTupleShuffle a b c = some p → SrcNodup p.1

/-- Invariant of the destination loop: every still-unprocessed source-index
entry points (when a literal is present) at an element of the literal whose
type is the corresponding source field's type. -/
def EltsInv (fromFields : List Fld) (i : Nat) (st : TupleLoopSt) : Prop :=
  ∀ (j k : Nat) (es : List Expr) (fl : Fld), i ≤ j →
    st.sources[j]? = some (ShuffleEntry.src k) → st.elts = some es →
    fromFields[k]? = some fl →
    ∃ el : Expr, es[k]? = some el ∧ el.ty = fl.ty

/-- Invariant of the destination loop: the still-unprocessed source-index
entries consume pairwise-distinct source indices. -/
def NodupFrom (i : Nat) (st : TupleLoopSt) : Prop :=
  ∀ (j j' k : Nat), i ≤ j → i ≤ j' → j ≠ j' →
    st.sources[j]? = some (ShuffleEntry.src k) →
    st.sources[j']? = some (ShuffleEntry.src k) → False

/-- Soundness bundle of the destination loop at one recursion depth: the
sugar fields collect exactly the destination fields; a run that shuffled
nothing was the identity on a prefix of the sources; elements at untouched
positions survive; and each processed source element ends with its
destination field's type. -/
def DestLoopTy (env : Env) (fuel : Nat) : Prop :=
  ∀ (locator : Loc) (fromFields : List Fld) (n i : Nat) (rest : List Fld)
    (st st' : TupleLoopSt),
    EltsInv fromFields i st → NodupFrom i st →
    tupleDestLoop env fuel locator fromFields n i rest st = some st' →
    st'.toSugarFields = st.toSugarFields ++ rest ∧
    (st'.anythingShuffled = false →
       st.anythingShuffled = false ∧ st'.hasVarArg = st.hasVarArg ∧
       ∀ d : Nat, d < rest.length →
         st.sources[i+d]? = some (ShuffleEntry.src (i+d))) ∧
    (∀ (es es' : List Expr), st.elts = some es → st'.elts = some es' →
       es'.length = es.length ∧
       ∀ m : Nat, (∀ d : Nat, d < rest.length →
            st.sources[i+d]? ≠ some (ShuffleEntry.src m)) →
         es'[m]? = es[m]?) ∧
    (∀ es' : List Expr, st'.elts = some es' → ∀ (d k : Nat),
       d < rest.length →
       st.sources[i+d]? = some (ShuffleEntry.src k) →
       ∃ (el : Expr) (fl : Fld), es'[k]? = some el ∧ rest[d]? = some fl ∧
         el.ty = fl.ty) ∧
    (st.elts = none → st'.elts = none)

/-- Soundness bundle of the variadic loop at one recursion depth: it touches
neither the sugar fields nor the shuffle flags. -/
def VarLoopTy (env : Env) (fuel : Nat) : Prop :=
  ∀ (locator : Loc) (fromFields : List Fld) (toEltType : Ty)
    (args : List Nat) (st st' : TupleLoopSt),
    tupleVariadicLoop env fuel locator fromFields toEltType args st
      = some st' →
    st'.toSugarFields = st.toSugarFields ∧ st'.hasInits = st.hasInits ∧
    st'.anythingShuffled = st.anythingShuffled ∧
    st'.hasVarArg = st.hasVarArg

/-- Soundness of `coerceTupleToTuple` at one recursion depth: under a
well-formed shuffle it stamps the destination tuple type. -/
def TupleTy (env : Env) (fuel : Nat) : Prop :=
  ∀ (expr : Expr) (fromFields toFields : List Fld) (locator : Loc)
    (sources : List ShuffleEntry) (variadicArgs : List Nat) (e' : Expr),
    SrcNodup sources → expr.ty = Ty.mkTuple fromFields →
    coerceTupleToTuple env fuel expr fromFields toFields locator sources
      variadicArgs = some e' →
    e'.ty = Ty.mkTuple toFields

/-- One step of the superclass-chain stage: delegation preserved. -/
theorem coerceSuperStep_ty_step (env : Env) (fuel : Nat)
    (ih6 : CoerceTy (coerceFuncStep env) fuel) :
    CoerceTy (coerceSuperStep env) (fuel + 1) := by
  intro expr toType locator e' h
  unfold coerceSuperStep at h
  split at h
  · exact superclassCoerce_ty expr toType e' h
  · exact ih6 expr toType locator e' h
/-- One step of the tail stage: existential erasure, optional injection,
user-conversion fallback and metatype conversion. -/
theorem coerceExistentialStep_ty_step (env : Env) (fuel : Nat)
    (ih1 : CoerceTy (coerceToType env) fuel)
    (ih8 : CoerceTy (coerceViaUserConversion env) fuel) :
    CoerceTy (coerceExistentialStep env) (fuel + 1) := by
  intro expr toType locator e' h
  unfold coerceExistentialStep at h
  split at h
  · exact coerceExistential_ty env expr toType e' h
  · cases toType <;> simp only [] at h <;>
      first
      | (rename_i valueType
         rcases hc : coerceToType env fuel expr valueType locator
             with _ | e2 <;> simp only [hc] at h <;>
           first
           | exact Option.noConfusion h
           | (cases h; rfl))
      | (split at h <;>
           first
           | exact ih8 expr _ locator e' h
           | (revert h
              cases hexp : expr.ty <;> intro h <;>
                first
                | exact Option.noConfusion h
                | (cases h; rfl)))
/-- One step of the function-coercion stage: autoclosure, block bridging and
function conversion. -/
theorem coerceFuncStep_ty_step (env : Env) (fuel : Nat)
    (ih1 : CoerceTy (coerceToType env) fuel)
    (ih7 : CoerceTy (coerceExistentialStep env) fuel) :
    CoerceTy (coerceFuncStep env) (fuel + 1) := by
  intro expr toType locator e' h
  unfold coerceFuncStep at h
  cases toType <;> simp only [] at h <;>
    try exact ih7 expr _ locator e' h
  next inp res autoc blok =>
  split at h
  · rcases hc : coerceToType env fuel expr res (locator ++ [PathElt.loadElt])
        with _ | e2 <;> simp only [hc] at h
    · exact Option.noConfusion h
    · cases h; rfl
  · split at h
    · rcases hc : coerceToType env fuel expr (Ty.fn inp res false false)
          locator with _ | e2 <;> simp only [hc] at h
      · exact Option.noConfusion h
      · cases h; rfl
    · split at h
      · cases h; rfl
      · exact ih7 expr _ locator e' h
/-- Manual unfolding of `coerceLValueStep` at a successor depth (the nested
match on the expression defeats automatic equation generation). -/
theorem coerceLValueStep_succ (env : Env) (fuel : Nat) (expr : Expr)
    (toType : Ty) (locator : Loc) :
    coerceLValueStep env (Nat.succ fuel) expr toType locator
      = (match expr.ty with
         | Ty.lvalue obj q =>
           let refined : Expr × Ty :=
             match expr with
             | Expr.superRef _ =>
               (Expr.superRef (Ty.lvalue toType.getRValueType q),
                toType.getRValueType)
             | _ => (expr, obj)
           (match toType with
            | Ty.lvalue _ toQ =>
              coerceToType env fuel
                (Expr.requalify refined.1 (Ty.lvalue refined.2 toQ)) toType
                locator
            | _ =>
              coerceToType env fuel (Expr.load refined.1 refined.2) toType
                locator)
         | _ =>
           match toType with
           | Ty.lvalue toObj _ =>
             (match coerceToType env fuel expr toObj locator with
              | none => none
              | some e => some (Expr.materialize e toType))
           | _ => coerceSuperStep env fuel expr toType locator) := rfl

/-- One step of the lvalue stage: requalification, loads (with the
`SuperRefExpr` refinement) and materialization. -/
theorem coerceLValueStep_ty_step (env : Env) (fuel : Nat)
    (ih1 : CoerceTy (coerceToType env) fuel)
    (ih5 : CoerceTy (coerceSuperStep env) fuel) :
    CoerceTy (coerceLValueStep env) (fuel + 1) := by
  intro expr toType locator e' h
  have hs : fuel + 1 = Nat.succ fuel := rfl
  rw [hs, coerceLValueStep_succ] at h
  revert h
  cases hexp : expr.ty <;> intro h
  case lvalue obj q =>
    revert h
    cases toType <;> intro h <;> exact ih1 _ _ _ _ h
  all_goals
    (revert h
     cases toType <;> intro h <;>
       first
       | exact ih5 expr _ locator e' h
       | (simp only [] at h
          rename_i toObj toQ
          rcases hc : coerceToType env fuel expr toObj locator
              with _ | e2 <;> simp only [hc] at h <;>
            first
            | exact Option.noConfusion h
            | (cases h; rfl)))
/-- One step of the scalar-to-tuple check stage. -/
theorem coerceScalarCheckStep_ty_step (env : Env) (fuel : Nat)
    (ih4 : CoerceTy (coerceLValueStep env) fuel) :
    CoerceTy (coerceScalarCheckStep env) (fuel + 1) := by
  intro expr toType locator e' h
  unfold coerceScalarCheckStep at h
  revert h
  cases toType <;> intro h <;>
    first
    | exact ih4 expr _ locator e' h
    | (rename_i fs
       simp only [] at h
       rcases hgf : getFieldForScalarInit (Flds.toList fs) with _ | idx <;>
         simp only [hgf] at h <;>
         first
         | exact ih4 expr _ locator e' h
         | (have hscalar := coerceScalarToTuple_ty env fuel expr
              (Flds.toList fs) idx locator e' h
            rwa [Ty.mkTuple_toList] at hscalar))

/-- One step of the tuple-coercion stage: dispatch to the shuffle-driven
tuple-to-tuple conversion when the solver recorded a shuffle. -/
theorem coerceTupleStep_ty_step (env : Env) (fuel : Nat)
    (hsh : ShuffleSound env)
    (ih3 : CoerceTy (coerceScalarCheckStep env) fuel)
    (ih4 : CoerceTy (coerceLValueStep env) fuel)
    (ih9 : TupleTy env fuel) :
    CoerceTy (coerceTupleStep env) (fuel + 1) := by
  intro expr toType locator e' h
  unfold coerceTupleStep at h
  revert h
  cases toType <;> intro h <;>
    try exact ih4 expr _ locator e' h
  next toFs =>
  revert h
  cases hexp : expr.ty <;> intro h <;>
    try exact ih3 expr _ locator e' h
  next fromFs =>
  simp only [] at h
  rcases hcs : env.computeTupleShuffle expr.ty (Ty.tuple toFs)
      (env.hasMandatoryTupleLabels expr) with _ | p <;>
    rw [hexp] at hcs <;> simp only [hcs] at h
  · exact ih3 expr _ locator e' h
  · obtain ⟨sources, variadicArgs⟩ := p
    have hnd : SrcNodup sources :=
      hsh (Ty.tuple fromFs) (Ty.tuple toFs) (env.hasMandatoryTupleLabels expr)
        (sources, variadicArgs) hcs
    have := ih9 expr (Flds.toList fromFs) (Flds.toList toFs) locator sources
      variadicArgs e' hnd (by rw [hexp, Ty.mkTuple_toList]) h
    rwa [Ty.mkTuple_toList] at this
/-- One step of the `coerceToType` dispatcher. -/
theorem coerceToType_ty_step (env : Env) (fuel : Nat)
    (ih1 : CoerceTy (coerceToType env) fuel)
    (ih2 : CoerceTy (coerceTupleStep env) fuel)
    (ih8 : CoerceTy (coerceViaUserConversion env) fuel) :
    CoerceTy (coerceToType env) (fuel + 1) := by
  intro expr toType locator e' h
  unfold coerceToType at h
  by_cases hid : expr.ty = toType
  case pos =>
    rw [if_pos hid] at h
    cases h
    exact hid
  case neg =>
    rw [if_neg hid] at h
    rcases hr : env.restriction expr.ty toType with _ | r
    case none =>
      simp only [hr] at h
      exact ih2 expr toType locator e' h
    case some =>
      cases r <;> simp only [hr] at h
      case tupleToTuple => exact Option.noConfusion h
      case scalarToTuple =>
        revert h
        cases toType <;> intro h <;> try exact Option.noConfusion h
        next fs =>
        simp only [] at h
        rcases hgf : getFieldForScalarInit (Flds.toList fs) with _ | idx <;>
          simp only [hgf] at h
        · exact Option.noConfusion h
        · have := coerceScalarToTuple_ty env fuel expr (Flds.toList fs) idx
            locator e' h
          rwa [Ty.mkTuple_toList] at this
      case superclass => exact superclassCoerce_ty expr toType e' h
      case existential => exact coerceExistential_ty env expr toType e' h
      case valueToOptional =>
        revert h
        cases toType <;> intro h <;> try exact Option.noConfusion h
        next vt =>
        simp only [] at h
        rcases hc : coerceToType env fuel expr vt locator with _ | e2 <;>
          simp only [hc] at h
        · exact Option.noConfusion h
        · cases h; rfl
      case user => exact ih8 expr toType locator e' h
/-- One step of the user-conversion stage: every success path finishes with
a recursive coercion to the destination type. -/
theorem coerceViaUserConversion_ty_step (env : Env) (fuel : Nat)
    (ih1 : CoerceTy (coerceToType env) fuel) :
    CoerceTy (coerceViaUserConversion env) (fuel + 1) := by
  intro expr toType locator e' h
  unfold coerceViaUserConversion at h
  rcases hoc : env.overloadChoiceAt (locator ++ [PathElt.conversionMember])
      with _ | p
  case some =>
    obtain ⟨choice, openedTy⟩ := p
    simp only [hoc] at h
    rcases hdi : choice.declId? with _ | d <;> simp only [hdi] at h
    · exact Option.noConfusion h
    rcases hmr : env.buildMemberRef expr d openedTy with _ | mref <;>
      simp only [hmr] at h
    · exact Option.noConfusion h
    rcases hfr : openedTy.fnResult? with _ | oT <;> simp only [hfr] at h
    · exact Option.noConfusion h
    rcases hfa : finishApply env fuel mref emptyTupleExpr oT []
        with _ | e2 <;> simp only [hfa] at h
    · exact Option.noConfusion h
    exact ih1 _ _ _ _ h
  case none =>
    simp only [hoc] at h
    rcases hoc2 : env.overloadChoiceAt
        (locator ++ [PathElt.constructorMember]) with _ | p2
    · simp only [hoc2] at h
      exact Option.noConfusion h
    obtain ⟨choice, openedTy⟩ := p2
    simp only [hoc2] at h
    by_cases hid : choice = OverloadChoice.identityFunction
    · rw [if_pos hid] at h
      exact ih1 _ _ _ _ h
    · rw [if_neg hid] at h
      rcases hdi : choice.declId? with _ | d <;> simp only [hdi] at h
      · exact Option.noConfusion h
      rcases hmr : env.buildMemberRef (Expr.metatypeLit (Ty.metaTy toType)) d
          openedTy with _ | dref <;> simp only [hmr] at h
      · exact Option.noConfusion h
      rcases hfa : finishApply env fuel dref expr toType locator
          with _ | e2 <;> simp only [hfa] at h
      · exact Option.noConfusion h
      exact ih1 _ _ _ _ h
/-- One step of the variadic loop: flags and sugar fields untouched. -/
theorem tupleVariadicLoop_ty_step (env : Env) (fuel : Nat)
    (ih11 : VarLoopTy env fuel) :
    VarLoopTy env (fuel + 1) := by
  intro locator fromFields toEltType args st st' h
  unfold tupleVariadicLoop at h
  cases args with
  | nil =>
    cases h
    exact ⟨rfl, rfl, rfl, rfl⟩
  | cons idx args' =>
    rcases hff : fromFields[idx]? with _ | fromElt
    · simp [hff] at h
    simp only [hff] at h
    by_cases hteq : toEltType = fromElt.ty
    case pos =>
      rw [if_pos hteq] at h
      have hrec := ih11 locator fromFields toEltType args' _ st' h
      simpa using hrec
    case neg =>
      rw [if_neg hteq] at h
      rcases hel : st.elts with _ | es <;> simp only [hel] at h
      · exact Option.noConfusion h
      rcases hesi : es[idx]? with _ | el <;> simp only [hesi] at h
      · exact Option.noConfusion h
      rcases hco : coerceToType env fuel el toEltType
          (locator ++ [PathElt.tupleElement idx]) with _ | conv <;>
        simp only [hco] at h
      · exact Option.noConfusion h
      have hrec := ih11 locator fromFields toEltType args' _ st' h
      simpa using hrec
/-- One step of the destination loop of `coerceTupleToTuple`: the invariant
bundle `DestLoopTy` is preserved, the element conversions being typed by the
recursive `coerceToType` soundness. -/
theorem tupleDestLoop_ty_step (env : Env) (fuel : Nat)
    (ih1 : CoerceTy (coerceToType env) fuel)
    (ih10 : DestLoopTy env fuel) :
    DestLoopTy env (fuel + 1) := by
  intro locator fromFields n i rest st st' hEI hND h
  unfold tupleDestLoop at h
  cases rest with
  | nil =>
    cases h
    refine ⟨by simp, fun hf => ⟨hf, rfl, fun d hd => absurd hd (by simp)⟩,
      ?_, fun es' he' d k hd => absurd hd (by simp), fun hne => hne⟩
    intro es es' he he'
    rw [he] at he'
    cases he'
    exact ⟨rfl, fun m _ => rfl⟩
  | cons toElt rest' =>
    rcases hsi : st.sources[i]? with _ | entry
    · simp [hsi] at h
    have hrec : ∀ stN : TupleLoopSt,
        tupleDestLoop env fuel locator fromFields n (i+1) rest' stN
          = some st' →
        (∀ j : Nat, i + 1 ≤ j → stN.sources[j]? = st.sources[j]?) →
        stN.elts = st.elts →
        st'.toSugarFields = stN.toSugarFields ++ rest' ∧
        (st'.anythingShuffled = false → stN.anythingShuffled = false ∧
           st'.hasVarArg = stN.hasVarArg ∧
           ∀ d : Nat, d < rest'.length →
             st.sources[i+(d+1)]? = some (ShuffleEntry.src (i+(d+1)))) ∧
        (∀ (es es' : List Expr), st.elts = some es → st'.elts = some es' →
           es'.length = es.length ∧
           ∀ m : Nat, (∀ d : Nat, d < rest'.length →
                st.sources[i+(d+1)]? ≠ some (ShuffleEntry.src m)) →
             es'[m]? = es[m]?) ∧
        (∀ es' : List Expr, st'.elts = some es' → ∀ (d k : Nat),
           d < rest'.length →
           st.sources[i+(d+1)]? = some (ShuffleEntry.src k) →
           ∃ (el : Expr) (fl : Fld), es'[k]? = some el ∧
             rest'[d]? = some fl ∧ el.ty = fl.ty) ∧
        (st.elts = none → st'.elts = none) := by
      intro stN hN hsrcs helts
      have hEI' : EltsInv fromFields (i+1) stN := by
        intro j k es fl hij hsrc hels hfl
        rw [hsrcs j hij] at hsrc
        rw [helts] at hels
        exact hEI j k es fl (by omega) hsrc hels hfl
      have hND' : NodupFrom (i+1) stN := by
        intro j j' k hij hij' hne h1 h2
        rw [hsrcs j hij] at h1
        rw [hsrcs j' hij'] at h2
        exact hND j j' k (by omega) (by omega) hne h1 h2
      obtain ⟨iA, iB, iC, iD, iE⟩ := ih10 locator fromFields n (i+1) rest'
        stN st' hEI' hND' hN
      refine ⟨iA, ?_, ?_, ?_, ?_⟩
      · intro hf
        obtain ⟨b1, b2, b3⟩ := iB hf
        refine ⟨b1, b2, fun d hd => ?_⟩
        have hb := b3 d hd
        rw [hsrcs ((i+1)+d) (by omega)] at hb
        rwa [show (i+1)+d = i+(d+1) by omega] at hb
      · intro es es' he he'
        rw [← helts] at he
        obtain ⟨cl, cu⟩ := iC es es' he he'
        refine ⟨cl, fun m hm => cu m fun d hd => ?_⟩
        rw [hsrcs ((i+1)+d) (by omega), show (i+1)+d = i+(d+1) by omega]
        exact hm d hd
      · intro es' he' d k hd hk
        refine iD es' he' d k hd ?_
        rw [hsrcs ((i+1)+d) (by omega), show (i+1)+d = i+(d+1) by omega]
        exact hk
      · intro hne
        exact iE (by rw [helts]; exact hne)
    have hasmTrue : ∀ stN : TupleLoopSt,
        tupleDestLoop env fuel locator fromFields n (i+1) rest' stN
          = some st' →
        (∀ j : Nat, i + 1 ≤ j → stN.sources[j]? = st.sources[j]?) →
        stN.elts = st.elts →
        stN.toSugarFields = st.toSugarFields ++ [toElt] →
        stN.anythingShuffled = true →
        (st.sources[i]? = some ShuffleEntry.firstVariadic ∨
         st.sources[i]? = some ShuffleEntry.defaultInitialize) →
        st'.toSugarFields = st.toSugarFields ++ (toElt :: rest') ∧
        (st'.anythingShuffled = false →
           st.anythingShuffled = false ∧ st'.hasVarArg = st.hasVarArg ∧
           ∀ d : Nat, d < (toElt :: rest').length →
             st.sources[i+d]? = some (ShuffleEntry.src (i+d))) ∧
        (∀ (es es' : List Expr), st.elts = some es → st'.elts = some es' →
           es'.length = es.length ∧
           ∀ m : Nat, (∀ d : Nat, d < (toElt :: rest').length →
                st.sources[i+d]? ≠ some (ShuffleEntry.src m)) →
             es'[m]? = es[m]?) ∧
        (∀ es' : List Expr, st'.elts = some es' → ∀ (d k : Nat),
           d < (toElt :: rest').length →
           st.sources[i+d]? = some (ShuffleEntry.src k) →
           ∃ (el : Expr) (fl : Fld), es'[k]? = some el ∧
             (toElt :: rest')[d]? = some fl ∧ el.ty = fl.ty) ∧
        (st.elts = none → st'.elts = none) := by
      intro stN hN hsrcs helts hsugar hany hent
      obtain ⟨jA, jB, jC, jD, jE⟩ := hrec stN hN hsrcs helts
      refine ⟨?_, ?_, ?_, ?_, jE⟩
      · rw [jA, hsugar, List.append_assoc]
        rfl
      · intro hf
        obtain ⟨b1, _, _⟩ := jB hf
        rw [hany] at b1
        exact Bool.noConfusion b1
      · intro es es' he he'
        obtain ⟨cl, cu⟩ := jC es es' he he'
        refine ⟨cl, fun m hm => cu m fun d hd => ?_⟩
        exact hm (d+1) (by simpa using hd)
      · intro es' he' d k hd hk
        cases d with
        | zero =>
          rw [Nat.add_zero] at hk
          rcases hent with hent | hent <;> rw [hent] at hk <;>
            exact absurd hk (by simp)
        | succ d' =>
          obtain ⟨el, fl, h1, h2, h3⟩ := jD es' he' d' k (by simpa using hd)
            hk
          exact ⟨el, fl, h1, by simpa using h2, h3⟩
    cases entry with
    | callerDefaultInitialize =>
      simp only [hsi] at h
      exact Option.noConfusion h
    | firstVariadic =>
      simp only [hsi] at h
      split at h
      · exact hasmTrue _ h (fun j hj => rfl) rfl rfl rfl (Or.inl hsi)
      · exact Option.noConfusion h
    | defaultInitialize =>
      simp only [hsi] at h
      rcases hdo : st.defaultArgsOwner with _ | o <;> simp only [hdo] at h
      case none =>
        rcases hfo : env.findDefaultArgsOwner locator with _ | o2 <;>
          simp only [hfo] at h
        · exact Option.noConfusion h
        rcases hca : getCallerDefaultArg env o2 i with _ | od
        · simp [hca] at h
        cases od with
        | none =>
          simp only [hca] at h
          exact hasmTrue _ h (fun j hj => rfl) rfl rfl rfl (Or.inr hsi)
        | some defArg =>
          simp only [hca] at h
          exact hasmTrue _ h
            (fun j hj => List.getElem?_set_ne (by omega)) rfl rfl rfl
            (Or.inr hsi)
      case some =>
        rcases hca : getCallerDefaultArg env o i with _ | od
        · simp [hca] at h
        cases od with
        | none =>
          simp only [hca] at h
          exact hasmTrue _ h (fun j hj => rfl) rfl rfl rfl (Or.inr hsi)
        | some defArg =>
          simp only [hca] at h
          exact hasmTrue _ h
            (fun j hj => List.getElem?_set_ne (by omega)) rfl rfl rfl
            (Or.inr hsi)
    | src idx =>
      simp only [hsi] at h
      rcases hff : fromFields[idx]? with _ | fromElt
      · simp [hff] at h
      simp only [hff] at h
      have hknei : ∀ j : Nat, i+1 ≤ j → ∀ k : Nat,
          st.sources[j]? = some (ShuffleEntry.src k) → k ≠ idx := by
        intro j hj k hk hkeq
        refine hND j i k (by omega) (by omega) (by omega) hk ?_
        rw [hkeq]
        exact hsi
      by_cases hteq : fromElt.ty = toElt.ty
      case pos =>
        rw [if_pos hteq] at h
        rcases hel : st.elts with _ | es <;> simp only [hel] at h
        case none =>
          obtain ⟨jA, jB, jC, jD, jE⟩ := hrec _ h (fun j hj => rfl) hel.symm
          have jA' : st'.toSugarFields
              = (st.toSugarFields ++
                  [(⟨toElt.name, fromElt.ty, toElt.defArg, toElt.vararg⟩ :
                    Fld)]) ++ rest' := jA
          rw [hteq] at jA'
          refine ⟨?_, ?_, ?_, ?_, fun _ => jE hel⟩
          · rw [jA', List.append_assoc]
            rfl
          · intro hf
            obtain ⟨b1, b2, b3⟩ := jB hf
            have b1' : (st.anythingShuffled || (idx != i)) = false := b1
            simp only [Bool.or_eq_false_iff, bne_eq_false_iff_eq] at b1'
            obtain ⟨hany0, hidx⟩ := b1'
            refine ⟨hany0, b2, fun d hd => ?_⟩
            cases d with
            | zero =>
              rw [Nat.add_zero, hsi, hidx]
            | succ d' => exact b3 d' (by simpa using hd)
          · intro es0 es' he he'
            exact Option.noConfusion he
          · intro es' he' d k hd hk
            cases d with
            | zero =>
              have hnone := jE hel
              rw [hnone] at he'
              exact Option.noConfusion he'
            | succ d' =>
              obtain ⟨el, fl, h1, h2, h3⟩ := jD es' he' d' k
                (by simpa using hd) hk
              exact ⟨el, fl, h1, by simpa using h2, h3⟩
        case some =>
          rcases hesi : es[idx]? with _ | el <;> simp only [hesi] at h
          · exact Option.noConfusion h
          obtain ⟨el₂, hel₂, hty₂⟩ := hEI i idx es fromElt (by omega) hsi hel
            hff
          have helty : el.ty = fromElt.ty := by
            rw [hesi] at hel₂
            cases hel₂
            exact hty₂
          obtain ⟨jA, jB, jC, jD, jE⟩ := hrec _ h (fun j hj => rfl) hel.symm
          have jA' : st'.toSugarFields
              = (st.toSugarFields ++
                  [(⟨toElt.name, el.ty, toElt.defArg, toElt.vararg⟩ :
                    Fld)]) ++ rest' := jA
          rw [helty, hteq] at jA'
          refine ⟨?_, ?_, ?_, ?_, fun hne => Option.noConfusion hne⟩
          · rw [jA', List.append_assoc]
            rfl
          · intro hf
            obtain ⟨b1, b2, b3⟩ := jB hf
            have b1' : (st.anythingShuffled || (idx != i)) = false := b1
            simp only [Bool.or_eq_false_iff, bne_eq_false_iff_eq] at b1'
            obtain ⟨hany0, hidx⟩ := b1'
            refine ⟨hany0, b2, fun d hd => ?_⟩
            cases d with
            | zero =>
              rw [Nat.add_zero, hsi, hidx]
            | succ d' => exact b3 d' (by simpa using hd)
          · intro es0 es' he he'
            cases he
            obtain ⟨cl, cu⟩ := jC es es' hel he'
            refine ⟨cl, fun m hm => cu m fun d hd => ?_⟩
            exact hm (d+1) (by simpa using hd)
          · intro es' he' d k hd hk
            cases d with
            | zero =>
              rw [Nat.add_zero, hsi] at hk
              have hkidx : k = idx := by
                have := Option.some.inj hk
                cases this
                rfl
              obtain ⟨cl, cu⟩ := jC es es' hel he'
              have huntouched : es'[idx]? = es[idx]? := by
                refine cu idx fun d hd hcontra => ?_
                exact hknei (i+(d+1)) (by omega) idx hcontra rfl
              refine ⟨el, toElt, ?_, by simp, ?_⟩
              · rw [hkidx, huntouched]
                exact hesi
              · rw [helty, hteq]
            | succ d' =>
              obtain ⟨el2, fl, h1, h2, h3⟩ := jD es' he' d' k
                (by simpa using hd) hk
              exact ⟨el2, fl, h1, by simpa using h2, h3⟩
      case neg =>
        rw [if_neg hteq] at h
        rcases hel : st.elts with _ | es <;> simp only [hel] at h
        · exact Option.noConfusion h
        rcases hesi : es[idx]? with _ | el <;> simp only [hesi] at h
        · exact Option.noConfusion h
        rcases hco : coerceToType env fuel el toElt.ty
            (locator ++ [PathElt.tupleElement idx]) with _ | conv <;>
          simp only [hco] at h
        · exact Option.noConfusion h
        have hconvty : conv.ty = toElt.ty := ih1 _ _ _ _ hco
        have hidxlen : idx < es.length := (List.getElem?_eq_some.mp hesi).1
        have hstep : ∀ stN : TupleLoopSt,
            tupleDestLoop env fuel locator fromFields n (i+1) rest' stN
              = some st' →
            (∀ j : Nat, i + 1 ≤ j → stN.sources[j]? = st.sources[j]?) →
            stN.elts = some (es.set idx conv) →
            st'.toSugarFields = stN.toSugarFields ++ rest' ∧
            (st'.anythingShuffled = false → stN.anythingShuffled = false ∧
               st'.hasVarArg = stN.hasVarArg ∧
               ∀ d : Nat, d < rest'.length →
                 st.sources[i+(d+1)]? = some (ShuffleEntry.src (i+(d+1)))) ∧
            (∀ es' : List Expr, st'.elts = some es' →
               es'.length = (es.set idx conv).length ∧
               ∀ m : Nat, (∀ d : Nat, d < rest'.length →
                    st.sources[i+(d+1)]? ≠ some (ShuffleEntry.src m)) →
                 es'[m]? = (es.set idx conv)[m]?) ∧
            (∀ es' : List Expr, st'.elts = some es' → ∀ (d k : Nat),
               d < rest'.length →
               st.sources[i+(d+1)]? = some (ShuffleEntry.src k) →
               ∃ (el2 : Expr) (fl : Fld), es'[k]? = some el2 ∧
                 rest'[d]? = some fl ∧ el2.ty = fl.ty) := by
          intro stN hN hsrcs helts
          have hEI' : EltsInv fromFields (i+1) stN := by
            intro j k es2 fl hij hsrc hels hfl
            rw [hsrcs j hij] at hsrc
            rw [helts] at hels
            cases hels
            have hkne : k ≠ idx := hknei j hij k hsrc
            obtain ⟨el2, he2, ht2⟩ := hEI j k es fl (by omega) hsrc hel hfl
            refine ⟨el2, ?_, ht2⟩
            rw [List.getElem?_set_ne (Ne.symm hkne)]
            exact he2
          have hND' : NodupFrom (i+1) stN := by
            intro j j' k hij hij' hne h1 h2
            rw [hsrcs j hij] at h1
            rw [hsrcs j' hij'] at h2
            exact hND j j' k (by omega) (by omega) hne h1 h2
          obtain ⟨iA, iB, iC, iD, iE⟩ := ih10 locator fromFields n (i+1)
            rest' stN st' hEI' hND' hN
          refine ⟨iA, ?_, ?_, ?_⟩
          · intro hf
            obtain ⟨b1, b2, b3⟩ := iB hf
            refine ⟨b1, b2, fun d hd => ?_⟩
            have hb := b3 d hd
            rw [hsrcs ((i+1)+d) (by omega)] at hb
            rwa [show (i+1)+d = i+(d+1) by omega] at hb
          · intro es' he'
            obtain ⟨cl, cu⟩ := iC (es.set idx conv) es' (by rw [helts]) he'
            refine ⟨cl, fun m hm => cu m fun d hd => ?_⟩
            rw [hsrcs ((i+1)+d) (by omega), show (i+1)+d = i+(d+1) by omega]
            exact hm d hd
          · intro es' he' d k hd hk
            refine iD es' he' d k hd ?_
            rw [hsrcs ((i+1)+d) (by omega), show (i+1)+d = i+(d+1) by omega]
            exact hk
        obtain ⟨jA, jB, jC, jD⟩ := hstep _ h (fun j hj => rfl) rfl
        have jA' : st'.toSugarFields
            = (st.toSugarFields ++
                [(⟨toElt.name, conv.ty, toElt.defArg, toElt.vararg⟩ :
                  Fld)]) ++ rest' := jA
        rw [hconvty] at jA'
        refine ⟨?_, ?_, ?_, ?_, ?_⟩
        · rw [jA', List.append_assoc]
          rfl
        · intro hf
          obtain ⟨b1, b2, b3⟩ := jB hf
          have b1' : (st.anythingShuffled || (idx != i)) = false := b1
          simp only [Bool.or_eq_false_iff, bne_eq_false_iff_eq] at b1'
          obtain ⟨hany0, hidx⟩ := b1'
          refine ⟨hany0, b2, fun d hd => ?_⟩
          cases d with
          | zero =>
            rw [Nat.add_zero, hsi, hidx]
          | succ d' => exact b3 d' (by simpa using hd)
        · intro es0 es' he he'
          cases he
          obtain ⟨cl, cu⟩ := jC es' he'
          refine ⟨by rw [cl]; exact List.length_set es idx conv,
            fun m hm => ?_⟩
          have hm0 : st.sources[i+0]? ≠ some (ShuffleEntry.src m) :=
            hm 0 (by simp)
          rw [Nat.add_zero, hsi] at hm0
          have hmne : m ≠ idx := by
            intro hmeq
            exact hm0 (by rw [hmeq])
          have := cu m fun d hd => hm (d+1) (by simpa using hd)
          rw [this, List.getElem?_set_ne (Ne.symm hmne)]
        · intro es' he' d k hd hk
          cases d with
          | zero =>
            rw [Nat.add_zero, hsi] at hk
            have hkidx : k = idx := by
              have := Option.some.inj hk
              cases this
              rfl
            obtain ⟨cl, cu⟩ := jC es' he'
            have huntouched : es'[idx]? = (es.set idx conv)[idx]? := by
              refine cu idx fun d hd hcontra => ?_
              exact hknei (i+(d+1)) (by omega) idx hcontra rfl
            refine ⟨conv, toElt, ?_, by simp, hconvty⟩
            rw [hkidx, huntouched]
            exact List.getElem?_set_eq (by simpa using hidxlen)
          | succ d' =>
            obtain ⟨el2, fl, h1, h2, h3⟩ := jD es' he' d' k
              (by simpa using hd) hk
            exact ⟨el2, fl, h1, by simpa using h2, h3⟩
        · intro hne
          exact Option.noConfusion hne
set_option maxHeartbeats 3200000 in
/-- One step of `coerceTupleToTuple`: under a well-formed shuffle, both the
no-shuffle literal rewrite and the allocated `TupleShuffleExpr` carry the
destination tuple type. -/
theorem coerceTupleToTuple_ty_step (env : Env) (fuel : Nat)
    (ih10 : DestLoopTy env fuel) (ih11 : VarLoopTy env fuel) :
    TupleTy env (fuel + 1) := by
  intro expr fromFields toFields locator sources variadicArgs e' hnd hty h
  unfold coerceTupleToTuple at h
  cases e : expr.stripParens <;> simp only [e] at h <;>
    first
    | (generalize hg : (none : Option (List Expr)) = elts0 at h
       rcases hd : tupleDestLoop env fuel locator fromFields
             toFields.length 0 toFields ⟨false, false, false, [],
               List.replicate fromFields.length none, [], none, sources,
               elts0⟩
         with _ | st1 <;> simp only [hd] at h <;>
         try exact Option.noConfusion h)
    | (rename_i es0 meta0
       generalize hg : some (Exprs.toList es0) = elts0 at h
       rcases hd : tupleDestLoop env fuel locator fromFields
             toFields.length 0 toFields ⟨false, false, false, [],
               List.replicate fromFields.length none, [], none, sources,
               elts0⟩
         with _ | st1 <;> simp only [hd] at h <;>
         try exact Option.noConfusion h)
  all_goals
      (have hdc : ∀ stN : TupleLoopSt,
           tupleDestLoop env fuel locator fromFields toFields.length 0
             toFields stN = some st1 →
           stN.sources = sources → stN.elts = elts0 →
           stN.anythingShuffled = false → stN.hasVarArg = false →
           stN.toSugarFields = [] →
           st1.toSugarFields = toFields ∧
           (st1.anythingShuffled = false → st1.hasVarArg = false ∧
              ∀ d : Nat, d < toFields.length →
                sources[d]? = some (ShuffleEntry.src d)) ∧
           (∀ es' : List Expr, st1.elts = some es' → ∀ (d k : Nat),
              d < toFields.length →
              sources[d]? = some (ShuffleEntry.src k) →
              ∃ (el : Expr) (fl : Fld), es'[k]? = some el ∧
                toFields[d]? = some fl ∧ el.ty = fl.ty) := by
         intro stN hN hs he ha hv hsg
         have hEI0 : EltsInv fromFields 0 stN := by
           intro j k es fl hij hsrc hels hfl
           rw [hs] at hsrc
           rw [he] at hels
           first
           | (rw [← hg] at hels
              exact Option.noConfusion hels)
           | (rw [← hg] at hels
              cases hels
              have h2 := Expr.stripParens_ty expr
              rw [e] at h2
              have h4 : Exprs.zipFlds meta0 es0 = Flds.ofList fromFields := by
                have h5 : Ty.tuple (Exprs.zipFlds meta0 es0)
                    = Ty.tuple (Flds.ofList fromFields) := by
                  rw [hty] at h2
                  exact h2
                exact Ty.tuple.inj h5
              have h3 : Flds.toList (Exprs.zipFlds meta0 es0) = fromFields := by
                rw [h4, Flds.toList_ofList]
              rw [← h3] at hfl
              have halign := Exprs.zipFlds_align meta0 es0 k fl hfl
              rcases Option.map_eq_some'.mp halign with ⟨el, helk, hety⟩
              exact ⟨el, helk, hety⟩)
         have hND0 : NodupFrom 0 stN := by
           intro j j' k hij hij' hne h1 h2
           rw [hs] at h1 h2
           exact hnd j j' k hne h1 h2
         obtain ⟨iA, iB, iC, iD, iE⟩ := ih10 locator fromFields
           toFields.length 0 toFields stN st1 hEI0 hND0 hN
         refine ⟨by rw [iA, hsg]; rfl, ?_, ?_⟩
         · intro hf
           obtain ⟨b1, b2, b3⟩ := iB hf
           refine ⟨by rw [b2, hv], fun d hd => ?_⟩
           have hb := b3 d hd
           rw [hs, Nat.zero_add] at hb
           exact hb
         · intro es' he2 d k hdlt hsrc
           refine iD es' he2 d k hdlt ?_
           rw [hs, Nat.zero_add]
           exact hsrc
       obtain ⟨hA1, hB1, hD1⟩ := hdc _ hd rfl rfl rfl rfl rfl
       rcases hv1 : st1.hasVarArg with _ | _ <;> simp [hv1] at h
       case false =>
         rcases hel : st1.elts with _ | es2 <;>
           rcases hsh : st1.anythingShuffled with _ | _ <;>
           simp [hel, hsh] at h <;>
           first
           | (subst h
              show (if st1.hasInits = true then Ty.mkTuple toFields
                    else Ty.mkTuple st1.toSugarFields) = Ty.mkTuple toFields
              rw [hA1]
              simp)
           | (subst h
              rw [Expr.replaceCore_ty]
              show Ty.tuple (Exprs.zipFlds
                  (Fld.metaOf (if st1.hasInits = true then toFields
                               else st1.toSugarFields))
                  (Exprs.ofList es2)) = Ty.mkTuple toFields
              rw [hA1]
              rw [show (if st1.hasInits = true then toFields else toFields)
                    = toFields from by simp]
              have hptw : ∀ (j : Nat) (f : Fld), toFields[j]? = some f →
                  ((es2[j]?).map Expr.ty) = some f.ty := by
                intro j f hjf
                have hjlt : j < toFields.length :=
                  (List.getElem?_eq_some.mp hjf).1
                have hident := (hB1 hsh).2 j hjlt
                obtain ⟨el, fl, h1, h2, h3⟩ := hD1 es2 hel j j hjlt hident
                rw [hjf] at h2
                have hfl : fl = f := by
                  have := Option.some.inj h2
                  rw [this]
                rw [h1]
                simp only [Option.map_some']
                rw [h3, hfl]
              rw [Exprs.zipFlds_metaOf toFields es2 hptw]
              rfl)
       case true =>
         rcases hgl : toFields.getLast? with _ | lastField <;>
           simp [hgl] at h
         rcases hvb : lastField.varargBaseTy with _ | tET <;> simp [hvb] at h
         rcases hvl : tupleVariadicLoop env fuel locator fromFields tET
             variadicArgs st1 with _ | st2 <;> simp [hvl] at h
         obtain ⟨hvs, hvi, hva, hvv⟩ := ih11 locator fromFields tET
           variadicArgs st1 st2 hvl
         cases hlt : lastField.ty <;> simp [hlt] at h
         rename_i t
         rcases hbi : env.buildArrayInjectionFnRef (Ty.slice t)
             (Ty.builtinInt 64) with _ | injFn <;> simp [hbi] at h
         rcases hel : st2.elts with _ | es2 <;>
           rcases hsh : st2.anythingShuffled with _ | _ <;>
           simp [hel, hsh] at h <;>
           first
           | (subst h
              show (if st2.hasInits = true then Ty.mkTuple toFields
                    else Ty.mkTuple st2.toSugarFields) = Ty.mkTuple toFields
              rw [hvs, hA1]
              simp)
           | (exact absurd ((hB1 (by rw [← hva]; exact hsh)).1)
               (by rw [hv1]; exact Bool.noConfusion)))
/-- Soundness of the whole coercion engine, by induction on the recursion
depth: every entry point stamps the requested type on the expression it
returns. -/
theorem coerceAll_ty (env : Env) (hsh : ShuffleSound env) : ∀ fuel : Nat,
    CoerceTy (coerceToType env) fuel ∧
    CoerceTy (coerceTupleStep env) fuel ∧
    CoerceTy (coerceScalarCheckStep env) fuel ∧
    CoerceTy (coerceLValueStep env) fuel ∧
    CoerceTy (coerceSuperStep env) fuel ∧
    CoerceTy (coerceFuncStep env) fuel ∧
    CoerceTy (coerceExistentialStep env) fuel ∧
    CoerceTy (coerceViaUserConversion env) fuel ∧
    TupleTy env fuel ∧
    DestLoopTy env fuel ∧
    VarLoopTy env fuel := by
  intro fuel
  induction fuel with
  | zero =>
    exact ⟨fun e t l e' hc => Option.noConfusion hc,
      fun e t l e' hc => Option.noConfusion hc,
      fun e t l e' hc => Option.noConfusion hc,
      fun e t l e' hc => Option.noConfusion hc,
      fun e t l e' hc => Option.noConfusion hc,
      fun e t l e' hc => Option.noConfusion hc,
      fun e t l e' hc => Option.noConfusion hc,
      fun e t l e' hc => Option.noConfusion hc,
      fun e ff tf l s v e' hn ht hc => Option.noConfusion hc,
      fun l ff n i r st st' hE hN hc => Option.noConfusion hc,
      fun l ff t a st st' hc => Option.noConfusion hc⟩
  | succ fuel ih =>
    obtain ⟨ih1, ih2, ih3, ih4, ih5, ih6, ih7, ih8, ih9, ih10, ih11⟩ := ih
    exact ⟨coerceToType_ty_step env fuel ih1 ih2 ih8,
      coerceTupleStep_ty_step env fuel hsh ih3 ih4 ih9,
      coerceScalarCheckStep_ty_step env fuel ih4,
      coerceLValueStep_ty_step env fuel ih1 ih5,
      coerceSuperStep_ty_step env fuel ih6,
      coerceFuncStep_ty_step env fuel ih1 ih7,
      coerceExistentialStep_ty_step env fuel ih1 ih8,
      coerceViaUserConversion_ty_step env fuel ih1,
      coerceTupleToTuple_ty_step env fuel ih10 ih11,
      tupleDestLoop_ty_step env fuel ih1 ih10,
      tupleVariadicLoop_ty_step env fuel ih11⟩

/-- C1: for every conversion the solver recorded as valid — modelled as a
successful run of `coerceToType` under an environment whose external
`computeTupleShuffle` only emits well-formed shuffles (no source index
consumed twice, as the solver guarantees) — the returned expression's type
equals the requested destination type under canonical-type equality: every
coercion node the engine produces records the target type of its stage as
its own type. -/
theorem coerceToType_result_ty (env : Env) (hsh : ShuffleSound env)
    (fuel : Nat) (expr : Expr) (toType : Ty) (locator : Loc) (e' : Expr)
    (h : coerceToType env fuel expr toType locator = some e') :
    e'.ty = toType :=
  (coerceAll_ty env hsh fuel).1 expr toType locator e' h

/-- Witness for C1 at a concrete input: an lvalue-to-rvalue coercion that
inserts a `LoadExpr` typed with the destination type. -/
theorem coerceToType_result_ty_witness :
    (Expr.load (Expr.otherE 5 (Ty.lvalue (Ty.nominal 3) false))
      (Ty.nominal 3)).ty = Ty.nominal 3 :=
  coerceToType_result_ty trivialEnv
    (fun a b c p hp => Option.noConfusion hp) 9
    (Expr.otherE 5 (Ty.lvalue (Ty.nominal 3) false)) (Ty.nominal 3) []
    (Expr.load (Expr.otherE 5 (Ty.lvalue (Ty.nominal 3) false))
      (Ty.nominal 3)) rfl
